import Mathlib

/-!
# MT32Emu `Part.cpp`: a shallow embedding

The embedding follows `src/external/mt32emu/src/Part.cpp`, function by function.

* Machine integers are `Nat` / `Int` with explicit wrap-around: `Bit8u` values are
  reduced modulo `2^8`, `Bit16u` modulo `2^16`, `unsigned int` modulo `2^32`, and
  `int` / `Bit32s` results go through `toInt32`.
* A `Part` holds the fields of the C++ class, with the types `Part.h` declares for
  them: `Bit8u volumeOverride, modulation, expression`, `Bit32s pitchBend`,
  `Bit16u rpn, pitchBenderRange`, `unsigned int` counters. `patchTemp` and
  `timbreTemp` point into the synth RAM; the record carries the pointee.
* `activePolys` is kept as the sequence of `Poly *` that the `PolyList` links together,
  head first; a loop `for (poly = getFirst(); poly != NULL; poly = poly->getNext())` is a
  recursion over that sequence.
  The linked implementation itself (`firstPoly`, `lastPoly` and the `next` pointer of
  every `Poly`) is `Intrusive.PolyList`, and it is related to the sequence further down.
* `Poly`, `Partial`, `PartialManager`, `Synth` and the report handler live in other
  translation units. A `Poly *` is a `PolyRef`; everything behind those classes is an
  abstract world `W`, reached only through the operations of `Env W`, which may be any
  functions. Every call that leaves `Part.cpp` is written to a trace, together with the
  world in which it was made. The callbacks by which those classes come back to the
  part (`polyStateChanged`, `partialDeactivated`) are entry points of their own.
* The `MT32EMU_MONITOR_*` and `MT32EMU_POLY_LIST_DEBUG` blocks are compiled out
  (their default), so only the unconditional `printDebug` calls appear.
-/

namespace MT32Emu

/-! ## Machine arithmetic -/

/-- Value of a two's complement 32-bit `int` holding the mathematical integer `x`. -/
def toInt32 (x : Int) : Int := (x + 2147483648) % 4294967296 - 2147483648

/-- Conversion to `unsigned int`. -/
def toUInt32 (x : Int) : Nat := (x % 4294967296).toNat

/-- What `n++` leaves in an `unsigned int` that holds `n`: the largest value wraps to 0. -/
def incUInt32 (n : Nat) : Nat := if n = 4294967295 then 0 else n + 1

/-- What `n--` leaves in an `unsigned int` that holds `n`: 0 wraps to the largest value. -/
def decUInt32 (n : Nat) : Nat := if n = 0 then 4294967295 else n - 1

/-- Conversion to `Bit8u`. -/
def toBit8u (x : Nat) : Nat := x % 256

/-- Conversion to `Bit16u`. -/
def toBit16u (x : Nat) : Nat := x % 65536

/-! ## Data model (`Structures.h`, `Part.h`): the fields `Part.cpp` uses -/

abbrev PolyRef := Nat

abbrev PartialRef := Nat

inductive PolyState where
  | POLY_Playing
  | POLY_Held
  | POLY_Releasing
  | POLY_Inactive
  deriving DecidableEq, Repr

structure PatchParam where
  timbreGroup : Nat
  timbreNum : Nat
  keyShift : Nat
  fineTune : Nat
  benderRange : Nat
  assignMode : Nat
  reverbSwitch : Nat
  deriving DecidableEq, Repr

structure PatchTemp where
  patch : PatchParam
  outputLevel : Nat
  panpot : Nat
  deriving DecidableEq, Repr

structure RhythmTemp where
  timbre : Nat
  outputLevel : Nat
  panpot : Nat
  reverbSwitch : Nat
  deriving DecidableEq, Repr

/-- The wave generator block of `TimbreParam::PartialParam`. -/
structure WGParam where
  pcmWave : Nat
  waveform : Nat
  deriving DecidableEq, Repr

/-- One `TimbreParam::PartialParam`: the wave generator fields read by `cacheTimbre`,
and the remaining bytes of the block, which `Part.cpp` only copies. -/
structure PartialParam where
  wg : WGParam
  rest : List Nat
  deriving DecidableEq, Repr

structure CommonParam where
  name : List Nat
  partialStructure12 : Nat
  partialStructure34 : Nat
  partialMute : Nat
  noSustain : Nat
  deriving DecidableEq, Repr

/-- A `TimbreParam`; the C++ member `partial[4]` is called `partials` here. -/
structure TimbreParam where
  common : CommonParam
  partials : Fin 4 → PartialParam

/-- Where a `TimbreParam` handed to `cacheTimbre` lives in the synth RAM. -/
inductive TimbreLoc where
  | timbreTemp (partNum : Nat)
  | timbres (absTimbreNum : Nat)
  deriving DecidableEq, Repr

/-- A `const TimbreParam::PartialParam *` into live synth RAM. -/
structure PartialParamPtr where
  loc : TimbreLoc
  index : Nat
  deriving DecidableEq, Repr

structure PatchCache where
  playPartial : Bool
  PCMPartial : Bool
  pcm : Int
  waveform : Nat
  structureMix : Nat
  structurePosition : Int
  structurePair : Int
  dirty : Bool
  partialCount : Nat
  sustain : Bool
  reverb : Bool
  srcPartial : PartialParam
  partialParam : Option PartialParamPtr
  deriving DecidableEq, Repr

/-- A `PatchCache cache[4]`. -/
abbrev PatchCacheArr := Fin 4 → PatchCache

/-- Which `PatchCache[4]` a pointer designates: the melodic `patchCache` or one row of
`drumCache`. -/
inductive CacheLoc where
  | patchCache
  | drumCache (drumNum : Nat)
  deriving DecidableEq, Repr

/-- The `ControlROMFeatureSet` flags read by `Part.cpp`. -/
structure ControlROMFeatureSet where
  quirkPanMult : Bool
  quirkKeyShift : Bool
  deriving DecidableEq, Repr

/-- The `ControlROMMap` entries read by `Part.cpp`. -/
structure ControlROMMap where
  timbreRCount : Nat
  rhythmSettingsCount : Nat
  deriving DecidableEq, Repr

/-- The arrays of `synth->mt32ram` that `Part.cpp` addresses; `timbres n` is
`mt32ram.timbres[n].timbre`. -/
structure MemParams where
  patchTemp : Nat → PatchTemp
  timbreTemp : Nat → TimbreParam
  rhythmTemp : Nat → RhythmTemp
  timbres : Nat → TimbreParam

/-- The part of `Synth` that `Part.cpp` reads directly. -/
structure SynthConfig where
  controlROMFeatures : ControlROMFeatureSet
  controlROMMap : ControlROMMap
  mt32ram : MemParams

/-- The fields of `class Part`. `activePolys` is the `PolyList`, kept as the sequence of
`Poly *` reached from `firstPoly` through the `next` links. -/
structure Part where
  partNum : Nat
  holdpedal : Bool
  patchTemp : PatchTemp
  timbreTemp : Option TimbreParam
  patchCache : PatchCacheArr
  currentInstr : List Nat
  volumeOverride : Nat
  modulation : Nat
  expression : Nat
  pitchBend : Int
  nrpn : Bool
  rpn : Nat
  pitchBenderRange : Nat
  activePartialCount : Nat
  activeNonReleasingPolyCount : Nat
  activePolys : List PolyRef

/-- The fields of `class RhythmPart : public Part`. -/
structure RhythmPart extends Part where
  rhythmTemp : Nat → RhythmTemp
  drumCache : Nat → PatchCacheArr

/-! ## Controllers -/

/-- `Part::updatePitchBenderRange`. -/
def Part.updatePitchBenderRange (p : Part) : Part :=
  { p with pitchBenderRange := toBit16u (p.patchTemp.patch.benderRange * 683) }

/-- `Part::setBend`: `((signed(midiBend) - 8192) * pitchBenderRange) >> 14`, with an
arithmetic right shift. -/
def Part.setBend (p : Part) (midiBend : Nat) : Part :=
  { p with
    pitchBend :=
      toInt32 (toInt32 (toInt32 midiBend - 8192) * (p.pitchBenderRange : Int)) >>> (14 : Nat) }

/-- `Part::getPitchBend`. -/
def Part.getPitchBend (p : Part) : Int := p.pitchBend

/-- `Part::setVolume`. -/
def Part.setVolume (p : Part) (midiVolume : Nat) : Part :=
  { p with
    patchTemp :=
      { p.patchTemp with outputLevel := toBit8u ((midiVolume * 100) % 4294967296 / 127) } }

/-- `Part::getVolume`. -/
def Part.getVolume (p : Part) : Nat :=
  if p.volumeOverride ≤ 100 then p.volumeOverride else p.patchTemp.outputLevel

/-- `Part::getVolumeOverride`. -/
def Part.getVolumeOverride (p : Part) : Nat := p.volumeOverride

/-- `Part::getExpression`. -/
def Part.getExpression (p : Part) : Nat := p.expression

/-- `Part::setExpression`. -/
def Part.setExpression (p : Part) (midiExpression : Nat) : Part :=
  { p with expression := toBit8u ((midiExpression * 100) % 4294967296 / 127) }

/-- `Part::setPan`. -/
def Part.setPan (synth : SynthConfig) (p : Part) (midiPan : Nat) : Part :=
  if synth.controlROMFeatures.quirkPanMult then
    { p with patchTemp := { p.patchTemp with panpot := toBit8u (midiPan / 9) } }
  else
    { p with
      patchTemp :=
        { p.patchTemp with panpot := toBit8u ((midiPan <<< 3) % 4294967296 / 68) } }

/-- `RhythmPart::setPan`: delegates to `Part::setPan`. -/
def RhythmPart.setPan (synth : SynthConfig) (rp : RhythmPart) (midiPan : Nat) : RhythmPart :=
  { rp with toPart := rp.toPart.setPan synth midiPan }

/-! ## Key mapping -/

/-- The loop `while (key < 36) key += 12;`. -/
def midiKeyToKey.moveUp (key : Int) : Int :=
  if key < 36 then midiKeyToKey.moveUp (toInt32 (key + 12)) else key
termination_by (36 - key).toNat
decreasing_by
  simp only [toInt32]
  omega

/-- The loop `while (key > 132) key -= 12;`. -/
def midiKeyToKey.moveDown (key : Int) : Int :=
  if key > 132 then midiKeyToKey.moveDown (toInt32 (key - 12)) else key
termination_by (key - 132).toNat
decreasing_by
  simp only [toInt32]
  omega

/-- `Part::midiKeyToKey`. -/
def Part.midiKeyToKey (synth : SynthConfig) (p : Part) (midiKey : Nat) : Nat :=
  if synth.controlROMFeatures.quirkKeyShift then
    midiKey
  else
    let key : Int := toInt32 ((midiKey + p.patchTemp.patch.keyShift) % 4294967296 : Nat)
    let key : Int :=
      if key < 36 then midiKeyToKey.moveUp key
      else if key > 132 then midiKeyToKey.moveDown key
      else key
    toUInt32 (toInt32 (key - 24))

/-! ## Calls that leave `Part.cpp` -/

/-- The unconditional `synth->printDebug` messages of the embedded functions. -/
inductive Diag where
  | invalidKey (midiKey velocity : Nat)
  | unmappedKey (midiKey velocity : Nat)
  | mutedInstrument
  | noFreePoly (midiKey velocity : Nat)
  deriving DecidableEq, Repr

/-- A call from `Part.cpp` into `Poly`, `Partial`, `PartialManager`, `Synth` or the report
handler, with its arguments. Pointers into the part are passed with what they point to. -/
inductive Call where
  | printDebug (d : Diag)
  | rhythmNotePlayed
  | polyBackupCacheToPartials (poly : PolyRef) (cacheLoc : CacheLoc) (cache : List PatchCache)
  | polyStartAbort (poly : PolyRef)
  | polyStartDecay (poly : PolyRef)
  | polyNoteOff (poly : PolyRef) (pedalHeld : Bool)
  | polyStopPedalHold (poly : PolyRef)
  | freePartials (needed partNum : Nat)
  | assignPolyToPart (partNum : Nat)
  | allocPartial (partNum : Nat)
  | polyReset (poly : PolyRef) (key velocity : Nat) (sustain : Bool)
      (partials : List (Option PartialRef))
  | startPartial (unit : PartialRef) (partNum : Nat) (poly : PolyRef) (cacheLoc : CacheLoc)
      (slot : Nat) (cache : PatchCache) (rhythmTemp : Option RhythmTemp)
      (pair : Option PartialRef)
  | polyFreed (poly : PolyRef)
  | onPolyStateChanged (partNum : Nat)
  | voicePartStateChanged (partNum : Nat) (activated : Bool)
  deriving DecidableEq, Repr

/-- The classes behind `Part.cpp`, over an arbitrary world `W`: the `const` queries, the
world after a call, and the value a call returns. -/
structure Env (W : Type) where
  polyGetKey : W → PolyRef → Nat
  polyCanSustain : W → PolyRef → Bool
  polyGetState : W → PolyRef → PolyState
  polyIsActive : W → PolyRef → Bool
  isAbortingPoly : W → Bool
  exec : W → Call → W
  retBool : W → Call → Bool
  retPoly : W → Call → Option PolyRef
  retPartial : W → Call → Option PartialRef

/-- The world outside the part, and the calls made so far, each with the world in which it
was made. -/
structure Ext (W : Type) where
  world : W
  calls : List (W × Call)

/-- Make the call `c`: the world moves on and the call is recorded. -/
def Ext.call {W : Type} (E : Env W) (x : Ext W) (c : Call) : Ext W :=
  { world := E.exec x.world c, calls := x.calls ++ [(x.world, c)] }

/-! ## `PolyList` as a sequence -/

/-- `PolyList::isEmpty`. -/
def PolyList.isEmpty (l : List PolyRef) : Bool := l.isEmpty

/-- `PolyList::getFirst`. -/
def PolyList.getFirst (l : List PolyRef) : Option PolyRef := l.head?

/-- `PolyList::prepend`. -/
def PolyList.prepend (l : List PolyRef) (poly : PolyRef) : List PolyRef := poly :: l

/-- `PolyList::append`. -/
def PolyList.append (l : List PolyRef) (poly : PolyRef) : List PolyRef := l ++ [poly]

/-- `PolyList::remove`: the first node that is `polyToRemove` is unlinked, and the scan
stops there. -/
def PolyList.remove (l : List PolyRef) (polyToRemove : PolyRef) : List PolyRef :=
  l.erase polyToRemove

/-! ## `PolyList` as linked nodes

`Part.cpp` implements `PolyList` with a head pointer, a tail pointer and one `next` pointer
in every `Poly`. This is that implementation, statement by statement; `none` is `NULL`. -/

namespace Intrusive

/-- The memory a `PolyList` works on: its two pointers and the `next` pointer of every
`Poly`. -/
structure PolyList where
  firstPoly : Option PolyRef
  lastPoly : Option PolyRef
  next : PolyRef → Option PolyRef

/-- Modelled from the spec: `Poly::getNext`, which is not among the sources. Section 9: the
list of voices is intrusive, every voice carries its next-pointer; this reads it. -/
def PolyList.getNext (m : PolyList) (poly : PolyRef) : Option PolyRef := m.next poly

/-- Modelled from the spec: `Poly::setNext`, which is not among the sources. Section 9: the
list of voices is intrusive, every voice carries its next-pointer; this writes it and nothing
else. -/
def PolyList.setNext (m : PolyList) (poly : PolyRef) (n : Option PolyRef) : PolyList :=
  { m with next := Function.update m.next poly n }

/-- `PolyList::PolyList`, over voices whose `next` pointers are `next`. -/
def PolyList.new (next : PolyRef → Option PolyRef) : PolyList :=
  { firstPoly := none, lastPoly := none, next := next }

/-- `PolyList::isEmpty`. -/
def PolyList.isEmpty (m : PolyList) : Bool :=
  decide (m.firstPoly = none) && decide (m.lastPoly = none)

/-- `PolyList::getFirst`. -/
def PolyList.getFirst (m : PolyList) : Option PolyRef := m.firstPoly

/-- `PolyList::getLast`. -/
def PolyList.getLast (m : PolyList) : Option PolyRef := m.lastPoly

/-- `PolyList::prepend`. -/
def PolyList.prepend (m : PolyList) (poly : PolyRef) : PolyList :=
  let m := m.setNext poly m.firstPoly
  let m := { m with firstPoly := some poly }
  if m.lastPoly = none then { m with lastPoly := some poly } else m

/-- `PolyList::append`. -/
def PolyList.append (m : PolyList) (poly : PolyRef) : PolyList :=
  let m := m.setNext poly none
  let m :=
    match m.lastPoly with
    | some last => m.setNext last (some poly)
    | none => m
  let m := { m with lastPoly := some poly }
  if m.firstPoly = none then { m with firstPoly := some poly } else m

/-- `PolyList::takeFirst`: the old head and the memory it leaves. On an empty list the C++
reads `firstPoly->getNext()` through a null pointer: that is `none`. -/
def PolyList.takeFirst (m : PolyList) : Option (PolyRef × PolyList) :=
  match m.firstPoly with
  | none => none
  | some oldFirst =>
    let m := { m with firstPoly := m.getNext oldFirst }
    let m := if m.firstPoly = none then { m with lastPoly := none } else m
    some (oldFirst, m.setNext oldFirst none)

/-- The loop of `PolyList::remove`, at node `poly`. `fuel` bounds the number of rounds;
`none` means that the bound was reached before the loop ended. -/
def PolyList.remove.scan (polyToRemove : PolyRef) :
    Nat → Option PolyRef → PolyList → Option PolyList
  | _, none, m => some m
  | 0, some _, _ => none
  | fuel + 1, some poly, m =>
    if m.getNext poly = some polyToRemove then
      let m := if some polyToRemove = m.lastPoly then { m with lastPoly := some poly } else m
      let m := m.setNext poly (m.getNext polyToRemove)
      some (m.setNext polyToRemove none)
    else
      PolyList.remove.scan polyToRemove fuel (m.getNext poly) m

/-- `PolyList::remove`, with a bound on the rounds of its loop. -/
def PolyList.remove (m : PolyList) (polyToRemove : PolyRef) (fuel : Nat) : Option PolyList :=
  if some polyToRemove = m.firstPoly then
    m.takeFirst.map Prod.snd
  else
    PolyList.remove.scan polyToRemove fuel m.firstPoly m

/-- Following `next` from `start` one meets the nodes of the list, in order, and then
`stop`. -/
def PolyList.path (next : PolyRef → Option PolyRef) :
    Option PolyRef → List PolyRef → Option PolyRef → Prop
  | start, [], stop => start = stop
  | start, b :: l, stop => start = some b ∧ PolyList.path next (next b) l stop

instance PolyList.path.decidable (next : PolyRef → Option PolyRef) :
    ∀ (start : Option PolyRef) (l : List PolyRef) (stop : Option PolyRef),
      Decidable (PolyList.path next start l stop)
  | start, [], stop => inferInstanceAs (Decidable (start = stop))
  | start, b :: l, stop =>
    have := PolyList.path.decidable next (next b) l stop
    inferInstanceAs (Decidable (start = some b ∧ PolyList.path next (next b) l stop))

/-- The list in memory is well formed and holds the sequence `l`: the nodes from `firstPoly`
along `next` as far as `NULL` are `l`, and `lastPoly` is the last of them (`NULL` when there
is none). -/
def PolyList.Represents (m : PolyList) (l : List PolyRef) : Prop :=
  PolyList.path m.next m.firstPoly l none ∧ m.lastPoly = l.getLast?

instance PolyList.Represents.decidable (m : PolyList) (l : List PolyRef) :
    Decidable (m.Represents l) :=
  inferInstanceAs (Decidable (PolyList.path m.next m.firstPoly l none ∧ m.lastPoly = l.getLast?))

end Intrusive

/-! ## Volume override and "all sound off" -/

/-- `Part::allSoundOff`: `startDecay()` on every poly of the list, in order. -/
def Part.allSoundOff {W : Type} (E : Env W) (p : Part) (x : Ext W) : Ext W :=
  p.activePolys.foldl (fun x poly => x.call E (Call.polyStartDecay poly)) x

/-- `Part::setVolumeOverride`; `volume` is a `Bit8u`. -/
def Part.setVolumeOverride {W : Type} (E : Env W) (p : Part) (volume : Nat) (x : Ext W) :
    Part × Ext W :=
  let p := { p with volumeOverride := volume }
  if volume = 0 then (p, p.allSoundOff E x) else (p, x)

/-! ## Patch cache -/

def PartialStruct : List Nat := [0, 0, 2, 2, 1, 3, 3, 0, 3, 0, 2, 1, 3]

def PartialMixStruct : List Nat := [0, 1, 0, 1, 1, 0, 1, 3, 3, 2, 2, 2, 2]

/-- `Part::backupCacheToPartials`. -/
def Part.backupCacheToPartials {W : Type} (E : Env W) (p : Part) (cacheLoc : CacheLoc)
    (cache : PatchCacheArr) (x : Ext W) : Ext W :=
  p.activePolys.foldl
    (fun x poly => x.call E (Call.polyBackupCacheToPartials poly cacheLoc (List.ofFn cache))) x

/-- The `switch (t)` of `cacheTimbre`, applied to the entry of slot `t`. A structure
selector outside the 13-entry tables reads past the table in C++; here it reads `0`. -/
def cacheTimbre.switch (timbre : TimbreParam) (t : Nat) (e : PatchCache) : PatchCache :=
  match t with
  | 0 =>
    { e with
      PCMPartial := (PartialStruct.getD timbre.common.partialStructure12 0) &&& 2 != 0
      structureMix := PartialMixStruct.getD timbre.common.partialStructure12 0
      structurePosition := 0
      structurePair := 1 }
  | 1 =>
    { e with
      PCMPartial := (PartialStruct.getD timbre.common.partialStructure12 0) &&& 1 != 0
      structureMix := PartialMixStruct.getD timbre.common.partialStructure12 0
      structurePosition := 1
      structurePair := 0 }
  | 2 =>
    { e with
      PCMPartial := (PartialStruct.getD timbre.common.partialStructure34 0) &&& 2 != 0
      structureMix := PartialMixStruct.getD timbre.common.partialStructure34 0
      structurePosition := 0
      structurePair := 3 }
  | 3 =>
    { e with
      PCMPartial := (PartialStruct.getD timbre.common.partialStructure34 0) &&& 1 != 0
      structureMix := PartialMixStruct.getD timbre.common.partialStructure34 0
      structurePosition := 1
      structurePair := 2 }
  | _ => e

/-- What the first loop of `cacheTimbre` writes to `cache[t]` when slot `t` plays. -/
def cacheTimbre.active (timbreLoc : TimbreLoc) (timbre : TimbreParam) (t : Fin 4)
    (e : PatchCache) : PatchCache :=
  let e : PatchCache :=
    { e with
      playPartial := true
      srcPartial := timbre.partials t
      pcm := (timbre.partials t).wg.pcmWave }
  let e := cacheTimbre.switch timbre t.val e
  { e with
    partialParam := some { loc := timbreLoc, index := t.val }
    waveform := (timbre.partials t).wg.waveform }

/-- One round of the first loop of `cacheTimbre`, for slot `t`. The state is the cache and
the local `partialCount`. -/
def cacheTimbre.slot (timbreLoc : TimbreLoc) (timbre : TimbreParam)
    (st : PatchCacheArr × Int) (t : Fin 4) : PatchCacheArr × Int :=
  if (timbre.common.partialMute >>> t.val) &&& 1 = 1 then
    (Function.update st.1 t (cacheTimbre.active timbreLoc timbre t (st.1 t)),
      toInt32 (st.2 + 1))
  else
    (Function.update st.1 t { st.1 t with playPartial := false }, st.2)

/-- One round of the second loop of `cacheTimbre`: the parameters stored redundantly. -/
def cacheTimbre.common (timbre : TimbreParam) (partialCount : Int) (cache : PatchCacheArr)
    (t : Fin 4) : PatchCacheArr :=
  Function.update cache t
    { cache t with
      dirty := false
      partialCount := toUInt32 partialCount
      sustain := timbre.common.noSustain = 0 }

/-- The cache that `Part::cacheTimbre` leaves in `cache[0..3]`. -/
def cacheTimbre.build (cache : PatchCacheArr) (timbreLoc : TimbreLoc) (timbre : TimbreParam) :
    PatchCacheArr :=
  let st := (List.finRange 4).foldl (cacheTimbre.slot timbreLoc timbre) (cache, 0)
  (List.finRange 4).foldl (cacheTimbre.common timbre st.2) st.1

/-- `Part::cacheTimbre`: the backup pass over the active polys, then the rebuild. -/
def Part.cacheTimbre {W : Type} (E : Env W) (p : Part) (cacheLoc : CacheLoc)
    (cache : PatchCacheArr) (timbreLoc : TimbreLoc) (timbre : TimbreParam) (x : Ext W) :
    PatchCacheArr × Ext W :=
  (cacheTimbre.build cache timbreLoc timbre, p.backupCacheToPartials E cacheLoc cache x)

/-! ## Note-off -/

/-- The loop of `Part::stopNote` over the polys still to visit. -/
def Part.stopNote.scan {W : Type} (E : Env W) (holdpedal : Bool) (key : Nat) :
    List PolyRef → Ext W → Ext W
  | [], x => x
  | poly :: rest, x =>
    if E.polyGetKey x.world poly = key ∧ (E.polyCanSustain x.world poly = true ∨ key = 0) then
      if E.retBool x.world (Call.polyNoteOff poly (holdpedal && key != 0)) = true then
        x.call E (Call.polyNoteOff poly (holdpedal && key != 0))
      else
        Part.stopNote.scan E holdpedal key rest
          (x.call E (Call.polyNoteOff poly (holdpedal && key != 0)))
    else
      Part.stopNote.scan E holdpedal key rest x

/-- `Part::stopNote`. -/
def Part.stopNote {W : Type} (E : Env W) (p : Part) (key : Nat) (x : Ext W) : Ext W :=
  Part.stopNote.scan E p.holdpedal key p.activePolys x

/-- `Part::noteOff`. -/
def Part.noteOff {W : Type} (E : Env W) (synth : SynthConfig) (p : Part) (midiKey : Nat)
    (x : Ext W) : Ext W :=
  p.stopNote E (p.midiKeyToKey synth midiKey) x

/-- `RhythmPart::noteOff`. -/
def RhythmPart.noteOff {W : Type} (E : Env W) (rp : RhythmPart) (midiKey : Nat) (x : Ext W) :
    Ext W :=
  rp.toPart.stopNote E midiKey x

/-! ## Note-on admission -/

/-- The scan of `Part::abortFirstPoly(unsigned int key)` over the polys still to visit. -/
def Part.abortFirstPolyKey.scan {W : Type} (E : Env W) (key : Nat) :
    List PolyRef → Ext W → Bool × Ext W
  | [], x => (false, x)
  | poly :: rest, x =>
    if E.polyGetKey x.world poly = key then
      (E.retBool x.world (Call.polyStartAbort poly), x.call E (Call.polyStartAbort poly))
    else
      Part.abortFirstPolyKey.scan E key rest x

/-- `Part::abortFirstPoly(unsigned int key)`. -/
def Part.abortFirstPolyKey {W : Type} (E : Env W) (p : Part) (key : Nat) (x : Ext W) :
    Bool × Ext W :=
  Part.abortFirstPolyKey.scan E key p.activePolys x

/-- One round of the first slot loop of `playPoly`. The state is the local `partials`
filled so far, `activePartialCount`, and the outside. -/
def Part.playPoly.alloc {W : Type} (E : Env W) (partNum : Nat) (cache : PatchCacheArr)
    (st : List (Option PartialRef) × Nat × Ext W) (t : Fin 4) :
    List (Option PartialRef) × Nat × Ext W :=
  if (cache t).playPartial = true then
    (st.1 ++ [E.retPartial st.2.2.world (Call.allocPartial partNum)],
      (st.2.1 + 1) % 4294967296,
      st.2.2.call E (Call.allocPartial partNum))
  else
    (st.1 ++ [none], st.2.1, st.2.2)

/-- One round of the second slot loop of `playPoly`. A negative `structurePair` indexes
before `partials` in C++; here it reads slot `0`, and an index past the end reads `NULL`. -/
def Part.playPoly.start {W : Type} (E : Env W) (partNum : Nat) (poly : PolyRef)
    (cacheLoc : CacheLoc) (cache : PatchCacheArr) (rhythmTemp : Option RhythmTemp)
    (partials : List (Option PartialRef)) (x : Ext W) (t : Fin 4) : Ext W :=
  match partials.getD t.val none with
  | some u =>
    x.call E
      (Call.startPartial u partNum poly cacheLoc t.val (cache t) rhythmTemp
        (partials.getD (cache t).structurePair.toNat none))
  | none => x

/-- `Part::playPoly` from the `freePartials` request on. -/
def Part.playPoly.admission {W : Type} (E : Env W) (p : Part) (cacheLoc : CacheLoc)
    (cache : PatchCacheArr) (rhythmTemp : Option RhythmTemp) (midiKey key velocity : Nat)
    (x : Ext W) : Part × Ext W :=
  let needPartials := (cache 0).partialCount
  if E.retBool x.world (Call.freePartials needPartials p.partNum) = false then
    (p, x.call E (Call.freePartials needPartials p.partNum))
  else
    let x := x.call E (Call.freePartials needPartials p.partNum)
    if E.isAbortingPoly x.world = true then (p, x)
    else
      match E.retPoly x.world (Call.assignPolyToPart p.partNum) with
      | none =>
        (p, (x.call E (Call.assignPolyToPart p.partNum)).call E
          (Call.printDebug (Diag.noFreePoly midiKey velocity)))
      | some poly =>
        let x := x.call E (Call.assignPolyToPart p.partNum)
        let activePolys :=
          if p.patchTemp.patch.assignMode &&& 1 ≠ 0 then PolyList.prepend p.activePolys poly
          else PolyList.append p.activePolys poly
        let st :=
          (List.finRange 4).foldl (Part.playPoly.alloc E p.partNum cache)
            ([], p.activePartialCount, x)
        let x := st.2.2.call E (Call.polyReset poly key velocity (cache 0).sustain st.1)
        let x :=
          (List.finRange 4).foldl
            (Part.playPoly.start E p.partNum poly cacheLoc cache rhythmTemp st.1) x
        ({ p with activePolys := activePolys, activePartialCount := st.2.1 },
          x.call E (Call.onPolyStateChanged (toBit8u p.partNum)))

/-- `Part::playPoly`. -/
def Part.playPoly {W : Type} (E : Env W) (p : Part) (cacheLoc : CacheLoc)
    (cache : PatchCacheArr) (rhythmTemp : Option RhythmTemp) (midiKey key velocity : Nat)
    (x : Ext W) : Part × Ext W :=
  if (cache 0).partialCount = 0 then
    (p, x.call E (Call.printDebug Diag.mutedInstrument))
  else if p.patchTemp.patch.assignMode &&& 2 = 0 then
    let x := (p.abortFirstPolyKey E key x).2
    if E.isAbortingPoly x.world = true then (p, x)
    else Part.playPoly.admission E p cacheLoc cache rhythmTemp midiKey key velocity x
  else
    Part.playPoly.admission E p cacheLoc cache rhythmTemp midiKey key velocity x

/-- `Part::noteOn`. With a dirty cache and `timbreTemp == NULL` the C++ dereferences a
null pointer: that is `none`. -/
def Part.noteOn {W : Type} (E : Env W) (synth : SynthConfig) (p : Part)
    (midiKey velocity : Nat) (x : Ext W) : Option (Part × Ext W) :=
  let key := p.midiKeyToKey synth midiKey
  if (p.patchCache 0).dirty = true then
    match p.timbreTemp with
    | none => none
    | some timbre =>
      let r :=
        p.cacheTimbre E CacheLoc.patchCache p.patchCache (TimbreLoc.timbreTemp p.partNum)
          timbre x
      some (Part.playPoly E { p with patchCache := r.1 } CacheLoc.patchCache r.1 none
        midiKey key velocity r.2)
  else
    some (Part.playPoly E p CacheLoc.patchCache p.patchCache none midiKey key velocity x)

/-- `RhythmPart::noteOn` from `absTimbreNum` on, with the local `key` settled: the lazy
rebuild of the drum's cache, and the admission. -/
def RhythmPart.noteOn.start {W : Type} (E : Env W) (synth : SynthConfig) (rp : RhythmPart)
    (midiKey key velocity drumNum drumTimbreNum : Nat) (x : Ext W) : RhythmPart × Ext W :=
  let absTimbreNum := drumTimbreNum + 128
  let timbre := synth.mt32ram.timbres absTimbreNum
  let rp : RhythmPart :=
    { rp with currentInstr := timbre.common.name.take 10 ++ rp.currentInstr.drop 10 }
  if (rp.drumCache drumNum 0).dirty = true then
    let r :=
      rp.toPart.cacheTimbre E (CacheLoc.drumCache drumNum) (rp.drumCache drumNum)
        (TimbreLoc.timbres absTimbreNum) timbre x
    let rp : RhythmPart := { rp with drumCache := Function.update rp.drumCache drumNum r.1 }
    let r2 :=
      Part.playPoly E rp.toPart (CacheLoc.drumCache drumNum) (rp.drumCache drumNum)
        (some (rp.rhythmTemp drumNum)) midiKey key velocity r.2
    ({ rp with toPart := r2.1 }, r2.2)
  else
    let r2 :=
      Part.playPoly E rp.toPart (CacheLoc.drumCache drumNum) (rp.drumCache drumNum)
        (some (rp.rhythmTemp drumNum)) midiKey key velocity x
    ({ rp with toPart := r2.1 }, r2.2)

/-- `RhythmPart::noteOn` once the drum entry is known to be mapped: the two special
timbres, then the rest with the `key` they leave. -/
def RhythmPart.noteOn.play {W : Type} (E : Env W) (synth : SynthConfig) (rp : RhythmPart)
    (midiKey velocity drumNum drumTimbreNum : Nat) (x : Ext W) : RhythmPart × Ext W :=
  if drumTimbreNum = 64 + 6 then
    RhythmPart.noteOn.start E synth rp midiKey 1 velocity drumNum drumTimbreNum
      (rp.noteOff E 0 x)
  else if drumTimbreNum = 64 + 7 then
    RhythmPart.noteOn.start E synth rp midiKey 0 velocity drumNum drumTimbreNum
      (rp.noteOff E 0 x)
  else
    RhythmPart.noteOn.start E synth rp midiKey midiKey velocity drumNum drumTimbreNum x

/-- `RhythmPart::noteOn`. -/
def RhythmPart.noteOn {W : Type} (E : Env W) (synth : SynthConfig) (rp : RhythmPart)
    (midiKey velocity : Nat) (x : Ext W) : RhythmPart × Ext W :=
  if midiKey < 24 ∨ midiKey > 108 then
    (rp, x.call E (Call.printDebug (Diag.invalidKey midiKey velocity)))
  else
    let x := x.call E Call.rhythmNotePlayed
    let drumNum := midiKey - 24
    let drumTimbreNum := (rp.rhythmTemp drumNum).timbre
    let drumTimbreCount := 64 + synth.controlROMMap.timbreRCount
    if drumTimbreNum = 127 ∨ drumTimbreNum ≥ drumTimbreCount then
      (rp, x.call E (Call.printDebug (Diag.unmappedKey midiKey velocity)))
    else
      RhythmPart.noteOn.play E synth rp midiKey velocity drumNum drumTimbreNum x

/-! ## RPN, data entry and the hold pedal -/

/-- `Part::setDataEntryMSB`; `midiDataEntryMSB` is an `unsigned char`. -/
def Part.setDataEntryMSB (p : Part) (midiDataEntryMSB : Nat) : Part :=
  if p.nrpn = true then p
  else if p.rpn ≠ 0 then p
  else
    Part.updatePitchBenderRange
      { p with
        patchTemp :=
          { p.patchTemp with
            patch :=
              { p.patchTemp.patch with
                benderRange := if midiDataEntryMSB > 24 then 24 else midiDataEntryMSB } } }

/-- `Part::setNRPN`. -/
def Part.setNRPN (p : Part) : Part := { p with nrpn := true }

/-- `Part::setRPNLSB`; `midiRPNLSB` is an `unsigned char`. -/
def Part.setRPNLSB (p : Part) (midiRPNLSB : Nat) : Part :=
  { p with nrpn := false, rpn := toBit16u ((p.rpn &&& 0xFF00) ||| midiRPNLSB) }

/-- `Part::setRPNMSB`; `midiRPNMSB` is an `unsigned char`. -/
def Part.setRPNMSB (p : Part) (midiRPNMSB : Nat) : Part :=
  { p with nrpn := false, rpn := toBit16u ((p.rpn &&& 0x00FF) ||| (midiRPNMSB <<< 8)) }

/-- `Part::stopPedalHold`: `stopPedalHold()` on every poly of the list, in order. -/
def Part.stopPedalHold {W : Type} (E : Env W) (p : Part) (x : Ext W) : Ext W :=
  p.activePolys.foldl (fun x poly => x.call E (Call.polyStopPedalHold poly)) x

/-- `Part::setHoldPedal`. -/
def Part.setHoldPedal {W : Type} (E : Env W) (p : Part) (pressed : Bool) (x : Ext W) :
    Part × Ext W :=
  if p.holdpedal = true ∧ pressed = false then
    ({ p with holdpedal := false }, Part.stopPedalHold E { p with holdpedal := false } x)
  else
    ({ p with holdpedal := pressed }, x)

/-! ## Voice aborts -/

/-- The scan of `Part::abortFirstPoly(PolyState polyState)` over the polys still to visit. -/
def Part.abortFirstPolyState.scan {W : Type} (E : Env W) (polyState : PolyState) :
    List PolyRef → Ext W → Bool × Ext W
  | [], x => (false, x)
  | poly :: rest, x =>
    if E.polyGetState x.world poly = polyState then
      (E.retBool x.world (Call.polyStartAbort poly), x.call E (Call.polyStartAbort poly))
    else
      Part.abortFirstPolyState.scan E polyState rest x

/-- `Part::abortFirstPoly(PolyState polyState)`. -/
def Part.abortFirstPolyState {W : Type} (E : Env W) (p : Part) (polyState : PolyState)
    (x : Ext W) : Bool × Ext W :=
  Part.abortFirstPolyState.scan E polyState p.activePolys x

/-- `Part::abortFirstPoly()`. -/
def Part.abortFirstPoly {W : Type} (E : Env W) (p : Part) (x : Ext W) : Bool × Ext W :=
  if PolyList.isEmpty p.activePolys = true then (false, x)
  else
    match PolyList.getFirst p.activePolys with
    | none => (false, x)
    | some poly =>
      (E.retBool x.world (Call.polyStartAbort poly), x.call E (Call.polyStartAbort poly))

/-- `Part::abortFirstPolyPreferHeld`. -/
def Part.abortFirstPolyPreferHeld {W : Type} (E : Env W) (p : Part) (x : Ext W) :
    Bool × Ext W :=
  if (p.abortFirstPolyState E PolyState.POLY_Held x).1 = true then
    (true, (p.abortFirstPolyState E PolyState.POLY_Held x).2)
  else
    p.abortFirstPoly E (p.abortFirstPolyState E PolyState.POLY_Held x).2

/-! ## Callbacks from the voices -/

/-- `Part::partialDeactivated`. -/
def Part.partialDeactivated {W : Type} (E : Env W) (p : Part) (poly : PolyRef) (x : Ext W) :
    Part × Ext W :=
  let p := { p with activePartialCount := decUInt32 p.activePartialCount }
  if E.polyIsActive x.world poly = false then
    ({ p with activePolys := PolyList.remove p.activePolys poly },
      (x.call E (Call.polyFreed poly)).call E (Call.onPolyStateChanged (toBit8u p.partNum)))
  else
    (p, x)

/-- `Part::polyStateChanged`. -/
def Part.polyStateChanged {W : Type} (E : Env W) (p : Part) (oldState newState : PolyState)
    (x : Ext W) : Part × Ext W :=
  match newState with
  | PolyState.POLY_Playing =>
    if p.activeNonReleasingPolyCount = 0 then
      ({ p with activeNonReleasingPolyCount := incUInt32 p.activeNonReleasingPolyCount },
        x.call E (Call.voicePartStateChanged p.partNum true))
    else
      ({ p with activeNonReleasingPolyCount := incUInt32 p.activeNonReleasingPolyCount }, x)
  | PolyState.POLY_Releasing | PolyState.POLY_Inactive =>
    if oldState = PolyState.POLY_Playing ∨ oldState = PolyState.POLY_Held then
      if decUInt32 p.activeNonReleasingPolyCount = 0 then
        ({ p with activeNonReleasingPolyCount := decUInt32 p.activeNonReleasingPolyCount },
          x.call E (Call.voicePartStateChanged p.partNum false))
      else
        ({ p with activeNonReleasingPolyCount := decUInt32 p.activeNonReleasingPolyCount }, x)
    else (p, x)
  | PolyState.POLY_Held => (p, x)

/-- `RhythmPart::polyStateChanged`: empty. -/
def RhythmPart.polyStateChanged {W : Type} (rp : RhythmPart) (_oldState _newState : PolyState)
    (x : Ext W) : RhythmPart × Ext W :=
  (rp, x)

/-! ## The units a voice holds -/

/-- Modelled from the spec: the unit count of a voice right after `Poly::reset`, which is not
among the sources. Section 3: a voice holds up to 4 unit handles, parallel to the 4 cache
slots that spawned them, and a slot may be empty; the count is the number of handles. -/
def Poly.unitsGiven (partials : List (Option PartialRef)) : Nat :=
  partials.countP Option.isSome

/-- Modelled from the spec: what `Poly::reset`, which is not among the sources, does to the
number of units attached to each voice. Section 3: the voice that is reset holds the units
it is given; the other voices are not concerned. -/
def Poly.reset.attached (attached : PolyRef → Nat) (poly : PolyRef)
    (partials : List (Option PartialRef)) : PolyRef → Nat :=
  Function.update attached poly (Poly.unitsGiven partials)

/-- Modelled from the spec: what the deactivation of one unit of `poly` (in
`Poly::partialDeactivated`, which is not among the sources) does to the number of units
attached to each voice. Section 3: the count of a voice is the number of its units that are
still active, so it goes down by one; the other voices are not concerned. -/
def Poly.partialDeactivated.attached (attached : PolyRef → Nat) (poly : PolyRef) :
    PolyRef → Nat :=
  Function.update attached poly (attached poly - 1)

/-- The active-unit counter of the part is the total number of units attached to the voices
of its active-voice list, and no voice is in the list twice. `attached` gives the number of
units attached to each voice. -/
def Part.unitInvariant (p : Part) (attached : PolyRef → Nat) : Prop :=
  p.activePartialCount = (p.activePolys.map attached).sum ∧ p.activePolys.Nodup

instance Part.unitInvariant.decidable (p : Part) (attached : PolyRef → Nat) :
    Decidable (p.unitInvariant attached) :=
  inferInstanceAs
    (Decidable (p.activePartialCount = (p.activePolys.map attached).sum ∧ p.activePolys.Nodup))

/-! ## Construction -/

/-- What `memset(.., 0, ..)` leaves in one `PatchCache` whose storage held `e`. -/
def PatchCache.zeroed (e : PatchCache) : PatchCache :=
  { playPartial := false
    PCMPartial := false
    pcm := 0
    waveform := 0
    structureMix := 0
    structurePosition := 0
    structurePair := 0
    dirty := false
    partialCount := 0
    sustain := false
    reverb := false
    srcPartial := { wg := { pcmWave := 0, waveform := 0 }, rest := e.srcPartial.rest.map fun _ => 0 }
    partialParam := none }

/-- `Part::Part`. `raw` is the storage before construction: the constructor leaves `nrpn`,
`rpn`, `pitchBenderRange` and `currentInstr[1..9]` as they are. -/
def Part.new (synth : SynthConfig) (raw : Part) (usePartNum : Nat) : Part :=
  { raw with
    partNum := usePartNum
    holdpedal := false
    patchTemp := synth.mt32ram.patchTemp usePartNum
    timbreTemp := if usePartNum = 8 then none else some (synth.mt32ram.timbreTemp usePartNum)
    currentInstr := (raw.currentInstr.set 0 0).set 10 0
    volumeOverride := 255
    modulation := 0
    expression := 100
    pitchBend := 0
    activePartialCount := 0
    activeNonReleasingPolyCount := 0
    activePolys := []
    patchCache := fun t => PatchCache.zeroed (raw.patchCache t) }

/-! ## A concrete world

The theorems below hold for every world and every `Env`. To run the embedding on
concrete inputs, `Sim` gives one small world: a table of voices, the synth-wide abort
marker and the free pools. -/

namespace Sim

/-- The state of one `Poly` object. -/
structure Voice where
  key : Nat
  velocity : Nat
  sustain : Bool
  state : PolyState
  partials : List (Option PartialRef)
  deriving DecidableEq, Repr

structure World where
  polys : List (PolyRef × Voice)
  abortingPoly : Option PolyRef
  freePolys : List PolyRef
  freePartials : List PartialRef
  deriving DecidableEq, Repr

def idle : Voice :=
  { key := 255, velocity := 255, sustain := false, state := PolyState.POLY_Inactive,
    partials := [none, none, none, none] }

def World.poly (w : World) (r : PolyRef) : Voice := (w.polys.lookup r).getD idle

def World.setPoly (w : World) (r : PolyRef) (v : Voice) : World :=
  { w with polys := w.polys.map fun e => if e.1 = r then (r, v) else e }

/-- Modelled from the spec: `Poly::startDecay`, which is not among the sources. Section 4.7:
forced decay moves a voice to Releasing; a voice that is already Releasing or Inactive has
nothing to start, and the call reports that. -/
def startDecay (w : World) (r : PolyRef) : Bool × World :=
  if (w.poly r).state = PolyState.POLY_Inactive ∨ (w.poly r).state = PolyState.POLY_Releasing
  then (false, w)
  else (true, w.setPoly r { w.poly r with state := PolyState.POLY_Releasing })

/-- Modelled from the spec: `Poly::noteOff`, which is not among the sources. Sections 4.6
and 4.7: with the pedal flag the voice becomes Held, otherwise it starts to decay; a voice
that is Releasing or Inactive, or already Held when asked to hold, reports no change. -/
def noteOff (w : World) (r : PolyRef) (pedalHeld : Bool) : Bool × World :=
  if (w.poly r).state = PolyState.POLY_Inactive ∨ (w.poly r).state = PolyState.POLY_Releasing
  then (false, w)
  else if pedalHeld = true then
    if (w.poly r).state = PolyState.POLY_Held then (false, w)
    else (true, w.setPoly r { w.poly r with state := PolyState.POLY_Held })
  else (true, (startDecay w r).2)

/-- Modelled from the spec: `Poly::startAbort`, which is not among the sources. Section 4.4:
the abort is a request that completes later; it is refused while another abort is in
progress, otherwise the synth-wide "abort in progress" condition holds from then on. -/
def startAbort (w : World) (r : PolyRef) : Bool × World :=
  if (w.poly r).state = PolyState.POLY_Inactive ∨ w.abortingPoly.isSome = true then (false, w)
  else (true, { w with abortingPoly := some r })

/-- Modelled from the spec: `Poly::reset`, which is not among the sources. Section 3: key,
velocity, sustain flag and up to four unit handles; a voice with a unit is Playing. -/
def reset (w : World) (r : PolyRef) (key velocity : Nat) (sustain : Bool)
    (partials : List (Option PartialRef)) : World :=
  w.setPoly r
    { key := key, velocity := velocity, sustain := sustain,
      state :=
        if partials.any Option.isSome then PolyState.POLY_Playing else (w.poly r).state,
      partials := partials }

/-- Modelled from the spec: `Poly::stopPedalHold`, which is not among the sources. Section
4.7: pedal release while Held moves the voice to Releasing; other voices are not concerned. -/
def stopPedalHold (w : World) (r : PolyRef) : Bool × World :=
  if (w.poly r).state = PolyState.POLY_Held then startDecay w r else (false, w)

/-- The world after a call. Modelled from the spec: `PartialManager`, which is not among the
sources; section 4.3, steps 5, 6 and 8: the reservation only checks the pool, a voice slot
and each unit are taken from the free pools. -/
def exec (w : World) : Call → World
  | Call.polyStartAbort r => (startAbort w r).2
  | Call.polyStartDecay r => (startDecay w r).2
  | Call.polyNoteOff r pedalHeld => (noteOff w r pedalHeld).2
  | Call.polyStopPedalHold r => (stopPedalHold w r).2
  | Call.polyFreed r => { w with freePolys := r :: w.freePolys }
  | Call.polyReset r key velocity sustain partials => reset w r key velocity sustain partials
  | Call.assignPolyToPart _ => { w with freePolys := w.freePolys.tail }
  | Call.allocPartial _ => { w with freePartials := w.freePartials.tail }
  | _ => w

/-- The value a `bool` call returns. -/
def retBool (w : World) : Call → Bool
  | Call.polyStartAbort r => (startAbort w r).1
  | Call.polyStartDecay r => (startDecay w r).1
  | Call.polyNoteOff r pedalHeld => (noteOff w r pedalHeld).1
  | Call.polyStopPedalHold r => (stopPedalHold w r).1
  | Call.freePartials needed _ => decide (needed ≤ w.freePartials.length)
  | _ => false

def env : Env World :=
  { polyGetKey := fun w r => (w.poly r).key
    polyCanSustain := fun w r => (w.poly r).sustain
    polyGetState := fun w r => (w.poly r).state
    polyIsActive := fun w r => decide ((w.poly r).state ≠ PolyState.POLY_Inactive)
    isAbortingPoly := fun w => w.abortingPoly.isSome
    exec := exec
    retBool := retBool
    retPoly := fun w _ => w.freePolys.head?
    retPartial := fun w _ => w.freePartials.head? }

end Sim

/-! ## Concrete inputs -/

namespace Example

def partialParam : PartialParam := { wg := { pcmWave := 3, waveform := 1 }, rest := [0, 0] }

def timbre : TimbreParam :=
  { common :=
      { name := [80, 105, 97, 110, 111, 32, 32, 32, 32, 32], partialStructure12 := 5,
        partialStructure34 := 10, partialMute := 7, noSustain := 0 }
    partials := fun _ => partialParam }

def rawCache : PatchCache :=
  { playPartial := true, PCMPartial := true, pcm := 9, waveform := 9, structureMix := 9,
    structurePosition := 9, structurePair := 9, dirty := true, partialCount := 9,
    sustain := false, reverb := true, srcPartial := { wg := { pcmWave := 9, waveform := 9 }, rest := [9, 9] },
    partialParam := none }

def patchTemp : PatchTemp :=
  { patch :=
      { timbreGroup := 0, timbreNum := 0, keyShift := 24, fineTune := 50, benderRange := 12,
        assignMode := 0, reverbSwitch := 1 }
    outputLevel := 80
    panpot := 7 }

def synth : SynthConfig :=
  { controlROMFeatures := { quirkPanMult := false, quirkKeyShift := false }
    controlROMMap := { timbreRCount := 64, rhythmSettingsCount := 85 }
    mt32ram :=
      { patchTemp := fun _ => patchTemp
        timbreTemp := fun _ => timbre
        rhythmTemp := fun n =>
          { timbre := if n = 0 then 70 else if n = 1 then 71 else if n = 2 then 127 else 65,
            outputLevel := 100, panpot := 7, reverbSwitch := 1 }
        timbres := fun _ => timbre } }

/-- A melodic part with two sounding voices, `1` and `2`, and a built cache. -/
def part : Part :=
  { partNum := 0, holdpedal := true, patchTemp := patchTemp, timbreTemp := some timbre,
    patchCache := cacheTimbre.build (fun _ => rawCache) (TimbreLoc.timbreTemp 0) timbre,
    currentInstr := [80, 105, 97, 110, 111, 32, 32, 32, 32, 32, 0], volumeOverride := 255,
    modulation := 0, expression := 100, pitchBend := 0, nrpn := false, rpn := 0,
    pitchBenderRange := 8196, activePartialCount := 6, activeNonReleasingPolyCount := 2,
    activePolys := [1, 2] }

def rhythmPart : RhythmPart :=
  { toPart := { part with partNum := 8, timbreTemp := none }
    rhythmTemp := synth.mt32ram.rhythmTemp
    drumCache := fun _ => cacheTimbre.build (fun _ => rawCache) (TimbreLoc.timbres 198) timbre }

def world : Sim.World :=
  { polys :=
      [(1, { key := 60, velocity := 100, sustain := true, state := PolyState.POLY_Playing,
             partials := [some 10, some 11, some 12, none] }),
       (2, { key := 64, velocity := 90, sustain := true, state := PolyState.POLY_Playing,
             partials := [some 13, some 14, some 15, none] }),
       (3, Sim.idle)]
    abortingPoly := none
    freePolys := [3]
    freePartials := [16, 17, 18, 19] }

def ext : Ext Sim.World := { world := world, calls := [] }

/-- The same world with every unit of the pool taken. -/
def fullWorld : Sim.World := { world with freePartials := [] }

def fullExt : Ext Sim.World := { world := fullWorld, calls := [] }

/-- Two voices on key 60: voice `1` is already held by the pedal, voice `2` still plays. -/
def heldWorld : Sim.World :=
  { polys :=
      [(1, { key := 60, velocity := 100, sustain := true, state := PolyState.POLY_Held,
             partials := [some 10, some 11, some 12, none] }),
       (2, { key := 60, velocity := 90, sustain := true, state := PolyState.POLY_Playing,
             partials := [some 13, some 14, some 15, none] }),
       (3, Sim.idle)]
    abortingPoly := none
    freePolys := [3]
    freePartials := [16, 17, 18, 19] }

def heldExt : Ext Sim.World := { world := heldWorld, calls := [] }

/-- Voice `1` plays and voice `2`, later in the list, is held by the pedal. -/
def lateHeldWorld : Sim.World :=
  world.setPoly 2 { world.poly 2 with state := PolyState.POLY_Held }

def lateHeldExt : Ext Sim.World := { world := lateHeldWorld, calls := [] }

/-- The voice list `[1, 2]` of the example part, as linked nodes; the voices `3` and up are
not linked to anything. -/
def linked : Intrusive.PolyList :=
  { firstPoly := some 1, lastPoly := some 2,
    next := fun r => if r = 1 then some 2 else none }

/-- The units attached to the voices of the example world: three each for the voices `1`
and `2`. -/
def attached : PolyRef → Nat := fun r => if r = 1 ∨ r = 2 then 3 else 0

/-- The example world with voice `1` on the internal key 0, the key of the note-off that two
drum timbres force. -/
def drumWorld : Sim.World := world.setPoly 1 { world.poly 1 with key := 0 }

def drumExt : Ext Sim.World := { world := drumWorld, calls := [] }

/-- A synth whose control ROM has 30 rhythm timbres, so that 94 drum timbres are valid:
selectors `0..93`. -/
def synthMT32 : SynthConfig :=
  { synth with controlROMMap := { timbreRCount := 30, rhythmSettingsCount := 64 } }

/-- The rhythm part with the drum entry of key 27 set to selector 94. -/
def boundaryPart : RhythmPart :=
  { rhythmPart with
    rhythmTemp := fun n =>
      { timbre := if n = 3 then 94 else 65, outputLevel := 100, panpot := 7,
        reverbSwitch := 1 } }

end Example

/-! # Theorems -/

/-! ## Machine arithmetic -/

theorem toInt32_of_range (x : Int) (h1 : -2147483648 ≤ x) (h2 : x ≤ 2147483647) :
    toInt32 x = x := by
  unfold toInt32
  omega

theorem moveUp_eq (key : Int) (h : -2147483648 ≤ key) :
    midiKeyToKey.moveUp key = if key < 36 then 36 + (key - 36) % 12 else key := by
  induction key using midiKeyToKey.moveUp.induct with
  | case1 key hlt ih =>
    rw [midiKeyToKey.moveUp, if_pos hlt, if_pos hlt]
    have hk : toInt32 (key + 12) = key + 12 := toInt32_of_range _ (by omega) (by omega)
    rw [hk] at ih
    rw [hk, ih (by omega)]
    split <;> omega
  | case2 key hge =>
    rw [midiKeyToKey.moveUp, if_neg hge, if_neg hge]

theorem moveDown_eq (key : Int) (h : key ≤ 2147483647) :
    midiKeyToKey.moveDown key = if key > 132 then 132 - (132 - key) % 12 else key := by
  induction key using midiKeyToKey.moveDown.induct with
  | case1 key hgt ih =>
    rw [midiKeyToKey.moveDown, if_pos hgt, if_pos hgt]
    have hk : toInt32 (key - 12) = key - 12 := toInt32_of_range _ (by omega) (by omega)
    rw [hk] at ih
    rw [hk, ih (by omega)]
    split <;> omega
  | case2 key hle =>
    rw [midiKeyToKey.moveDown, if_neg hle, if_neg hle]

/-! ## C1: pitch bend -/

/-- C1. For a pitch-bend input `midiBend` in 0..16383 and a bender range `r` in 0..24
semitones, `updatePitchBenderRange` stores `683 * r` and `setBend` then stores
`pitchBend = ⌊(midiBend - 8192) * 683 * r / 16384⌋` (floor, also for negative numerators);
the product `(midiBend - 8192) * (683 * r)` lies within the signed 32-bit range. -/
theorem setBend_floor (p : Part) (midiBend r : Nat) (hb : midiBend ≤ 16383) (hr : r ≤ 24)
    (hp : p.patchTemp.patch.benderRange = r) :
    (p.updatePitchBenderRange.setBend midiBend).getPitchBend
        = ⌊(((midiBend : ℚ) - 8192) * 683 * r) / 16384⌋
      ∧ p.updatePitchBenderRange.pitchBenderRange = 683 * r
      ∧ -2147483648 ≤ ((midiBend : Int) - 8192) * (683 * r)
      ∧ ((midiBend : Int) - 8192) * (683 * r) ≤ 2147483647 := by
  have h1 : toInt32 (toInt32 (toInt32 midiBend - 8192) * ((toBit16u (r * 683) : Nat) : Int))
      = ((midiBend : Int) - 8192) * 683 * r := by
    interval_cases r <;> simp only [toInt32, toBit16u] <;> omega
  have h2 : (((midiBend : ℚ) - 8192) * 683 * r) / 16384
      = ((((midiBend : Int) - 8192) * 683 * r : Int) : ℚ) / ((16384 : ℕ) : ℚ) := by
    push_cast
    ring
  refine ⟨?_, ?_, ?_, ?_⟩
  · rw [Part.getPitchBend, Part.setBend, Part.updatePitchBenderRange, hp, h1,
      Int.shiftRight_eq_div_pow, h2, Rat.floor_intCast_div_natCast]
  · rw [Part.updatePitchBenderRange, hp]
    show r * 683 % 65536 = 683 * r
    omega
  · interval_cases r <;> omega
  · interval_cases r <;> omega

theorem setBend_floor_witness :
    (Example.part.updatePitchBenderRange.setBend 0).getPitchBend
        = ⌊(((0 : ℕ) : ℚ) - 8192) * 683 * ((12 : ℕ) : ℚ) / 16384⌋
      ∧ Example.part.updatePitchBenderRange.pitchBenderRange = 683 * 12
      ∧ -2147483648 ≤ (((0 : ℕ) : Int) - 8192) * (683 * ((12 : ℕ) : Int))
      ∧ (((0 : ℕ) : Int) - 8192) * (683 * ((12 : ℕ) : Int)) ≤ 2147483647 :=
  setBend_floor Example.part 0 12 (by decide) (by decide) rfl

/-! ## C2: key mapping -/

theorem midiKeyToKey_of_quirk (synth : SynthConfig) (p : Part) (midiKey : Nat)
    (h : synth.controlROMFeatures.quirkKeyShift = true) :
    p.midiKeyToKey synth midiKey = midiKey := by
  rw [Part.midiKeyToKey, if_pos h]

theorem midiKeyToKey_of_no_quirk (synth : SynthConfig) (p : Part) (k s : Nat)
    (h : synth.controlROMFeatures.quirkKeyShift = false) (hk : k ≤ 127) (hs : s ≤ 255)
    (hp : p.patchTemp.patch.keyShift = s) :
    (p.midiKeyToKey synth k : Int)
      = (if (k : Int) + s < 36 then 36 + ((k : Int) + s - 36) % 12
          else if (k : Int) + s > 132 then 132 - (132 - ((k : Int) + s)) % 12
          else (k : Int) + s) - 24 := by
  have h0 : toInt32 (((k + s) % 4294967296 : Nat) : Int) = (k : Int) + s := by
    unfold toInt32
    omega
  have e : p.midiKeyToKey synth k
      = toUInt32 (toInt32 ((if toInt32 (((k + s) % 4294967296 : Nat) : Int) < 36 then
            midiKeyToKey.moveUp (toInt32 (((k + s) % 4294967296 : Nat) : Int))
          else if toInt32 (((k + s) % 4294967296 : Nat) : Int) > 132 then
            midiKeyToKey.moveDown (toInt32 (((k + s) % 4294967296 : Nat) : Int))
          else toInt32 (((k + s) % 4294967296 : Nat) : Int)) - 24)) := by
    rw [Part.midiKeyToKey, if_neg (by rw [h]; exact Bool.false_ne_true), hp]
  rw [e, h0, moveUp_eq _ (by omega), moveDown_eq _ (by omega)]
  unfold toUInt32 toInt32
  split_ifs <;> omega

/-- C2. With the key-shift quirk off, for every MIDI key `k` in 0..127 and every stored
key shift `s` that fits a byte, `midiKeyToKey` (a total function: both loops terminate)
returns a key in [12,108] that is congruent to `k + s` modulo 12 and equals `k + s - 24`
whenever `36 ≤ k + s ≤ 132`. With the quirk on it returns the MIDI key itself. -/
theorem midiKeyToKey_spec (synth : SynthConfig) (p : Part) (k s : Nat) (hk : k ≤ 127)
    (hs : s ≤ 255) (hp : p.patchTemp.patch.keyShift = s) :
    (synth.controlROMFeatures.quirkKeyShift = false →
        12 ≤ p.midiKeyToKey synth k ∧ p.midiKeyToKey synth k ≤ 108
          ∧ p.midiKeyToKey synth k % 12 = (k + s) % 12
          ∧ (36 ≤ k + s → k + s ≤ 132 → p.midiKeyToKey synth k = k + s - 24))
      ∧ (synth.controlROMFeatures.quirkKeyShift = true →
          ∀ midiKey : Nat, p.midiKeyToKey synth midiKey = midiKey) := by
  refine ⟨fun h => ?_, fun h midiKey => midiKeyToKey_of_quirk synth p midiKey h⟩
  have e := midiKeyToKey_of_no_quirk synth p k s h hk hs hp
  split_ifs at e <;> omega

theorem midiKeyToKey_spec_witness :
    12 ≤ Example.part.midiKeyToKey Example.synth 127
      ∧ Example.part.midiKeyToKey Example.synth 127 ≤ 108
      ∧ Example.part.midiKeyToKey Example.synth 127 % 12 = (127 + 24) % 12
      ∧ (36 ≤ 127 + 24 → 127 + 24 ≤ 132 →
          Example.part.midiKeyToKey Example.synth 127 = 127 + 24 - 24) :=
  (midiKeyToKey_spec Example.synth Example.part 127 24 (by decide) (by decide) rfl).1 rfl

/-! ## C3: pan -/

theorem setPan_of_quirk (synth : SynthConfig) (p : Part) (v : Nat) (hv : v ≤ 127)
    (h : synth.controlROMFeatures.quirkPanMult = true) :
    p.setPan synth v = { p with patchTemp := { p.patchTemp with panpot := v / 9 } } := by
  have e : toBit8u (v / 9) = v / 9 := by
    unfold toBit8u
    omega
  rw [Part.setPan, if_pos h, e]

theorem setPan_of_no_quirk (synth : SynthConfig) (p : Part) (v : Nat) (hv : v ≤ 127)
    (h : synth.controlROMFeatures.quirkPanMult = false) :
    p.setPan synth v = { p with patchTemp := { p.patchTemp with panpot := v * 8 / 68 } } := by
  have e : toBit8u ((v <<< 3) % 4294967296 / 68) = v * 8 / 68 := by
    have h1 : (v <<< 3) % 4294967296 = v * 8 := by
      rw [Nat.shiftLeft_eq]
      omega
    have h2 : v * 8 / 68 < 256 := by omega
    rw [h1, toBit8u, Nat.mod_eq_of_lt h2]
  rw [Part.setPan, if_neg (by rw [h]; exact Bool.false_ne_true), e]

theorem floor_div_eight_and_a_half (v : Nat) : ⌊(v : ℚ) / (17 / 2)⌋₊ = v * 8 / 68 := by
  have h : (v : ℚ) / (17 / 2) = ((2 * v : ℕ) : ℚ) / ((17 : ℕ) : ℚ) := by
    push_cast
    ring
  rw [h, Nat.floor_div_eq_div]
  omega

/-- C3. For a pan input `v` in 0..127, `setPan` stores `panpot = ⌊v / 9⌋` when the
pan-multiplier quirk is set and `panpot = ⌊v * 8 / 68⌋ = ⌊v / 8.5⌋` otherwise, and changes
no other field of the part; the stored value is at most 14. `RhythmPart::setPan` does the
same to the part it extends and leaves the rhythm fields alone. -/
theorem setPan_spec (synth : SynthConfig) (v : Nat) (hv : v ≤ 127) :
    (∀ p : Part, synth.controlROMFeatures.quirkPanMult = true →
        p.setPan synth v = { p with patchTemp := { p.patchTemp with panpot := v / 9 } })
      ∧ (∀ p : Part, synth.controlROMFeatures.quirkPanMult = false →
        p.setPan synth v = { p with patchTemp := { p.patchTemp with panpot := v * 8 / 68 } }
          ∧ v * 8 / 68 = ⌊(v : ℚ) / (17 / 2)⌋₊)
      ∧ (∀ p : Part, (p.setPan synth v).patchTemp.panpot ≤ 14)
      ∧ (∀ rp : RhythmPart,
          rp.setPan synth v = { rp with toPart := rp.toPart.setPan synth v }
            ∧ (rp.setPan synth v).patchTemp.panpot = (rp.toPart.setPan synth v).patchTemp.panpot) := by
  refine ⟨fun p h => setPan_of_quirk synth p v hv h,
    fun p h => ⟨setPan_of_no_quirk synth p v hv h, (floor_div_eight_and_a_half v).symm⟩,
    fun p => ?_, fun rp => ⟨rfl, rfl⟩⟩
  cases h : synth.controlROMFeatures.quirkPanMult
  · rw [setPan_of_no_quirk synth p v hv h]
    show v * 8 / 68 ≤ 14
    omega
  · rw [setPan_of_quirk synth p v hv h]
    show v / 9 ≤ 14
    omega

theorem setPan_spec_witness :
    Example.part.setPan Example.synth 127
        = { Example.part with patchTemp := { Example.part.patchTemp with panpot := 127 * 8 / 68 } }
      ∧ 127 * 8 / 68 = ⌊((127 : ℕ) : ℚ) / (17 / 2)⌋₊
      ∧ (Example.part.setPan Example.synth 127).patchTemp.panpot ≤ 14
      ∧ (Example.rhythmPart.setPan Example.synth 127).patchTemp.panpot
          = (Example.part.setPan Example.synth 127).patchTemp.panpot :=
  ⟨((setPan_spec Example.synth 127 (by decide)).2.1 Example.part rfl).1,
    ((setPan_spec Example.synth 127 (by decide)).2.1 Example.part rfl).2,
    (setPan_spec Example.synth 127 (by decide)).2.2.1 Example.part,
    rfl⟩

/-! ## C4: volume and expression -/

theorem scale_127_to_100 (v : Nat) (hv : v ≤ 127) :
    toBit8u ((v * 100) % 4294967296 / 127) = v * 100 / 127 := by
  have h1 : (v * 100) % 4294967296 = v * 100 := by omega
  have h2 : v * 100 / 127 < 256 := by omega
  rw [h1, toBit8u, Nat.mod_eq_of_lt h2]

/-- C4. For an external value `v` in 0..127: after `setVolume v`, `getVolume` returns the
override `o` when `o ≤ 100` and `⌊v * 100 / 127⌋` when `o > 100` (no override; a new part
starts with 255), whatever the part and also right after `setVolumeOverride o`; after
`setExpression v`, `getExpression` returns `⌊v * 100 / 127⌋`. Both
scalings are monotone in `v`, send 0 to 0 and 127 to 100, and stay within 0..100. -/
theorem volume_expression_spec (p : Part) (v : Nat) (hv : v ≤ 127) :
    (p.setVolume v).getVolume
        = (if p.getVolumeOverride ≤ 100 then p.getVolumeOverride else v * 100 / 127)
      ∧ (p.setExpression v).getExpression = v * 100 / 127
      ∧ (∀ (W : Type) (E : Env W) (x : Ext W) (o : Nat),
          ((p.setVolumeOverride E o x).1.setVolume v).getVolume
            = (if o ≤ 100 then o else v * 100 / 127))
      ∧ (∀ (synth : SynthConfig) (raw : Part) (n : Nat),
          (Part.new synth raw n).getVolumeOverride = 255
            ∧ ((Part.new synth raw n).setVolume v).getVolume = v * 100 / 127)
      ∧ (∀ v2 : Nat, v ≤ v2 → v2 ≤ 127 →
          (p.setVolume v).patchTemp.outputLevel ≤ (p.setVolume v2).patchTemp.outputLevel
            ∧ (p.setExpression v).getExpression ≤ (p.setExpression v2).getExpression)
      ∧ (p.setVolume 0).patchTemp.outputLevel = 0 ∧ (p.setExpression 0).getExpression = 0
      ∧ (p.setVolume 127).patchTemp.outputLevel = 100
      ∧ (p.setExpression 127).getExpression = 100
      ∧ (p.setVolume v).patchTemp.outputLevel ≤ 100
      ∧ (p.setExpression v).getExpression ≤ 100 := by
  have hvol : ∀ (q : Part) (w : Nat), w ≤ 127 →
      (q.setVolume w).patchTemp.outputLevel = w * 100 / 127 := fun q w hw => by
    rw [Part.setVolume]
    exact scale_127_to_100 w hw
  have hexp : ∀ (q : Part) (w : Nat), w ≤ 127 →
      (q.setExpression w).getExpression = w * 100 / 127 := fun q w hw => by
    rw [Part.setExpression, Part.getExpression]
    exact scale_127_to_100 w hw
  have hget : ∀ (q : Part) (w : Nat), w ≤ 127 → (q.setVolume w).getVolume
      = (if q.getVolumeOverride ≤ 100 then q.getVolumeOverride else w * 100 / 127) :=
    fun q w hw => by
      rw [Part.getVolume, hvol q w hw]
      rfl
  refine ⟨hget p v hv, hexp p v hv, fun W E x o => ?_, fun synth raw n => ⟨rfl, ?_⟩,
    fun v2 h1 h2 => ?_, ?_, ?_, ?_, ?_, ?_, ?_⟩
  · have ho : (p.setVolumeOverride E o x).1.getVolumeOverride = o := by
      rw [Part.setVolumeOverride]
      split <;> rfl
    rw [hget _ v hv, ho]
  · rw [hget _ v hv]
    rfl
  · rw [hvol p v hv, hvol p v2 h2, hexp p v hv, hexp p v2 h2]
    omega
  · rw [hvol p 0 (by omega)]
  · rw [hexp p 0 (by omega)]
  · rw [hvol p 127 (by omega)]
  · rw [hexp p 127 (by omega)]
  · rw [hvol p v hv]
    omega
  · rw [hexp p v hv]
    omega

theorem volume_expression_spec_witness :
    (Example.part.setVolume 64).getVolume
        = (if Example.part.getVolumeOverride ≤ 100 then Example.part.getVolumeOverride
            else 64 * 100 / 127)
      ∧ (Example.part.setExpression 64).getExpression = 64 * 100 / 127 :=
  ⟨(volume_expression_spec Example.part 64 (by decide)).1,
    (volume_expression_spec Example.part 64 (by decide)).2.1⟩

/-! ## The call trace -/

theorem Ext.call_calls {W : Type} (E : Env W) (x : Ext W) (c : Call) :
    (x.call E c).calls = x.calls ++ [(x.world, c)] := rfl

/-- A loop that makes one call per poly of a list records exactly those calls, in order. -/
theorem foldl_call_calls {W : Type} (E : Env W) (f : PolyRef → Call) (l : List PolyRef)
    (x : Ext W) :
    ((l.foldl (fun x poly => x.call E (f poly)) x).calls.map Prod.snd)
      = x.calls.map Prod.snd ++ l.map f := by
  induction l generalizing x with
  | nil => simp
  | cons a l ih =>
    rw [List.foldl_cons, ih, Ext.call_calls]
    simp

/-! ## C5: volume override 0 -/

/-- C5, as stated, fails: the part `Example.part` holds the voices `1` and `2`; after
`setVolumeOverride(0)` the active-voice list is not empty, it still holds both (each has
been moved to Releasing by `startDecay`). -/
theorem setVolumeOverride_zero_not_empty :
    (Example.part.setVolumeOverride Sim.env 0 Example.ext).1.activePolys = [1, 2]
      ∧ (Example.part.setVolumeOverride Sim.env 0 Example.ext).1.activePolys ≠ []
      ∧ ((Example.part.setVolumeOverride Sim.env 0 Example.ext).2.world.poly 1).state
          = PolyState.POLY_Releasing
      ∧ ((Example.part.setVolumeOverride Sim.env 0 Example.ext).2.world.poly 2).state
          = PolyState.POLY_Releasing := by
  refine ⟨rfl, ?_, ?_, ?_⟩
  · exact List.cons_ne_nil 1 [2]
  · decide
  · decide

/-- C5, amended. For every part, world and environment: `setVolumeOverride(0)` stores the
override and sends `startDecay` to every voice of the active-voice list, in list order, and
to nothing else; no other field of the part changes, so the list holds the same voices in
the same order as before and is empty afterwards exactly when it was empty before. -/
theorem setVolumeOverride_zero {W : Type} (E : Env W) (p : Part) (x : Ext W) :
    (p.setVolumeOverride E 0 x).1 = { p with volumeOverride := 0 }
      ∧ (p.setVolumeOverride E 0 x).1.activePolys = p.activePolys
      ∧ ((p.setVolumeOverride E 0 x).2.calls.map Prod.snd)
          = x.calls.map Prod.snd ++ p.activePolys.map Call.polyStartDecay
      ∧ ((p.setVolumeOverride E 0 x).1.activePolys = [] ↔ p.activePolys = []) := by
  refine ⟨rfl, rfl, ?_, Iff.rfl⟩
  exact foldl_call_calls E Call.polyStartDecay p.activePolys x

/-! ## C6: the cache rebuild is idempotent -/

theorem finRange_four : List.finRange 4 = [0, 1, 2, 3] := by decide

/-- The entry that `cacheTimbre` leaves in slot `t`, from the entry `e` it found there: the
cache is rebuilt slot by slot, and the count of playing slots depends on the timbre only. -/
theorem cacheTimbre_build_apply (cache : PatchCacheArr) (loc : TimbreLoc)
    (timbre : TimbreParam) (t : Fin 4) :
    cacheTimbre.build cache loc timbre t
      = { (if (timbre.common.partialMute >>> t.val) &&& 1 = 1 then
            cacheTimbre.active loc timbre t (cache t)
          else { cache t with playPartial := false }) with
          dirty := false
          partialCount :=
            toUInt32 ((List.finRange 4).foldl
              (fun n (t : Fin 4) =>
                if (timbre.common.partialMute >>> t.val) &&& 1 = 1 then toInt32 (n + 1) else n) 0)
          sustain := timbre.common.noSustain = 0 } := by
  have hs : cacheTimbre.slot loc timbre
      = fun (st : PatchCacheArr × Int) (t : Fin 4) =>
          (Function.update st.1 t
            ((fun (t : Fin 4) (e : PatchCache) =>
              if (timbre.common.partialMute >>> t.val) &&& 1 = 1 then
                cacheTimbre.active loc timbre t e
              else { e with playPartial := false }) t (st.1 t)),
            (fun (t : Fin 4) (n : Int) =>
              if (timbre.common.partialMute >>> t.val) &&& 1 = 1 then toInt32 (n + 1) else n)
              t st.2) := by
    funext st t
    unfold cacheTimbre.slot
    by_cases h : (timbre.common.partialMute >>> t.val) &&& 1 = 1
    · simp only [h, if_true]
    · simp only [h, if_false]
  have hn : (List.foldl (cacheTimbre.slot loc timbre) (cache, 0) (List.finRange 4)).2
      = (List.finRange 4).foldl
          (fun n (t : Fin 4) =>
            if (timbre.common.partialMute >>> t.val) &&& 1 = 1 then toInt32 (n + 1) else n) 0 := by
    rw [hs, finRange_four]
    rfl
  unfold cacheTimbre.build
  rw [hn, hs, finRange_four]
  simp only [List.foldl]
  have h3 : ((3 : Fin 4) : ℕ) = 3 := rfl
  fin_cases t <;> simp [cacheTimbre.common, Function.update, h3]

theorem cacheTimbre_build_idem (cache : PatchCacheArr) (loc : TimbreLoc)
    (timbre : TimbreParam) :
    cacheTimbre.build (cacheTimbre.build cache loc timbre) loc timbre
      = cacheTimbre.build cache loc timbre := by
  funext t
  rw [cacheTimbre_build_apply (cacheTimbre.build cache loc timbre), cacheTimbre_build_apply cache]
  by_cases h : (timbre.common.partialMute >>> t.val) &&& 1 = 1
  · simp only [h, if_true]
    fin_cases t <;> rfl
  · simp only [h, if_false]

/-- C6. `cacheTimbre` is idempotent: for every prior cache contents and every timbre (in
particular every timbre whose structure selectors are in 0..12, where the tables are read
in bounds), running `cacheTimbre` on the cache it has just built, with the same timbre,
leaves exactly the same four cache entries, whatever the world and the polys backed up in
between. -/
theorem cacheTimbre_idempotent {W : Type} (E : Env W) (p : Part) (cacheLoc : CacheLoc)
    (cache : PatchCacheArr) (timbreLoc : TimbreLoc) (timbre : TimbreParam) (x x2 : Ext W) :
    (p.cacheTimbre E cacheLoc (p.cacheTimbre E cacheLoc cache timbreLoc timbre x).1
        timbreLoc timbre x2).1
      = (p.cacheTimbre E cacheLoc cache timbreLoc timbre x).1 :=
  cacheTimbre_build_idem cache timbreLoc timbre

/-! ## The shape of an admission -/

theorem abortFirstPolyKey_scan_eq {W : Type} (E : Env W) (key : Nat) (l : List PolyRef)
    (x : Ext W) :
    Part.abortFirstPolyKey.scan E key l x
      = match l.find? (fun v => decide (E.polyGetKey x.world v = key)) with
        | none => (false, x)
        | some v =>
          (E.retBool x.world (Call.polyStartAbort v), x.call E (Call.polyStartAbort v)) := by
  induction l with
  | nil => rfl
  | cons v l ih =>
    by_cases h : E.polyGetKey x.world v = key
    · simp [Part.abortFirstPolyKey.scan, List.find?, h]
    · simp [Part.abortFirstPolyKey.scan, List.find?, h, ih]

theorem alloc_fold_calls {W : Type} (E : Env W) (partNum : Nat) (cache : PatchCacheArr)
    (l : List (Fin 4)) (st : List (Option PartialRef) × Nat × Ext W) :
    ∃ L, (l.foldl (Part.playPoly.alloc E partNum cache) st).2.2.calls = st.2.2.calls ++ L
      ∧ ∀ e ∈ L, e.2 = Call.allocPartial partNum := by
  induction l generalizing st with
  | nil => exact ⟨[], by simp, by simp⟩
  | cons t l ih =>
    obtain ⟨L, hL, hP⟩ := ih (Part.playPoly.alloc E partNum cache st t)
    rw [List.foldl_cons, hL]
    unfold Part.playPoly.alloc
    by_cases h : (cache t).playPartial = true
    · refine ⟨(st.2.2.world, Call.allocPartial partNum) :: L, by simp [h, Ext.call_calls], ?_⟩
      intro e he
      rcases List.mem_cons.mp he with rfl | he
      · rfl
      · exact hP e he
    · exact ⟨L, by simp [h], hP⟩

theorem start_fold_calls {W : Type} (E : Env W) (partNum : Nat) (poly : PolyRef)
    (cacheLoc : CacheLoc) (cache : PatchCacheArr) (rhythmTemp : Option RhythmTemp)
    (partials : List (Option PartialRef)) (l : List (Fin 4)) (x : Ext W) :
    ∃ L, (l.foldl (Part.playPoly.start E partNum poly cacheLoc cache rhythmTemp partials)
        x).calls = x.calls ++ L
      ∧ ∀ e ∈ L, ∃ u slot c pair,
          e.2 = Call.startPartial u partNum poly cacheLoc slot c rhythmTemp pair := by
  induction l generalizing x with
  | nil => exact ⟨[], by simp, by simp⟩
  | cons t l ih =>
    obtain ⟨L, hL, hP⟩ :=
      ih (Part.playPoly.start E partNum poly cacheLoc cache rhythmTemp partials x t)
    rw [List.foldl_cons, hL]
    unfold Part.playPoly.start
    cases h : partials.getD t.val none with
    | none => exact ⟨L, by simp, hP⟩
    | some u =>
      refine ⟨(x.world, Call.startPartial u partNum poly cacheLoc t.val (cache t) rhythmTemp
        (partials.getD (cache t).structurePair.toNat none)) :: L, by simp [Ext.call_calls], ?_⟩
      intro e he
      rcases List.mem_cons.mp he with rfl | he
      · exact ⟨_, _, _, _, rfl⟩
      · exact hP e he

/-- The four ways `playPoly` can go from the `freePartials` request on, each with the part
it leaves and the calls it has made. -/
theorem admission_trace {W : Type} (E : Env W) (p : Part) (cacheLoc : CacheLoc)
    (cache : PatchCacheArr) (rhythmTemp : Option RhythmTemp) (midiKey key velocity : Nat)
    (a : Ext W) :
    (E.retBool a.world (Call.freePartials (cache 0).partialCount p.partNum) = false
        ∧ (Part.playPoly.admission E p cacheLoc cache rhythmTemp midiKey key velocity a).1 = p
        ∧ (Part.playPoly.admission E p cacheLoc cache rhythmTemp midiKey key velocity a).2.calls
            = a.calls ++ [(a.world, Call.freePartials (cache 0).partialCount p.partNum)])
      ∨ (E.retBool a.world (Call.freePartials (cache 0).partialCount p.partNum) = true
        ∧ E.isAbortingPoly
            (a.call E (Call.freePartials (cache 0).partialCount p.partNum)).world = true
        ∧ (Part.playPoly.admission E p cacheLoc cache rhythmTemp midiKey key velocity a).1 = p
        ∧ (Part.playPoly.admission E p cacheLoc cache rhythmTemp midiKey key velocity a).2.calls
            = a.calls ++ [(a.world, Call.freePartials (cache 0).partialCount p.partNum)])
      ∨ (E.retBool a.world (Call.freePartials (cache 0).partialCount p.partNum) = true
        ∧ E.retPoly (a.call E (Call.freePartials (cache 0).partialCount p.partNum)).world
            (Call.assignPolyToPart p.partNum) = none
        ∧ (Part.playPoly.admission E p cacheLoc cache rhythmTemp midiKey key velocity a).1 = p
        ∧ (Part.playPoly.admission E p cacheLoc cache rhythmTemp midiKey key velocity a).2.calls
            = a.calls ++ [(a.world, Call.freePartials (cache 0).partialCount p.partNum),
                ((a.call E (Call.freePartials (cache 0).partialCount p.partNum)).world,
                  Call.assignPolyToPart p.partNum),
                (((a.call E (Call.freePartials (cache 0).partialCount p.partNum)).call E
                    (Call.assignPolyToPart p.partNum)).world,
                  Call.printDebug (Diag.noFreePoly midiKey velocity))])
      ∨ (∃ poly L1 L2 w1 w2 ps,
        E.retBool a.world (Call.freePartials (cache 0).partialCount p.partNum) = true
        ∧ E.retPoly (a.call E (Call.freePartials (cache 0).partialCount p.partNum)).world
            (Call.assignPolyToPart p.partNum) = some poly
        ∧ (Part.playPoly.admission E p cacheLoc cache rhythmTemp midiKey key velocity a).1.activePolys
            = (if p.patchTemp.patch.assignMode &&& 1 ≠ 0 then PolyList.prepend p.activePolys poly
                else PolyList.append p.activePolys poly)
        ∧ (Part.playPoly.admission E p cacheLoc cache rhythmTemp midiKey key velocity a).2.calls
            = a.calls ++ [(a.world, Call.freePartials (cache 0).partialCount p.partNum),
                ((a.call E (Call.freePartials (cache 0).partialCount p.partNum)).world,
                  Call.assignPolyToPart p.partNum)]
              ++ L1 ++ [(w1, Call.polyReset poly key velocity (cache 0).sustain ps)]
              ++ L2 ++ [(w2, Call.onPolyStateChanged (toBit8u p.partNum))]
        ∧ (∀ e ∈ L1, e.2 = Call.allocPartial p.partNum)
        ∧ (∀ e ∈ L2, ∃ u slot c pair,
            e.2 = Call.startPartial u p.partNum poly cacheLoc slot c rhythmTemp pair)) := by
  unfold Part.playPoly.admission
  by_cases h1 : E.retBool a.world (Call.freePartials (cache 0).partialCount p.partNum) = false
  · left
    simp only [h1, if_true, Ext.call_calls, and_self]
  · have h1t : E.retBool a.world (Call.freePartials (cache 0).partialCount p.partNum) = true :=
      by simpa using h1
    right
    by_cases h2 : E.isAbortingPoly
        (a.call E (Call.freePartials (cache 0).partialCount p.partNum)).world = true
    · left
      simp only [h1t, h2, if_true, Ext.call_calls, and_self, Bool.true_eq_false, if_false]
    · right
      cases h3 : E.retPoly (a.call E (Call.freePartials (cache 0).partialCount p.partNum)).world
          (Call.assignPolyToPart p.partNum) with
      | none =>
        left
        simp only [h1t, h2, h3, Bool.true_eq_false, Bool.false_eq_true, if_false,
          Ext.call_calls, List.append_assoc, List.singleton_append, List.cons_append,
          List.nil_append, and_self]
      | some poly =>
        right
        simp only [h1t, h2, h3, Bool.true_eq_false, Bool.false_eq_true, if_false]
        set st := (List.finRange 4).foldl (Part.playPoly.alloc E p.partNum cache)
          ([], p.activePartialCount,
            (a.call E (Call.freePartials (cache 0).partialCount p.partNum)).call E
              (Call.assignPolyToPart p.partNum)) with hst
        set y := (List.finRange 4).foldl
          (Part.playPoly.start E p.partNum poly cacheLoc cache rhythmTemp st.1)
          (st.2.2.call E (Call.polyReset poly key velocity (cache 0).sustain st.1)) with hy
        obtain ⟨L1, hL1, hP1⟩ := alloc_fold_calls E p.partNum cache (List.finRange 4)
          ([], p.activePartialCount,
            (a.call E (Call.freePartials (cache 0).partialCount p.partNum)).call E
              (Call.assignPolyToPart p.partNum))
        obtain ⟨L2, hL2, hP2⟩ := start_fold_calls E p.partNum poly cacheLoc cache rhythmTemp
          st.1 (List.finRange 4)
          (st.2.2.call E (Call.polyReset poly key velocity (cache 0).sustain st.1))
        rw [← hst] at hL1
        rw [← hy] at hL2
        refine ⟨poly, L1, L2, st.2.2.world, y.world, st.1, trivial, rfl, rfl, ?_, hP1, hP2⟩
        rw [Ext.call_calls, hL2, Ext.call_calls, hL1, Ext.call_calls, Ext.call_calls]
        simp only [List.append_assoc, List.singleton_append, List.cons_append, List.nil_append]

/-- The three ways `playPoly` can go before the `freePartials` request: `a` is the outside
after the same-key abort of single-assign mode, `A` the call that abort has made. -/
theorem playPoly_trace {W : Type} (E : Env W) (p : Part) (cacheLoc : CacheLoc)
    (cache : PatchCacheArr) (rhythmTemp : Option RhythmTemp) (midiKey key velocity : Nat)
    (x : Ext W) :
    ∃ (a : Ext W) (A : List (W × Call)),
      a.calls = x.calls ++ A
        ∧ A = (if p.patchTemp.patch.assignMode &&& 2 = 0 then
                match p.activePolys.find? (fun v => decide (E.polyGetKey x.world v = key)) with
                | none => []
                | some v => [(x.world, Call.polyStartAbort v)]
              else [])
        ∧ (p.patchTemp.patch.assignMode &&& 2 = 0 → a = (p.abortFirstPolyKey E key x).2)
        ∧ (((cache 0).partialCount = 0
            ∧ p.playPoly E cacheLoc cache rhythmTemp midiKey key velocity x
                = (p, x.call E (Call.printDebug Diag.mutedInstrument)))
          ∨ ((cache 0).partialCount ≠ 0 ∧ p.patchTemp.patch.assignMode &&& 2 = 0
            ∧ E.isAbortingPoly a.world = true
            ∧ p.playPoly E cacheLoc cache rhythmTemp midiKey key velocity x = (p, a))
          ∨ ((cache 0).partialCount ≠ 0
            ∧ (p.patchTemp.patch.assignMode &&& 2 = 0 → E.isAbortingPoly a.world = false)
            ∧ p.playPoly E cacheLoc cache rhythmTemp midiKey key velocity x
                = Part.playPoly.admission E p cacheLoc cache rhythmTemp midiKey key velocity a)) := by
  unfold Part.playPoly
  by_cases hm : p.patchTemp.patch.assignMode &&& 2 = 0
  · refine ⟨(p.abortFirstPolyKey E key x).2, _, ?_, rfl, fun _ => rfl, ?_⟩
    · rw [Part.abortFirstPolyKey, abortFirstPolyKey_scan_eq, if_pos hm]
      cases p.activePolys.find? (fun v => decide (E.polyGetKey x.world v = key)) with
      | none => simp
      | some v => simp [Ext.call_calls]
    · by_cases h0 : (cache 0).partialCount = 0
      · left
        exact ⟨h0, by rw [if_pos h0]⟩
      · right
        by_cases ha : E.isAbortingPoly (p.abortFirstPolyKey E key x).2.world = true
        · left
          exact ⟨h0, hm, ha, by rw [if_neg h0, if_pos hm]; simp only [ha, if_true]⟩
        · right
          exact ⟨h0, fun _ => by simpa using ha,
            by rw [if_neg h0, if_pos hm]; simp only [ha, Bool.false_eq_true, if_false]⟩
  · refine ⟨x, [], by simp, by rw [if_neg hm], fun h => absurd h hm, ?_⟩
    by_cases h0 : (cache 0).partialCount = 0
    · left
      exact ⟨h0, by rw [if_pos h0]⟩
    · right
      right
      exact ⟨h0, fun h => absurd h hm, by rw [if_neg h0, if_neg hm]⟩

theorem abort_calls_kind {W : Type} (E : Env W) (p : Part) (key : Nat) (x : Ext W)
    (A : List (W × Call))
    (hA : A = (if p.patchTemp.patch.assignMode &&& 2 = 0 then
                match p.activePolys.find? (fun v => decide (E.polyGetKey x.world v = key)) with
                | none => []
                | some v => [(x.world, Call.polyStartAbort v)]
              else [])) :
    ∀ e ∈ A, ∃ v, e.2 = Call.polyStartAbort v := by
  subst hA
  intro e he
  split at he
  · split at he
    · simp at he
    · rw [List.mem_singleton] at he
      exact ⟨_, by rw [he]⟩
  · simp at he

/-- Every call of one `playPoly`: first the same-key abort of single-assign mode, if the
timbre is not muted (`A`), then calls of the admission proper (`B`), none of which is an
abort or a note-off, and whose `Poly::reset`, if any, carries `key` and `velocity`. -/
theorem playPoly_calls_split {W : Type} (E : Env W) (p : Part) (cacheLoc : CacheLoc)
    (cache : PatchCacheArr) (rhythmTemp : Option RhythmTemp) (midiKey key velocity : Nat)
    (x : Ext W) :
    ∃ B, (p.playPoly E cacheLoc cache rhythmTemp midiKey key velocity x).2.calls
        = x.calls
          ++ (if (cache 0).partialCount ≠ 0 ∧ p.patchTemp.patch.assignMode &&& 2 = 0 then
                match p.activePolys.find? (fun v => decide (E.polyGetKey x.world v = key)) with
                | none => []
                | some v => [(x.world, Call.polyStartAbort v)]
              else [])
          ++ B
      ∧ ∀ e ∈ B,
          e.2 = Call.printDebug Diag.mutedInstrument
            ∨ e.2 = Call.freePartials (cache 0).partialCount p.partNum
            ∨ e.2 = Call.assignPolyToPart p.partNum
            ∨ e.2 = Call.printDebug (Diag.noFreePoly midiKey velocity)
            ∨ e.2 = Call.allocPartial p.partNum
            ∨ (∃ poly ps, e.2 = Call.polyReset poly key velocity (cache 0).sustain ps)
            ∨ (∃ u poly slot c pair,
                e.2 = Call.startPartial u p.partNum poly cacheLoc slot c rhythmTemp pair)
            ∨ e.2 = Call.onPolyStateChanged (toBit8u p.partNum) := by
  obtain ⟨a, A, ha, hA, -, hcases⟩ :=
    playPoly_trace E p cacheLoc cache rhythmTemp midiKey key velocity x
  rcases hcases with ⟨h0, hr⟩ | ⟨h0, hm, -, hr⟩ | ⟨h0, -, hr⟩
  · refine ⟨[(x.world, Call.printDebug Diag.mutedInstrument)], ?_, ?_⟩
    · rw [hr, Ext.call_calls, if_neg (fun h => h.1 h0), List.append_nil]
    · intro e he
      rw [List.mem_singleton] at he
      subst he
      exact Or.inl rfl
  · refine ⟨[], ?_, by simp⟩
    rw [hr, ha, hA, List.append_nil, if_pos hm, if_pos ⟨h0, hm⟩]
  · have hA2 : A = (if (cache 0).partialCount ≠ 0 ∧ p.patchTemp.patch.assignMode &&& 2 = 0 then
          match p.activePolys.find? (fun v => decide (E.polyGetKey x.world v = key)) with
          | none => []
          | some v => [(x.world, Call.polyStartAbort v)]
        else []) := by
      rw [hA]
      by_cases hm : p.patchTemp.patch.assignMode &&& 2 = 0
      · rw [if_pos hm, if_pos ⟨h0, hm⟩]
      · rw [if_neg hm, if_neg (fun h => hm h.2)]
    rw [hr, ← hA2]
    rcases admission_trace E p cacheLoc cache rhythmTemp midiKey key velocity a with
      ⟨-, -, h2⟩ | ⟨-, -, -, h2⟩ | ⟨-, -, -, h2⟩ | ⟨poly, L1, L2, w1, w2, ps, -, -, -, h2, hP1, hP2⟩
    · refine ⟨_, by rw [h2, ha], ?_⟩
      intro e he
      rw [List.mem_singleton] at he
      subst he
      exact Or.inr (Or.inl rfl)
    · refine ⟨_, by rw [h2, ha], ?_⟩
      intro e he
      rw [List.mem_singleton] at he
      subst he
      exact Or.inr (Or.inl rfl)
    · refine ⟨_, by rw [h2, ha], ?_⟩
      intro e he
      simp only [List.mem_cons, List.mem_singleton, List.not_mem_nil, or_false] at he
      rcases he with rfl | rfl | rfl
      · exact Or.inr (Or.inl rfl)
      · exact Or.inr (Or.inr (Or.inl rfl))
      · exact Or.inr (Or.inr (Or.inr (Or.inl rfl)))
    · refine ⟨[(a.world, Call.freePartials (cache 0).partialCount p.partNum),
          ((a.call E (Call.freePartials (cache 0).partialCount p.partNum)).world,
            Call.assignPolyToPart p.partNum)]
          ++ L1 ++ [(w1, Call.polyReset poly key velocity (cache 0).sustain ps)]
          ++ L2 ++ [(w2, Call.onPolyStateChanged (toBit8u p.partNum))], ?_, ?_⟩
      · rw [h2, ha]
        simp only [List.append_assoc]
      · intro e he
        simp only [List.mem_append, List.mem_cons, List.mem_singleton, List.not_mem_nil,
          or_false] at he
        rcases he with ((((rfl | rfl) | he) | rfl) | he) | rfl
        · exact Or.inr (Or.inl rfl)
        · exact Or.inr (Or.inr (Or.inl rfl))
        · exact Or.inr (Or.inr (Or.inr (Or.inr (Or.inl (hP1 e he)))))
        · exact Or.inr (Or.inr (Or.inr (Or.inr (Or.inr (Or.inl ⟨_, _, rfl⟩)))))
        · obtain ⟨u, slot, c, pair, hv⟩ := hP2 e he
          exact Or.inr (Or.inr (Or.inr (Or.inr (Or.inr (Or.inr (Or.inl ⟨u, poly, slot, c, pair, hv⟩))))))
        · exact Or.inr (Or.inr (Or.inr (Or.inr (Or.inr (Or.inr (Or.inr rfl))))))

/-! ## C7: a note that cannot be admitted is dropped whole -/

/-- C7. Let `new` be the calls one `playPoly` makes. If among them a `freePartials` request
reported failure, or an `assignPolyToPart` request returned no voice, then the part is left
exactly as it was (so the active-voice list and the active-unit counter are unchanged), no
unit was allocated (`allocPartial`), no voice was reset or started (`Poly::reset`,
`startPartial`), and no `assignPolyToPart` request returned a voice. -/
theorem playPoly_drop {W : Type} (E : Env W) (p : Part) (cacheLoc : CacheLoc)
    (cache : PatchCacheArr) (rhythmTemp : Option RhythmTemp) (midiKey key velocity : Nat)
    (x : Ext W) (new : List (W × Call))
    (hnew : (p.playPoly E cacheLoc cache rhythmTemp midiKey key velocity x).2.calls
      = x.calls ++ new)
    (hfail : ∃ e ∈ new,
      (∃ n pn, e.2 = Call.freePartials n pn ∧ E.retBool e.1 e.2 = false)
        ∨ (∃ pn, e.2 = Call.assignPolyToPart pn ∧ E.retPoly e.1 e.2 = none)) :
    (p.playPoly E cacheLoc cache rhythmTemp midiKey key velocity x).1 = p
      ∧ (p.playPoly E cacheLoc cache rhythmTemp midiKey key velocity x).1.activePolys
          = p.activePolys
      ∧ (p.playPoly E cacheLoc cache rhythmTemp midiKey key velocity x).1.activePartialCount
          = p.activePartialCount
      ∧ ∀ e ∈ new,
          (∀ pn, e.2 ≠ Call.allocPartial pn)
            ∧ (∀ v k vel s ps, e.2 ≠ Call.polyReset v k vel s ps)
            ∧ (∀ u pn v cl sl c rt pr, e.2 ≠ Call.startPartial u pn v cl sl c rt pr)
            ∧ (∀ pn, e.2 = Call.assignPolyToPart pn → E.retPoly e.1 e.2 = none) := by
  suffices h : (p.playPoly E cacheLoc cache rhythmTemp midiKey key velocity x).1 = p
      ∧ ∀ e ∈ new,
          (∀ pn, e.2 ≠ Call.allocPartial pn)
            ∧ (∀ v k vel s ps, e.2 ≠ Call.polyReset v k vel s ps)
            ∧ (∀ u pn v cl sl c rt pr, e.2 ≠ Call.startPartial u pn v cl sl c rt pr)
            ∧ (∀ pn, e.2 = Call.assignPolyToPart pn → E.retPoly e.1 e.2 = none) by
    exact ⟨h.1, by rw [h.1], by rw [h.1], h.2⟩
  obtain ⟨a, A, ha, hA, -, hcases⟩ :=
    playPoly_trace E p cacheLoc cache rhythmTemp midiKey key velocity x
  have hAk := abort_calls_kind E p key x A hA
  obtain ⟨e0, he0, hf⟩ := hfail
  rcases hcases with ⟨-, hr⟩ | ⟨-, -, -, hr⟩ | ⟨-, -, hr⟩
  · rw [hr, Ext.call_calls] at hnew
    have := List.append_cancel_left hnew
    subst this
    rw [List.mem_singleton] at he0
    subst he0
    rcases hf with ⟨_, _, h, _⟩ | ⟨_, h, _⟩ <;> cases h
  · rw [hr, ha] at hnew
    have := List.append_cancel_left hnew
    subst this
    obtain ⟨v, hv⟩ := hAk e0 he0
    rcases hf with ⟨_, _, h, _⟩ | ⟨_, h, _⟩ <;> rw [hv] at h <;> cases h
  · rw [hr] at hnew ⊢
    rcases admission_trace E p cacheLoc cache rhythmTemp midiKey key velocity a with
      ⟨-, h1, h2⟩ | ⟨hb, -, h1, h2⟩ | ⟨-, hn, h1, h2⟩ | ⟨poly, L1, L2, w1, w2, ps, hb, hs, -, h2, hP1, hP2⟩
    · refine ⟨h1, ?_⟩
      rw [h2, ha, List.append_assoc] at hnew
      have := List.append_cancel_left hnew
      subst this
      intro e he
      rcases List.mem_append.mp he with he | he
      · obtain ⟨v, hv⟩ := hAk e he
        rw [hv]
        simp
      · rw [List.mem_singleton] at he
        subst he
        simp
    · exfalso
      rw [h2, ha, List.append_assoc] at hnew
      have := List.append_cancel_left hnew
      subst this
      rcases List.mem_append.mp he0 with he | he
      · obtain ⟨v, hv⟩ := hAk e0 he
        rcases hf with ⟨_, _, h, _⟩ | ⟨_, h, _⟩ <;> rw [hv] at h <;> cases h
      · rw [List.mem_singleton] at he
        subst he
        rcases hf with ⟨_, _, _, h⟩ | ⟨_, h, _⟩
        · rw [hb] at h
          cases h
        · cases h
    · refine ⟨h1, ?_⟩
      rw [h2, ha, List.append_assoc] at hnew
      have := List.append_cancel_left hnew
      subst this
      intro e he
      rcases List.mem_append.mp he with he | he
      · obtain ⟨v, hv⟩ := hAk e he
        rw [hv]
        simp
      · simp only [List.mem_cons, List.mem_singleton, List.not_mem_nil, or_false] at he
        rcases he with rfl | rfl | rfl
        · simp
        · simp [hn]
        · simp
    · exfalso
      rw [h2, ha] at hnew
      simp only [List.append_assoc] at hnew
      have := List.append_cancel_left hnew
      subst this
      simp only [List.mem_append, List.mem_cons, List.mem_singleton, List.not_mem_nil,
        or_false] at he0
      rcases he0 with he | (rfl | rfl) | he | rfl | he | rfl
      · obtain ⟨v, hv⟩ := hAk e0 he
        rcases hf with ⟨_, _, h, _⟩ | ⟨_, h, _⟩ <;> rw [hv] at h <;> cases h
      · rcases hf with ⟨_, _, _, h⟩ | ⟨_, h, _⟩
        · rw [hb] at h
          cases h
        · cases h
      · rcases hf with ⟨_, _, h, _⟩ | ⟨_, _, h⟩
        · cases h
        · rw [hs] at h
          cases h
      · have hv := hP1 e0 he
        rcases hf with ⟨_, _, h, _⟩ | ⟨_, h, _⟩ <;> rw [hv] at h <;> cases h
      · rcases hf with ⟨_, _, h, _⟩ | ⟨_, h, _⟩ <;> cases h
      · obtain ⟨_, _, _, _, hv⟩ := hP2 e0 he
        rcases hf with ⟨_, _, h, _⟩ | ⟨_, h, _⟩ <;> rw [hv] at h <;> cases h
      · rcases hf with ⟨_, _, h, _⟩ | ⟨_, h, _⟩ <;> cases h

theorem playPoly_drop_witness :
    (Example.part.playPoly Sim.env CacheLoc.patchCache Example.part.patchCache none 72 72 100
        Example.fullExt).1 = Example.part
      ∧ (Example.part.playPoly Sim.env CacheLoc.patchCache Example.part.patchCache none 72 72
          100 Example.fullExt).1.activePolys = Example.part.activePolys
      ∧ (Example.part.playPoly Sim.env CacheLoc.patchCache Example.part.patchCache none 72 72
          100 Example.fullExt).1.activePartialCount = Example.part.activePartialCount
      ∧ ∀ e ∈ [(Example.fullWorld, Call.freePartials 3 0)],
          (∀ pn, e.2 ≠ Call.allocPartial pn)
            ∧ (∀ v k vel s ps, e.2 ≠ Call.polyReset v k vel s ps)
            ∧ (∀ u pn v cl sl c rt pr, e.2 ≠ Call.startPartial u pn v cl sl c rt pr)
            ∧ (∀ pn, e.2 = Call.assignPolyToPart pn → Sim.env.retPoly e.1 e.2 = none) :=
  playPoly_drop Sim.env Example.part CacheLoc.patchCache Example.part.patchCache none 72 72 100
    Example.fullExt [(Example.fullWorld, Call.freePartials 3 0)] (by decide)
    ⟨(Example.fullWorld, Call.freePartials 3 0), List.mem_singleton_self _,
      Or.inl ⟨3, 0, rfl, rfl⟩⟩

/-! ## C8: the same-key abort of single-assign mode -/

/-- C8. Let `new` be the calls one `playPoly` makes. A voice is asked to abort exactly when
the part is in single-assign mode (`assignMode` bit 1 clear), the cache's active-slot
count is not 0 and some voice of the list has the key; the voice asked is then the first of
the list with that key, the request is the first call made (so it precedes any reservation)
and no other abort is requested. If an abort is in progress after it, `playPoly` returns
with the part unchanged, having made no call but that request. With an active-slot count
of 0 the only call is the diagnostic and the part is unchanged, in either assign mode. -/
theorem playPoly_same_key_abort {W : Type} (E : Env W) (p : Part) (cacheLoc : CacheLoc)
    (cache : PatchCacheArr) (rhythmTemp : Option RhythmTemp) (midiKey key velocity : Nat)
    (x : Ext W) (new : List (W × Call))
    (hnew : (p.playPoly E cacheLoc cache rhythmTemp midiKey key velocity x).2.calls
      = x.calls ++ new) :
    ((∃ e ∈ new, ∃ v, e.2 = Call.polyStartAbort v)
        ↔ (p.patchTemp.patch.assignMode &&& 2 = 0 ∧ (cache 0).partialCount ≠ 0
            ∧ ∃ v ∈ p.activePolys, E.polyGetKey x.world v = key))
      ∧ (p.patchTemp.patch.assignMode &&& 2 = 0 → (cache 0).partialCount ≠ 0 →
          ∀ v, p.activePolys.find? (fun v => decide (E.polyGetKey x.world v = key)) = some v →
            ∃ rest, new = (x.world, Call.polyStartAbort v) :: rest
              ∧ ∀ e ∈ rest, ∀ v2, e.2 ≠ Call.polyStartAbort v2)
      ∧ (p.patchTemp.patch.assignMode &&& 2 = 0 → (cache 0).partialCount ≠ 0 →
          E.isAbortingPoly (p.abortFirstPolyKey E key x).2.world = true →
            (p.playPoly E cacheLoc cache rhythmTemp midiKey key velocity x).1 = p
              ∧ new.length ≤ 1 ∧ ∀ e ∈ new, ∃ v, e.2 = Call.polyStartAbort v)
      ∧ ((cache 0).partialCount = 0 →
          (p.playPoly E cacheLoc cache rhythmTemp midiKey key velocity x).1 = p
            ∧ new = [(x.world, Call.printDebug Diag.mutedInstrument)]) := by
  obtain ⟨B, hB, hk⟩ := playPoly_calls_split E p cacheLoc cache rhythmTemp midiKey key velocity x
  have hBno : ∀ e ∈ B, ∀ v, e.2 ≠ Call.polyStartAbort v := by
    intro e he v hv
    rcases hk e he with h | h | h | h | h | ⟨_, _, h⟩ | ⟨_, _, _, _, _, h⟩ | h <;>
      rw [hv] at h <;> cases h
  rw [hnew, List.append_assoc] at hB
  have hnewB := List.append_cancel_left hB
  refine ⟨⟨?_, ?_⟩, ?_, ?_, ?_⟩
  · rintro ⟨e, he, v, hv⟩
    rw [hnewB] at he
    rcases List.mem_append.mp he with he | he
    · split at he
      · rename_i hc
        refine ⟨hc.2, hc.1, ?_⟩
        split at he
        · simp at he
        · rename_i v1 hf
          exact ⟨v1, List.mem_of_find?_eq_some hf, by simpa using List.find?_some hf⟩
      · simp at he
    · exact absurd hv (hBno e he v)
  · rintro ⟨hm, h0, v, hv, hkey⟩
    rw [hnewB, if_pos ⟨h0, hm⟩]
    cases hf : p.activePolys.find? (fun v => decide (E.polyGetKey x.world v = key)) with
    | none =>
      rw [List.find?_eq_none] at hf
      exact absurd (by simpa using hkey) (hf v hv)
    | some v1 => exact ⟨(x.world, Call.polyStartAbort v1), by simp, v1, rfl⟩
  · intro hm h0 v hf
    rw [if_pos ⟨h0, hm⟩, hf] at hnewB
    exact ⟨B, hnewB, hBno⟩
  · intro hm h0 hab
    obtain ⟨a, A, ha, hA, haa, hcases⟩ :=
      playPoly_trace E p cacheLoc cache rhythmTemp midiKey key velocity x
    have hAk := abort_calls_kind E p key x A hA
    rcases hcases with ⟨h, -⟩ | ⟨-, -, -, hr⟩ | ⟨-, hna, -⟩
    · exact absurd h h0
    · rw [hr, ha] at hnew
      have := List.append_cancel_left hnew
      subst this
      refine ⟨by rw [hr], ?_, hAk⟩
      rw [hA, if_pos hm]
      split <;> simp
    · rw [haa hm, hab] at hna
      exact absurd (hna hm) (by simp)
  · intro h0
    rw [Part.playPoly, if_pos h0, Ext.call_calls] at hnew
    refine ⟨by rw [Part.playPoly, if_pos h0], (List.append_cancel_left hnew).symm⟩

theorem playPoly_same_key_abort_witness :
    (Example.part.playPoly Sim.env CacheLoc.patchCache Example.part.patchCache none 36 60 100
        Example.ext).1 = Example.part
      ∧ [(Example.world, Call.polyStartAbort 1)].length ≤ 1
      ∧ ∀ e ∈ [(Example.world, Call.polyStartAbort 1)], ∃ v, e.2 = Call.polyStartAbort v :=
  (playPoly_same_key_abort Sim.env Example.part CacheLoc.patchCache Example.part.patchCache none
    36 60 100 Example.ext [(Example.world, Call.polyStartAbort 1)] (by decide)).2.2.1
    (by decide) (by decide) (by decide)

/-! ## The note-off loop -/

/-- The calls of the `stopNote` loop: each is a note-off, with the pedal flag of the part, to
a voice of the list that, in the world of the call, has the key and is sustain-capable or has
key 0. The first goes to the first voice of the list that qualifies. -/
theorem stopNote_scan_trace {W : Type} (E : Env W) (holdpedal : Bool) (key : Nat)
    (l : List PolyRef) (x : Ext W) :
    ∃ L, (Part.stopNote.scan E holdpedal key l x).calls = x.calls ++ L
      ∧ (∀ e ∈ L, ∃ v ∈ l, e.2 = Call.polyNoteOff v (holdpedal && key != 0)
          ∧ E.polyGetKey e.1 v = key ∧ (E.polyCanSustain e.1 v = true ∨ key = 0))
      ∧ (∀ v, l.find? (fun v => decide (E.polyGetKey x.world v = key
              ∧ (E.polyCanSustain x.world v = true ∨ key = 0))) = some v →
          L.head? = some (x.world, Call.polyNoteOff v (holdpedal && key != 0)))
      ∧ (l.find? (fun v => decide (E.polyGetKey x.world v = key
              ∧ (E.polyCanSustain x.world v = true ∨ key = 0))) = none → L = []) := by
  induction l generalizing x with
  | nil => exact ⟨[], by simp [Part.stopNote.scan], by simp, by simp, by simp⟩
  | cons v l ih =>
    by_cases hc : E.polyGetKey x.world v = key ∧ (E.polyCanSustain x.world v = true ∨ key = 0)
    · have hfind : (v :: l).find? (fun v => decide (E.polyGetKey x.world v = key
          ∧ (E.polyCanSustain x.world v = true ∨ key = 0))) = some v := by
        simp [List.find?, hc]
      by_cases hr : E.retBool x.world (Call.polyNoteOff v (holdpedal && key != 0)) = true
      · refine ⟨[(x.world, Call.polyNoteOff v (holdpedal && key != 0))], ?_, ?_, ?_, ?_⟩
        · rw [Part.stopNote.scan, if_pos hc, if_pos hr, Ext.call_calls]
        · intro e he
          rw [List.mem_singleton] at he
          subst he
          exact ⟨v, List.mem_cons_self v l, rfl, hc.1, hc.2⟩
        · intro v2 h2
          rw [hfind] at h2
          cases h2
          rfl
        · intro h2
          rw [hfind] at h2
          cases h2
      · obtain ⟨L, hL, hP, -, -⟩ := ih (x.call E (Call.polyNoteOff v (holdpedal && key != 0)))
        refine ⟨(x.world, Call.polyNoteOff v (holdpedal && key != 0)) :: L, ?_, ?_, ?_, ?_⟩
        · rw [Part.stopNote.scan, if_pos hc, if_neg hr, hL, Ext.call_calls]
          simp
        · intro e he
          rcases List.mem_cons.mp he with rfl | he
          · exact ⟨v, List.mem_cons_self v l, rfl, hc.1, hc.2⟩
          · obtain ⟨v2, hv2, h⟩ := hP e he
            exact ⟨v2, List.mem_cons_of_mem v hv2, h⟩
        · intro v2 h2
          rw [hfind] at h2
          cases h2
          rfl
        · intro h2
          rw [hfind] at h2
          cases h2
    · have hfind : (v :: l).find? (fun v => decide (E.polyGetKey x.world v = key
          ∧ (E.polyCanSustain x.world v = true ∨ key = 0)))
          = l.find? (fun v => decide (E.polyGetKey x.world v = key
          ∧ (E.polyCanSustain x.world v = true ∨ key = 0))) := by
        simp [List.find?, hc]
      obtain ⟨L, hL, hP, hH, hN⟩ := ih x
      refine ⟨L, ?_, ?_, ?_, ?_⟩
      · rw [Part.stopNote.scan, if_neg hc, hL]
      · intro e he
        obtain ⟨v2, hv2, h⟩ := hP e he
        exact ⟨v2, List.mem_cons_of_mem v hv2, h⟩
      · intro v2 h2
        rw [hfind] at h2
        exact hH v2 h2
      · intro h2
        rw [hfind] at h2
        exact hN h2

/-! ## C9: the two special drum timbres -/

/-- No call of `playPoly` is a note-off, and its `Poly::reset`, if any, carries the internal
key and the velocity it was given. -/
theorem playPoly_calls_kind {W : Type} (E : Env W) (p : Part) (cacheLoc : CacheLoc)
    (cache : PatchCacheArr) (rhythmTemp : Option RhythmTemp) (midiKey key velocity : Nat)
    (x : Ext W) :
    ∃ new, (p.playPoly E cacheLoc cache rhythmTemp midiKey key velocity x).2.calls
        = x.calls ++ new
      ∧ ∀ e ∈ new, (∀ v f, e.2 ≠ Call.polyNoteOff v f)
          ∧ (∀ v k vel s ps, e.2 = Call.polyReset v k vel s ps → k = key ∧ vel = velocity) := by
  obtain ⟨B, hB, hk⟩ := playPoly_calls_split E p cacheLoc cache rhythmTemp midiKey key velocity x
  refine ⟨_, by rw [hB, List.append_assoc], ?_⟩
  intro e he
  rcases List.mem_append.mp he with he | he
  · have hv : ∃ v, e.2 = Call.polyStartAbort v := by
      split at he
      · split at he
        · simp at he
        · rw [List.mem_singleton] at he
          exact ⟨_, by rw [he]⟩
      · simp at he
    obtain ⟨v, hv⟩ := hv
    rw [hv]
    simp
  · rcases hk e he with h | h | h | h | h | ⟨_, _, h⟩ | ⟨_, _, _, _, _, h⟩ | h <;> rw [h] <;>
      refine ⟨fun _ _ hh => (by cases hh), fun _ _ _ _ _ hh => ?_⟩ <;>
      first
        | (cases hh; exact ⟨rfl, rfl⟩)
        | cases hh

/-- A voice that `playPoly` obtains from `assignPolyToPart` is reset with the internal key
and the velocity of the call: the voice is started. -/
theorem playPoly_started {W : Type} (E : Env W) (p : Part) (cacheLoc : CacheLoc)
    (cache : PatchCacheArr) (rhythmTemp : Option RhythmTemp) (midiKey key velocity : Nat)
    (x : Ext W) (new : List (W × Call))
    (hnew : (p.playPoly E cacheLoc cache rhythmTemp midiKey key velocity x).2.calls
      = x.calls ++ new) :
    ∀ e ∈ new, ∀ pn poly, e.2 = Call.assignPolyToPart pn → E.retPoly e.1 e.2 = some poly →
      ∃ e2 ∈ new, ∃ s ps, e2.2 = Call.polyReset poly key velocity s ps := by
  intro e0 he0 pn poly0 hf hret
  obtain ⟨a, A, ha, hA, -, hcases⟩ :=
    playPoly_trace E p cacheLoc cache rhythmTemp midiKey key velocity x
  have hAk := abort_calls_kind E p key x A hA
  rcases hcases with ⟨-, hr⟩ | ⟨-, -, -, hr⟩ | ⟨-, -, hr⟩
  · rw [hr, Ext.call_calls] at hnew
    have := List.append_cancel_left hnew
    subst this
    rw [List.mem_singleton] at he0
    subst he0
    cases hf
  · rw [hr, ha] at hnew
    have := List.append_cancel_left hnew
    subst this
    obtain ⟨v, hv⟩ := hAk e0 he0
    rw [hv] at hf
    cases hf
  · rw [hr] at hnew
    rcases admission_trace E p cacheLoc cache rhythmTemp midiKey key velocity a with
      ⟨-, -, h2⟩ | ⟨-, -, -, h2⟩ | ⟨-, hn, -, h2⟩ | ⟨poly, L1, L2, w1, w2, ps, -, hs, -, h2, hP1, hP2⟩
    · rw [h2, ha, List.append_assoc] at hnew
      have := List.append_cancel_left hnew
      subst this
      rcases List.mem_append.mp he0 with he | he
      · obtain ⟨v, hv⟩ := hAk e0 he
        rw [hv] at hf
        cases hf
      · rw [List.mem_singleton] at he
        subst he
        cases hf
    · rw [h2, ha, List.append_assoc] at hnew
      have := List.append_cancel_left hnew
      subst this
      rcases List.mem_append.mp he0 with he | he
      · obtain ⟨v, hv⟩ := hAk e0 he
        rw [hv] at hf
        cases hf
      · rw [List.mem_singleton] at he
        subst he
        cases hf
    · rw [h2, ha, List.append_assoc] at hnew
      have := List.append_cancel_left hnew
      subst this
      rcases List.mem_append.mp he0 with he | he
      · obtain ⟨v, hv⟩ := hAk e0 he
        rw [hv] at hf
        cases hf
      · simp only [List.mem_cons, List.mem_singleton, List.not_mem_nil, or_false] at he
        rcases he with rfl | rfl | rfl
        · cases hf
        · rw [hn] at hret
          cases hret
        · cases hf
    · rw [h2, ha] at hnew
      simp only [List.append_assoc] at hnew
      have := List.append_cancel_left hnew
      subst this
      simp only [List.mem_append, List.mem_cons, List.mem_singleton, List.not_mem_nil,
        or_false] at he0
      rcases he0 with he | (rfl | rfl) | he | rfl | he | rfl
      · obtain ⟨v, hv⟩ := hAk e0 he
        rw [hv] at hf
        cases hf
      · cases hf
      · rw [hs] at hret
        cases hret
        exact ⟨(w1, Call.polyReset poly0 key velocity (cache 0).sustain ps), by simp, _, _, rfl⟩
      · rw [hP1 e0 he] at hf
        cases hf
      · cases hf
      · obtain ⟨_, _, _, _, hv⟩ := hP2 e0 he
        rw [hv] at hf
        cases hf
      · cases hf

/-- A loop that makes one call per poly of a list adds calls to polys of the list only. -/
theorem foldl_call_trace {W : Type} (E : Env W) (f : PolyRef → Call) (l : List PolyRef)
    (x : Ext W) :
    ∃ L, (l.foldl (fun x poly => x.call E (f poly)) x).calls = x.calls ++ L
      ∧ ∀ e ∈ L, ∃ v ∈ l, e.2 = f v := by
  induction l generalizing x with
  | nil => exact ⟨[], by simp, by simp⟩
  | cons a l ih =>
    obtain ⟨L, hL, hP⟩ := ih (x.call E (f a))
    refine ⟨(x.world, f a) :: L, by rw [List.foldl_cons, hL, Ext.call_calls]; simp, ?_⟩
    intro e he
    rcases List.mem_cons.mp he with rfl | he
    · exact ⟨a, List.mem_cons_self a l, rfl⟩
    · obtain ⟨v, hv, h⟩ := hP e he
      exact ⟨v, List.mem_cons_of_mem a hv, h⟩

/-- The calls of a cache backup pass followed by `playPoly`: none is a note-off, a
`Poly::reset` carries the key of the call, and a voice obtained from the pool is reset. -/
theorem backup_then_playPoly_trace {W : Type} (E : Env W) (q : Part) (cacheLoc : CacheLoc)
    (cache : PatchCacheArr) (rhythmTemp : Option RhythmTemp) (midiKey key velocity : Nat)
    (y z : Ext W) (C : List (W × Call)) (hC : z.calls = y.calls ++ C)
    (hCk : ∀ e ∈ C, ∃ v c l, e.2 = Call.polyBackupCacheToPartials v c l) :
    ∃ R, (Part.playPoly E q cacheLoc cache rhythmTemp midiKey key velocity z).2.calls
        = y.calls ++ R
      ∧ (∀ e ∈ R, (∀ v f, e.2 ≠ Call.polyNoteOff v f)
          ∧ (∀ v k vel s ps, e.2 = Call.polyReset v k vel s ps → k = key ∧ vel = velocity))
      ∧ (∀ e ∈ R, ∀ pn poly, e.2 = Call.assignPolyToPart pn →
          E.retPoly e.1 e.2 = some poly →
            ∃ e2 ∈ R, ∃ s ps, e2.2 = Call.polyReset poly key velocity s ps) := by
  obtain ⟨P, hP, hPk⟩ :=
    playPoly_calls_kind E q cacheLoc cache rhythmTemp midiKey key velocity z
  have hst := playPoly_started E q cacheLoc cache rhythmTemp midiKey key velocity z P hP
  refine ⟨C ++ P, by rw [hP, hC, List.append_assoc], ?_, ?_⟩
  · intro e he
    rcases List.mem_append.mp he with he | he
    · obtain ⟨v, c, l, hv⟩ := hCk e he
      rw [hv]
      exact ⟨fun _ _ hh => (by cases hh), fun _ _ _ _ _ hh => (by cases hh)⟩
    · exact hPk e he
  · intro e he pn poly hf hret
    rcases List.mem_append.mp he with he | he
    · obtain ⟨v, c, l, hv⟩ := hCk e he
      rw [hv] at hf
      cases hf
    · obtain ⟨e2, he2, h⟩ := hst e he pn poly hf hret
      exact ⟨e2, List.mem_append_right C he2, h⟩

/-- The calls of `RhythmPart::noteOn` after the key is settled: none is a note-off, a
`Poly::reset` carries that key, and a voice obtained from the pool is reset with it. -/
theorem rhythm_start_trace {W : Type} (E : Env W) (synth : SynthConfig) (rp : RhythmPart)
    (midiKey key velocity drumNum drumTimbreNum : Nat) (y : Ext W) :
    ∃ R, (RhythmPart.noteOn.start E synth rp midiKey key velocity drumNum drumTimbreNum
        y).2.calls = y.calls ++ R
      ∧ (∀ e ∈ R, (∀ v f, e.2 ≠ Call.polyNoteOff v f)
          ∧ (∀ v k vel s ps, e.2 = Call.polyReset v k vel s ps → k = key ∧ vel = velocity))
      ∧ (∀ e ∈ R, ∀ pn poly, e.2 = Call.assignPolyToPart pn →
          E.retPoly e.1 e.2 = some poly →
            ∃ e2 ∈ R, ∃ s ps, e2.2 = Call.polyReset poly key velocity s ps) := by
  obtain ⟨C, hC, hCk⟩ := foldl_call_trace E
    (fun poly => Call.polyBackupCacheToPartials poly (CacheLoc.drumCache drumNum)
      (List.ofFn (rp.drumCache drumNum))) rp.activePolys y
  by_cases hd : (rp.drumCache drumNum 0).dirty = true
  · simp only [RhythmPart.noteOn.start, hd, if_true]
    exact backup_then_playPoly_trace E _ _ _ _ midiKey key velocity y _ C hC
      (fun e he => by
        obtain ⟨v, -, hv⟩ := hCk e he
        exact ⟨_, _, _, hv⟩)
  · simp only [RhythmPart.noteOn.start, hd, Bool.false_eq_true, if_false]
    exact backup_then_playPoly_trace E _ _ _ _ midiKey key velocity y y [] (by simp)
      (fun e he => by simp at he)

/-- The calls of `RhythmPart::noteOn` on a playable key (24..108) whose drum entry is mapped
(timbre selector not 127 and below `64 + timbreRCount`), with the internal key `k` and the
outside `y` in which the rest of the note-on starts: `N` are the calls of the forced
`noteOff(0)`, `R` the calls of the rest. -/
theorem rhythm_noteOn_trace {W : Type} (E : Env W) (synth : SynthConfig) (rp : RhythmPart)
    (midiKey velocity : Nat) (x : Ext W) (hlo : 24 ≤ midiKey) (hhi : midiKey ≤ 108)
    (hon : (rp.rhythmTemp (midiKey - 24)).timbre ≠ 127)
    (hcount : (rp.rhythmTemp (midiKey - 24)).timbre < 64 + synth.controlROMMap.timbreRCount) :
    ∃ (k : Nat) (y : Ext W) (N R : List (W × Call)),
      k = (if (rp.rhythmTemp (midiKey - 24)).timbre = 64 + 6 then 1
            else if (rp.rhythmTemp (midiKey - 24)).timbre = 64 + 7 then 0 else midiKey)
        ∧ y = (if (rp.rhythmTemp (midiKey - 24)).timbre = 64 + 6
                  ∨ (rp.rhythmTemp (midiKey - 24)).timbre = 64 + 7 then
                rp.noteOff E 0 (x.call E Call.rhythmNotePlayed)
              else x.call E Call.rhythmNotePlayed)
        ∧ rp.noteOn E synth midiKey velocity x
            = RhythmPart.noteOn.start E synth rp midiKey k velocity (midiKey - 24)
                (rp.rhythmTemp (midiKey - 24)).timbre y
        ∧ y.calls = x.calls ++ [(x.world, Call.rhythmNotePlayed)] ++ N
        ∧ (rp.noteOn E synth midiKey velocity x).2.calls
            = x.calls ++ [(x.world, Call.rhythmNotePlayed)] ++ N ++ R
        ∧ ((rp.rhythmTemp (midiKey - 24)).timbre ≠ 64 + 6 →
            (rp.rhythmTemp (midiKey - 24)).timbre ≠ 64 + 7 → N = [])
        ∧ (∀ e ∈ N, ∃ v ∈ rp.activePolys,
            e.2 = Call.polyNoteOff v false ∧ E.polyGetKey e.1 v = 0)
        ∧ ((rp.rhythmTemp (midiKey - 24)).timbre = 64 + 6
              ∨ (rp.rhythmTemp (midiKey - 24)).timbre = 64 + 7 →
            ∀ v, rp.activePolys.find? (fun v =>
                decide (E.polyGetKey (E.exec x.world Call.rhythmNotePlayed) v = 0
                  ∧ (E.polyCanSustain (E.exec x.world Call.rhythmNotePlayed) v = true ∨ 0 = 0)))
                = some v →
              N.head? = some (E.exec x.world Call.rhythmNotePlayed, Call.polyNoteOff v false))
        ∧ (∀ e ∈ R, (∀ v f, e.2 ≠ Call.polyNoteOff v f)
            ∧ (∀ v k2 vel s ps, e.2 = Call.polyReset v k2 vel s ps → k2 = k ∧ vel = velocity))
        ∧ (∀ e ∈ R, ∀ pn poly, e.2 = Call.assignPolyToPart pn →
            E.retPoly e.1 e.2 = some poly →
              ∃ e2 ∈ R, ∃ s ps, e2.2 = Call.polyReset poly k velocity s ps) := by
  have hflag : ∀ b : Bool, (b && (0 : Nat) != 0) = false := fun b => by simp
  have hn : rp.noteOn E synth midiKey velocity x
      = RhythmPart.noteOn.play E synth rp midiKey velocity (midiKey - 24)
          (rp.rhythmTemp (midiKey - 24)).timbre (x.call E Call.rhythmNotePlayed) := by
    rw [RhythmPart.noteOn, if_neg (by omega)]
    simp only []
    rw [if_neg (by omega)]
  obtain ⟨N0, hN0, hN0k, hN0h, -⟩ := stopNote_scan_trace E rp.holdpedal 0 rp.activePolys
    (x.call E Call.rhythmNotePlayed)
  have hN0c : (rp.noteOff E 0 (x.call E Call.rhythmNotePlayed)).calls
      = x.calls ++ [(x.world, Call.rhythmNotePlayed)] ++ N0 := by
    rw [RhythmPart.noteOff, Part.stopNote, hN0, Ext.call_calls]
  have hN0k2 : ∀ e ∈ N0, ∃ v ∈ rp.activePolys,
      e.2 = Call.polyNoteOff v false ∧ E.polyGetKey e.1 v = 0 := by
    intro e he
    obtain ⟨v, hv, h1, h2, -⟩ := hN0k e he
    rw [hflag] at h1
    exact ⟨v, hv, h1, h2⟩
  by_cases h70 : (rp.rhythmTemp (midiKey - 24)).timbre = 64 + 6
  · obtain ⟨R, hR, hRk, hRs⟩ := rhythm_start_trace E synth rp midiKey 1 velocity (midiKey - 24)
      (rp.rhythmTemp (midiKey - 24)).timbre (rp.noteOff E 0 (x.call E Call.rhythmNotePlayed))
    refine ⟨1, _, N0, R, by rw [if_pos h70], rfl, ?_, ?_, ?_, fun h => absurd h70 h, hN0k2, ?_,
      hRk, hRs⟩
    · rw [hn, RhythmPart.noteOn.play, if_pos h70, if_pos (Or.inl h70)]
    · rw [if_pos (Or.inl h70), hN0c]
    · rw [hn, RhythmPart.noteOn.play, if_pos h70, hR, hN0c]
    · intro _ v hv
      have := hN0h v hv
      rw [hflag] at this
      exact this
  · by_cases h71 : (rp.rhythmTemp (midiKey - 24)).timbre = 64 + 7
    · obtain ⟨R, hR, hRk, hRs⟩ := rhythm_start_trace E synth rp midiKey 0 velocity
        (midiKey - 24) (rp.rhythmTemp (midiKey - 24)).timbre
        (rp.noteOff E 0 (x.call E Call.rhythmNotePlayed))
      refine ⟨0, _, N0, R, by rw [if_neg h70, if_pos h71], rfl, ?_, ?_, ?_,
        fun _ h => absurd h71 h, hN0k2, ?_, hRk, hRs⟩
      · rw [hn, RhythmPart.noteOn.play, if_neg h70, if_pos h71, if_pos (Or.inr h71)]
      · rw [if_pos (Or.inr h71), hN0c]
      · rw [hn, RhythmPart.noteOn.play, if_neg h70, if_pos h71, hR, hN0c]
      · intro _ v hv
        have := hN0h v hv
        rw [hflag] at this
        exact this
    · obtain ⟨R, hR, hRk, hRs⟩ := rhythm_start_trace E synth rp midiKey midiKey velocity
        (midiKey - 24) (rp.rhythmTemp (midiKey - 24)).timbre (x.call E Call.rhythmNotePlayed)
      have hno : ¬ ((rp.rhythmTemp (midiKey - 24)).timbre = 64 + 6
          ∨ (rp.rhythmTemp (midiKey - 24)).timbre = 64 + 7) := fun h => h.elim h70 h71
      refine ⟨midiKey, _, [], R, by rw [if_neg h70, if_neg h71], rfl, ?_, ?_, ?_,
        fun _ _ => rfl, by simp, fun h => absurd h hno, hRk, hRs⟩
      · rw [hn, RhythmPart.noteOn.play, if_neg h70, if_neg h71, if_neg hno]
      · rw [if_neg hno, Ext.call_calls, List.append_nil]
      · rw [hn, RhythmPart.noteOn.play, if_neg h70, if_neg h71, hR, Ext.call_calls,
          List.append_nil]

/-- The rest of `RhythmPart::noteOn`, once the internal key is settled, is one `playPoly`:
on the part `q` with the name of the drum timbre, with the drum cache (rebuilt first when it
was dirty, after the backup pass over the voices), from the outside `z` the backup pass has
left. The cache used is the one stored for the drum afterwards. -/
theorem rhythm_start_eq {W : Type} (E : Env W) (synth : SynthConfig) (rp : RhythmPart)
    (midiKey key velocity drumNum drumTimbreNum : Nat) (y : Ext W) :
    (RhythmPart.noteOn.start E synth rp midiKey key velocity drumNum drumTimbreNum y).2
        = (Part.playPoly E
            { rp.toPart with
              currentInstr :=
                (synth.mt32ram.timbres (drumTimbreNum + 128)).common.name.take 10
                  ++ rp.currentInstr.drop 10 }
            (CacheLoc.drumCache drumNum)
            (if (rp.drumCache drumNum 0).dirty = true then
              cacheTimbre.build (rp.drumCache drumNum) (TimbreLoc.timbres (drumTimbreNum + 128))
                (synth.mt32ram.timbres (drumTimbreNum + 128))
            else rp.drumCache drumNum)
            (some (rp.rhythmTemp drumNum)) midiKey key velocity
            (if (rp.drumCache drumNum 0).dirty = true then
              Part.backupCacheToPartials E
                { rp.toPart with
                  currentInstr :=
                    (synth.mt32ram.timbres (drumTimbreNum + 128)).common.name.take 10
                      ++ rp.currentInstr.drop 10 }
                (CacheLoc.drumCache drumNum) (rp.drumCache drumNum) y
            else y)).2
      ∧ (RhythmPart.noteOn.start E synth rp midiKey key velocity drumNum drumTimbreNum
            y).1.toPart
        = (Part.playPoly E
            { rp.toPart with
              currentInstr :=
                (synth.mt32ram.timbres (drumTimbreNum + 128)).common.name.take 10
                  ++ rp.currentInstr.drop 10 }
            (CacheLoc.drumCache drumNum)
            (if (rp.drumCache drumNum 0).dirty = true then
              cacheTimbre.build (rp.drumCache drumNum) (TimbreLoc.timbres (drumTimbreNum + 128))
                (synth.mt32ram.timbres (drumTimbreNum + 128))
            else rp.drumCache drumNum)
            (some (rp.rhythmTemp drumNum)) midiKey key velocity
            (if (rp.drumCache drumNum 0).dirty = true then
              Part.backupCacheToPartials E
                { rp.toPart with
                  currentInstr :=
                    (synth.mt32ram.timbres (drumTimbreNum + 128)).common.name.take 10
                      ++ rp.currentInstr.drop 10 }
                (CacheLoc.drumCache drumNum) (rp.drumCache drumNum) y
            else y)).1
      ∧ (RhythmPart.noteOn.start E synth rp midiKey key velocity drumNum drumTimbreNum
            y).1.drumCache drumNum
        = (if (rp.drumCache drumNum 0).dirty = true then
            cacheTimbre.build (rp.drumCache drumNum) (TimbreLoc.timbres (drumTimbreNum + 128))
              (synth.mt32ram.timbres (drumTimbreNum + 128))
          else rp.drumCache drumNum) := by
  by_cases hd : (rp.drumCache drumNum 0).dirty = true
  · simp only [RhythmPart.noteOn.start, hd, if_true, Function.update_same]
    refine ⟨?_, ?_, ?_⟩ <;> trivial
  · simp only [RhythmPart.noteOn.start, hd, Bool.false_eq_true, if_false]
    refine ⟨?_, ?_, ?_⟩ <;> trivial

/-- With a cache that is not muted, and no abort in progress after the same-key abort of
single-assign mode, `playPoly` goes on to the `freePartials` request. -/
theorem playPoly_eq_admission {W : Type} (E : Env W) (p : Part) (cacheLoc : CacheLoc)
    (cache : PatchCacheArr) (rhythmTemp : Option RhythmTemp) (midiKey key velocity : Nat)
    (x : Ext W) (h0 : (cache 0).partialCount ≠ 0)
    (hab : p.patchTemp.patch.assignMode &&& 2 = 0 →
      E.isAbortingPoly (p.abortFirstPolyKey E key x).2.world = false) :
    p.playPoly E cacheLoc cache rhythmTemp midiKey key velocity x
      = Part.playPoly.admission E p cacheLoc cache rhythmTemp midiKey key velocity
          (if p.patchTemp.patch.assignMode &&& 2 = 0 then (p.abortFirstPolyKey E key x).2
            else x) := by
  unfold Part.playPoly
  rw [if_neg h0]
  by_cases hm : p.patchTemp.patch.assignMode &&& 2 = 0
  · rw [if_pos hm, if_pos hm]
    simp only [hab hm, Bool.false_eq_true, if_false]
  · rw [if_neg hm, if_neg hm]

/-- When the reservation succeeds, no abort is in progress and the pool returns the voice
`poly`, the admission puts `poly` in the list, requests the units, resets `poly` with the
internal key and the velocity, starts its units and reports the change. -/
theorem admission_started {W : Type} (E : Env W) (p : Part) (cacheLoc : CacheLoc)
    (cache : PatchCacheArr) (rhythmTemp : Option RhythmTemp) (midiKey key velocity : Nat)
    (a : Ext W) (poly : PolyRef)
    (h1 : E.retBool a.world (Call.freePartials (cache 0).partialCount p.partNum) = true)
    (h2 : E.isAbortingPoly
      (a.call E (Call.freePartials (cache 0).partialCount p.partNum)).world = false)
    (h3 : E.retPoly (a.call E (Call.freePartials (cache 0).partialCount p.partNum)).world
      (Call.assignPolyToPart p.partNum) = some poly) :
    ∃ L1 L2 w1 w2 ps,
      (Part.playPoly.admission E p cacheLoc cache rhythmTemp midiKey key velocity a).1.activePolys
          = (if p.patchTemp.patch.assignMode &&& 1 ≠ 0 then PolyList.prepend p.activePolys poly
              else PolyList.append p.activePolys poly)
        ∧ (Part.playPoly.admission E p cacheLoc cache rhythmTemp midiKey key velocity a).2.calls
            = a.calls ++ [(a.world, Call.freePartials (cache 0).partialCount p.partNum),
                ((a.call E (Call.freePartials (cache 0).partialCount p.partNum)).world,
                  Call.assignPolyToPart p.partNum)]
              ++ L1 ++ [(w1, Call.polyReset poly key velocity (cache 0).sustain ps)]
              ++ L2 ++ [(w2, Call.onPolyStateChanged (toBit8u p.partNum))]
        ∧ (∀ e ∈ L1, e.2 = Call.allocPartial p.partNum)
        ∧ (∀ e ∈ L2, ∃ u slot c pair,
            e.2 = Call.startPartial u p.partNum poly cacheLoc slot c rhythmTemp pair) := by
  rcases admission_trace E p cacheLoc cache rhythmTemp midiKey key velocity a with
    ⟨hf, -, -⟩ | ⟨-, hab, -, -⟩ | ⟨-, hnone, -, -⟩
      | ⟨poly2, L1, L2, w1, w2, ps, -, hsome, hp, hc, hk1, hk2⟩
  · rw [h1] at hf
    cases hf
  · rw [h2] at hab
    cases hab
  · rw [h3] at hnone
    cases hnone
  · rw [h3] at hsome
    cases hsome
    exact ⟨L1, L2, w1, w2, ps, hp, hc, hk1, hk2⟩

/-- C9. `RhythmPart::noteOn` on a playable key (24..108) whose drum entry is mapped (timbre
selector not 127 and below `64 + timbreRCount`). The internal key `k` is 1 for selector
`64+6`, 0 for selector `64+7` and the MIDI key otherwise. For the two special selectors it
first performs `noteOff(0)`, right after `rhythmNotePlayed`: `N` are the calls of that
`stopNote(0)`, note-offs without pedal deferral to voices with key 0, and the first voice of
the list with key 0 does get one; for every other selector `N` is empty. Then it runs the
rest of the note-on with key `k`, from the outside `y`: among the remaining calls `R` there
is no note-off and every `Poly::reset` carries key `k`. The drum cache is rebuilt first when
it was dirty (`cache`, stored for the drum; `z` is the outside after the backup pass), then
the same-key abort of single-assign mode is done (`a` is the outside after it). And the
voice is started: when the cache is not muted, no abort is in progress, the reservation at
`a` succeeds and the pool returns the voice `poly`, the calls end with the two requests,
the unit requests, `Poly::reset` of `poly` with internal key `k` and the velocity, the
starts of its units and the state report, and `poly` is in the voice list, at the front or
the back by the assign mode. -/
theorem rhythm_noteOn_special {W : Type} (E : Env W) (synth : SynthConfig) (rp : RhythmPart)
    (midiKey velocity : Nat) (x : Ext W) (hlo : 24 ≤ midiKey) (hhi : midiKey ≤ 108)
    (hon : (rp.rhythmTemp (midiKey - 24)).timbre ≠ 127)
    (hcount : (rp.rhythmTemp (midiKey - 24)).timbre < 64 + synth.controlROMMap.timbreRCount)
    (k : Nat)
    (hk : k = (if (rp.rhythmTemp (midiKey - 24)).timbre = 64 + 6 then 1
      else if (rp.rhythmTemp (midiKey - 24)).timbre = 64 + 7 then 0 else midiKey))
    (y : Ext W)
    (hy : y = (if (rp.rhythmTemp (midiKey - 24)).timbre = 64 + 6
          ∨ (rp.rhythmTemp (midiKey - 24)).timbre = 64 + 7 then
        rp.noteOff E 0 (x.call E Call.rhythmNotePlayed)
      else x.call E Call.rhythmNotePlayed))
    (cache : PatchCacheArr)
    (hcache : cache = (if (rp.drumCache (midiKey - 24) 0).dirty = true then
        cacheTimbre.build (rp.drumCache (midiKey - 24))
          (TimbreLoc.timbres ((rp.rhythmTemp (midiKey - 24)).timbre + 128))
          (synth.mt32ram.timbres ((rp.rhythmTemp (midiKey - 24)).timbre + 128))
      else rp.drumCache (midiKey - 24)))
    (z : Ext W)
    (hz : z = (if (rp.drumCache (midiKey - 24) 0).dirty = true then
        rp.toPart.backupCacheToPartials E (CacheLoc.drumCache (midiKey - 24))
          (rp.drumCache (midiKey - 24)) y
      else y))
    (a : Ext W)
    (ha : a = (if rp.patchTemp.patch.assignMode &&& 2 = 0 then
        (rp.toPart.abortFirstPolyKey E k z).2 else z)) :
    (∃ (N R : List (W × Call)),
        rp.noteOn E synth midiKey velocity x
            = RhythmPart.noteOn.start E synth rp midiKey k velocity (midiKey - 24)
                (rp.rhythmTemp (midiKey - 24)).timbre y
          ∧ y.calls = x.calls ++ [(x.world, Call.rhythmNotePlayed)] ++ N
          ∧ (rp.noteOn E synth midiKey velocity x).2.calls
              = x.calls ++ [(x.world, Call.rhythmNotePlayed)] ++ N ++ R
          ∧ ((rp.rhythmTemp (midiKey - 24)).timbre ≠ 64 + 6 →
              (rp.rhythmTemp (midiKey - 24)).timbre ≠ 64 + 7 → N = [])
          ∧ (∀ e ∈ N, ∃ v ∈ rp.activePolys,
              e.2 = Call.polyNoteOff v false ∧ E.polyGetKey e.1 v = 0)
          ∧ ((rp.rhythmTemp (midiKey - 24)).timbre = 64 + 6
                ∨ (rp.rhythmTemp (midiKey - 24)).timbre = 64 + 7 →
              ∀ v, rp.activePolys.find? (fun v =>
                  decide (E.polyGetKey (E.exec x.world Call.rhythmNotePlayed) v = 0
                    ∧ (E.polyCanSustain (E.exec x.world Call.rhythmNotePlayed) v = true
                      ∨ 0 = 0)))
                  = some v →
                N.head? = some (E.exec x.world Call.rhythmNotePlayed, Call.polyNoteOff v false))
          ∧ (∀ e ∈ R, (∀ v f, e.2 ≠ Call.polyNoteOff v f)
              ∧ (∀ v k2 vel s ps, e.2 = Call.polyReset v k2 vel s ps → k2 = k ∧ vel = velocity))
          ∧ (∀ e ∈ R, ∀ pn poly, e.2 = Call.assignPolyToPart pn →
              E.retPoly e.1 e.2 = some poly →
                ∃ e2 ∈ R, ∃ s ps, e2.2 = Call.polyReset poly k velocity s ps))
      ∧ (rp.noteOn E synth midiKey velocity x).1.drumCache (midiKey - 24) = cache
      ∧ (∀ poly, (cache 0).partialCount ≠ 0 →
          (rp.patchTemp.patch.assignMode &&& 2 = 0 → E.isAbortingPoly a.world = false) →
          E.retBool a.world (Call.freePartials (cache 0).partialCount rp.partNum) = true →
          E.isAbortingPoly
            (a.call E (Call.freePartials (cache 0).partialCount rp.partNum)).world = false →
          E.retPoly (a.call E (Call.freePartials (cache 0).partialCount rp.partNum)).world
            (Call.assignPolyToPart rp.partNum) = some poly →
            ∃ L1 L2 w1 w2 ps,
              (rp.noteOn E synth midiKey velocity x).2.calls
                  = a.calls ++ [(a.world, Call.freePartials (cache 0).partialCount rp.partNum),
                      ((a.call E (Call.freePartials (cache 0).partialCount rp.partNum)).world,
                        Call.assignPolyToPart rp.partNum)]
                    ++ L1 ++ [(w1, Call.polyReset poly k velocity (cache 0).sustain ps)]
                    ++ L2 ++ [(w2, Call.onPolyStateChanged (toBit8u rp.partNum))]
                ∧ (w1, Call.polyReset poly k velocity (cache 0).sustain ps)
                    ∈ (rp.noteOn E synth midiKey velocity x).2.calls
                ∧ (rp.noteOn E synth midiKey velocity x).1.activePolys
                    = (if rp.patchTemp.patch.assignMode &&& 1 ≠ 0 then poly :: rp.activePolys
                        else rp.activePolys ++ [poly])
                ∧ (∀ e ∈ L1, e.2 = Call.allocPartial rp.partNum)
                ∧ (∀ e ∈ L2, ∃ u slot c pair,
                    e.2 = Call.startPartial u rp.partNum poly
                      (CacheLoc.drumCache (midiKey - 24)) slot c
                      (some (rp.rhythmTemp (midiKey - 24))) pair)) := by
  obtain ⟨k2, y2, N, R, hk2, hy2, hstart, hyc, hcalls, hN0, hNk, hNh, hRk, hRs⟩ :=
    rhythm_noteOn_trace E synth rp midiKey velocity x hlo hhi hon hcount
  rw [← hk] at hk2
  rw [← hy] at hy2
  subst hk2 hy2
  obtain ⟨e1, e2, e3⟩ := rhythm_start_eq E synth rp midiKey k2 velocity (midiKey - 24)
    (rp.rhythmTemp (midiKey - 24)).timbre y2
  rw [← hcache] at e1 e2 e3
  refine ⟨⟨N, R, hstart, hyc, hcalls, hN0, hNk, hNh, hRk, hRs⟩, ?_, ?_⟩
  · rw [hstart]
    exact e3
  · intro poly h0 hab h1 h2 h3
    have hz2 : z = (if (rp.drumCache (midiKey - 24) 0).dirty = true then
        Part.backupCacheToPartials E
          { rp.toPart with
            currentInstr :=
              (synth.mt32ram.timbres ((rp.rhythmTemp (midiKey - 24)).timbre + 128)).common.name.take
                  10
                ++ rp.currentInstr.drop 10 }
          (CacheLoc.drumCache (midiKey - 24)) (rp.drumCache (midiKey - 24)) y2
        else y2) := hz
    rw [← hz2] at e1 e2
    have hadm := playPoly_eq_admission E
      { rp.toPart with
        currentInstr :=
          (synth.mt32ram.timbres ((rp.rhythmTemp (midiKey - 24)).timbre + 128)).common.name.take 10
            ++ rp.currentInstr.drop 10 }
      (CacheLoc.drumCache (midiKey - 24)) cache (some (rp.rhythmTemp (midiKey - 24))) midiKey k2
      velocity z h0 (fun hm => by
        have := hab hm
        rw [ha, if_pos hm] at this
        exact this)
    have ha2 : a = (if rp.patchTemp.patch.assignMode &&& 2 = 0 then
        (Part.abortFirstPolyKey E
          { rp.toPart with
            currentInstr :=
              (synth.mt32ram.timbres ((rp.rhythmTemp (midiKey - 24)).timbre + 128)).common.name.take
                  10
                ++ rp.currentInstr.drop 10 } k2 z).2
        else z) := ha
    have hadm2 : Part.playPoly E
        { rp.toPart with
          currentInstr :=
            (synth.mt32ram.timbres ((rp.rhythmTemp (midiKey - 24)).timbre + 128)).common.name.take
                10
              ++ rp.currentInstr.drop 10 }
        (CacheLoc.drumCache (midiKey - 24)) cache (some (rp.rhythmTemp (midiKey - 24))) midiKey
        k2 velocity z
        = Part.playPoly.admission E
          { rp.toPart with
            currentInstr :=
              (synth.mt32ram.timbres ((rp.rhythmTemp (midiKey - 24)).timbre + 128)).common.name.take
                  10
                ++ rp.currentInstr.drop 10 }
          (CacheLoc.drumCache (midiKey - 24)) cache (some (rp.rhythmTemp (midiKey - 24)))
          midiKey k2 velocity a := by
      rw [ha2]
      exact hadm
    rw [hadm2] at e1 e2
    obtain ⟨L1, L2, w1, w2, ps, hp, hc, hk1, hk2⟩ := admission_started E
      { rp.toPart with
        currentInstr :=
          (synth.mt32ram.timbres ((rp.rhythmTemp (midiKey - 24)).timbre + 128)).common.name.take 10
            ++ rp.currentInstr.drop 10 }
      (CacheLoc.drumCache (midiKey - 24)) cache (some (rp.rhythmTemp (midiKey - 24))) midiKey k2
      velocity a poly h1 h2 h3
    have hcalls2 : (rp.noteOn E synth midiKey velocity x).2.calls
        = a.calls ++ [(a.world, Call.freePartials (cache 0).partialCount rp.partNum),
            ((a.call E (Call.freePartials (cache 0).partialCount rp.partNum)).world,
              Call.assignPolyToPart rp.partNum)]
          ++ L1 ++ [(w1, Call.polyReset poly k2 velocity (cache 0).sustain ps)]
          ++ L2 ++ [(w2, Call.onPolyStateChanged (toBit8u rp.partNum))] := by
      rw [hstart, e1]
      exact hc
    refine ⟨L1, L2, w1, w2, ps, hcalls2, ?_, ?_, hk1, hk2⟩
    · rw [hcalls2]
      simp
    · have hl : (rp.noteOn E synth midiKey velocity x).1.activePolys
          = (RhythmPart.noteOn.start E synth rp midiKey k2 velocity (midiKey - 24)
              (rp.rhythmTemp (midiKey - 24)).timbre y2).1.toPart.activePolys := by
        rw [hstart]
      rw [hl, e2]
      exact hp

theorem rhythm_noteOn_special_witness :
    ((24 ≤ 24 ∧ 24 ≤ 108)
        ∧ (Example.rhythmPart.rhythmTemp (24 - 24)).timbre = 64 + 6
        ∧ (Example.rhythmPart.rhythmTemp (24 - 24)).timbre
            < 64 + Example.synth.controlROMMap.timbreRCount)
      ∧ (∃ (N R : List (Sim.World × Call)),
          (Example.rhythmPart.noteOn Sim.env Example.synth 24 100 Example.drumExt).2.calls
              = Example.drumExt.calls ++ [(Example.drumExt.world, Call.rhythmNotePlayed)] ++ N ++ R
            ∧ N.head? = some (Sim.env.exec Example.drumExt.world Call.rhythmNotePlayed,
                Call.polyNoteOff 1 false)
            ∧ (∀ e ∈ R, (∀ v f, e.2 ≠ Call.polyNoteOff v f)
                ∧ (∀ v k2 vel s ps, e.2 = Call.polyReset v k2 vel s ps → k2 = 1 ∧ vel = 100)))
      ∧ (∃ w1 ps,
          (w1, Call.polyReset 3 1 100 (Example.rhythmPart.drumCache (24 - 24) 0).sustain ps)
            ∈ (Example.rhythmPart.noteOn Sim.env Example.synth 24 100 Example.drumExt).2.calls)
      ∧ (Example.rhythmPart.noteOn Sim.env Example.synth 24 100 Example.drumExt).1.activePolys
          = [1, 2, 3]
      ∧ (Example.rhythmPart.noteOn Sim.env Example.synth 24 100 Example.drumExt).2.calls.map
            Prod.snd
          = [Call.rhythmNotePlayed, Call.polyNoteOff 1 false]
            ++ ((Example.rhythmPart.noteOn Sim.env Example.synth 24 100
                  Example.drumExt).2.calls.map Prod.snd).drop 2
      ∧ Call.polyReset 3 1 100 true [some 16, some 17, some 18, none]
          ∈ (Example.rhythmPart.noteOn Sim.env Example.synth 24 100 Example.drumExt).2.calls.map
              Prod.snd :=
  ⟨⟨by decide, by decide, by decide⟩,
    (rhythm_noteOn_special Sim.env Example.synth Example.rhythmPart 24 100 Example.drumExt
      (by decide) (by decide) (by decide) (by decide) 1 (by decide)
      (Example.rhythmPart.noteOff Sim.env 0 (Example.drumExt.call Sim.env Call.rhythmNotePlayed))
      (if_pos (Or.inl (by decide))).symm
      (Example.rhythmPart.drumCache (24 - 24)) (if_neg (by decide)).symm
      (Example.rhythmPart.noteOff Sim.env 0 (Example.drumExt.call Sim.env Call.rhythmNotePlayed))
      (if_neg (by decide)).symm
      (Example.rhythmPart.toPart.abortFirstPolyKey Sim.env 1
        (Example.rhythmPart.noteOff Sim.env 0
          (Example.drumExt.call Sim.env Call.rhythmNotePlayed))).2
      (if_pos (by decide)).symm).1.imp
      (fun _ h => h.imp (fun _ h =>
        ⟨h.2.2.1, h.2.2.2.2.2.1 (Or.inl (by decide)) 1 (by decide), h.2.2.2.2.2.2.1⟩)),
    ((rhythm_noteOn_special Sim.env Example.synth Example.rhythmPart 24 100 Example.drumExt
      (by decide) (by decide) (by decide) (by decide) 1 (by decide)
      (Example.rhythmPart.noteOff Sim.env 0 (Example.drumExt.call Sim.env Call.rhythmNotePlayed))
      (if_pos (Or.inl (by decide))).symm
      (Example.rhythmPart.drumCache (24 - 24)) (if_neg (by decide)).symm
      (Example.rhythmPart.noteOff Sim.env 0 (Example.drumExt.call Sim.env Call.rhythmNotePlayed))
      (if_neg (by decide)).symm
      (Example.rhythmPart.toPart.abortFirstPolyKey Sim.env 1
        (Example.rhythmPart.noteOff Sim.env 0
          (Example.drumExt.call Sim.env Call.rhythmNotePlayed))).2
      (if_pos (by decide)).symm).2.2 3 (by decide) (by decide) (by decide) (by decide)
      (by decide)).elim
      (fun _ h => h.elim fun _ h => h.elim fun w1 h => h.elim fun _ h => h.elim fun ps h =>
        ⟨w1, ps, h.2.1⟩),
    by decide, by decide, by decide⟩

/-! ## C10: note-off -/

/-- C10. Let `new` be the calls of one `stopNote(key)`. Each of them is a note-off to a voice
of the active-voice list whose key, in the world of that call, equals `key` and that is
sustain-capable or has key 0; so a voice with another key, or a voice that cannot sustain
and has a non-zero key, gets no call. The pedal flag passed is true exactly when the hold
pedal is down and `key` is not 0; for key 0 it is false also with the pedal down. The first
voice of the list that qualifies does get the note-off, and when none qualifies no call is
made. `Part::noteOff` is `stopNote` on the mapped key, `RhythmPart::noteOff` on the MIDI key. -/
theorem stopNote_spec {W : Type} (E : Env W) (p : Part) (key : Nat) (x : Ext W)
    (new : List (W × Call)) (hnew : (p.stopNote E key x).calls = x.calls ++ new) :
    (∀ e ∈ new, ∃ v ∈ p.activePolys, e.2 = Call.polyNoteOff v (p.holdpedal && key != 0)
        ∧ E.polyGetKey e.1 v = key ∧ (E.polyCanSustain e.1 v = true ∨ key = 0))
      ∧ ((p.holdpedal && key != 0) = true ↔ (p.holdpedal = true ∧ key ≠ 0))
      ∧ (key = 0 → (p.holdpedal && key != 0) = false)
      ∧ (∀ v, p.activePolys.find? (fun v => decide (E.polyGetKey x.world v = key
              ∧ (E.polyCanSustain x.world v = true ∨ key = 0))) = some v →
          new.head? = some (x.world, Call.polyNoteOff v (p.holdpedal && key != 0)))
      ∧ (p.activePolys.find? (fun v => decide (E.polyGetKey x.world v = key
              ∧ (E.polyCanSustain x.world v = true ∨ key = 0))) = none → new = [])
      ∧ (∀ (synth : SynthConfig) (midiKey : Nat),
          p.noteOff E synth midiKey x = p.stopNote E (p.midiKeyToKey synth midiKey) x)
      ∧ (∀ (rp : RhythmPart) (midiKey : Nat),
          rp.noteOff E midiKey x = rp.toPart.stopNote E midiKey x) := by
  obtain ⟨L, hL, hP, hH, hN⟩ := stopNote_scan_trace E p.holdpedal key p.activePolys x
  rw [Part.stopNote, hL] at hnew
  have := List.append_cancel_left hnew
  subst this
  refine ⟨hP, ?_, ?_, hH, hN, fun _ _ => rfl, fun _ _ => rfl⟩
  · simp
  · intro h
    simp [h]

theorem stopNote_spec_witness :
    (∀ e ∈ [(Example.world, Call.polyNoteOff 1 true)],
        ∃ v ∈ Example.part.activePolys,
          e.2 = Call.polyNoteOff v (Example.part.holdpedal && 60 != 0)
            ∧ Sim.env.polyGetKey e.1 v = 60 ∧ (Sim.env.polyCanSustain e.1 v = true ∨ 60 = 0))
      ∧ ((Example.part.holdpedal && 60 != 0) = true ↔ (Example.part.holdpedal = true ∧ 60 ≠ 0)) :=
  ⟨(stopNote_spec Sim.env Example.part 60 Example.ext [(Example.world, Call.polyNoteOff 1 true)]
      (by decide)).1,
    (stopNote_spec Sim.env Example.part 60 Example.ext [(Example.world, Call.polyNoteOff 1 true)]
      (by decide)).2.1⟩

/-! ## C11: how far one note-off reaches -/

/-- The `stopNote` loop goes on past a voice whose `noteOff` returns false: the voices it
calls are a sub-sequence of the list, in list order, every call but the last has returned
false, and when the call to the first voice that qualifies returns true it is the only one. -/
theorem stopNote_scan_order {W : Type} (E : Env W) (holdpedal : Bool) (key : Nat)
    (l : List PolyRef) (x : Ext W) :
    ∃ (L : List (W × Call)) (vs : List PolyRef),
      (Part.stopNote.scan E holdpedal key l x).calls = x.calls ++ L
      ∧ List.Sublist vs l
      ∧ L.map Prod.snd = vs.map (fun v => Call.polyNoteOff v (holdpedal && key != 0))
      ∧ (∀ e ∈ L.dropLast, E.retBool e.1 e.2 = false)
      ∧ (∀ v, l.find? (fun v => decide (E.polyGetKey x.world v = key
              ∧ (E.polyCanSustain x.world v = true ∨ key = 0))) = some v →
          E.retBool x.world (Call.polyNoteOff v (holdpedal && key != 0)) = true →
            L = [(x.world, Call.polyNoteOff v (holdpedal && key != 0))]) := by
  induction l generalizing x with
  | nil => exact ⟨[], [], by simp [Part.stopNote.scan], List.Sublist.slnil, rfl, by simp, by simp⟩
  | cons v l ih =>
    by_cases hc : E.polyGetKey x.world v = key ∧ (E.polyCanSustain x.world v = true ∨ key = 0)
    · have hfind : (v :: l).find? (fun v => decide (E.polyGetKey x.world v = key
          ∧ (E.polyCanSustain x.world v = true ∨ key = 0))) = some v := by
        simp [List.find?, hc]
      by_cases hr : E.retBool x.world (Call.polyNoteOff v (holdpedal && key != 0)) = true
      · refine ⟨[(x.world, Call.polyNoteOff v (holdpedal && key != 0))], [v], ?_,
          List.Sublist.cons₂ v (List.nil_sublist l), rfl, by simp, ?_⟩
        · rw [Part.stopNote.scan, if_pos hc, if_pos hr, Ext.call_calls]
        · intro v2 h2 _
          rw [hfind] at h2
          cases h2
          rfl
      · obtain ⟨L, vs, hL, hs, hm, hd, -⟩ :=
          ih (x.call E (Call.polyNoteOff v (holdpedal && key != 0)))
        refine ⟨(x.world, Call.polyNoteOff v (holdpedal && key != 0)) :: L, v :: vs, ?_,
          List.Sublist.cons₂ v hs, by simp [hm], ?_, ?_⟩
        · rw [Part.stopNote.scan, if_pos hc, if_neg hr, hL, Ext.call_calls]
          simp
        · intro e he
          cases L with
          | nil => simp at he
          | cons a L =>
            rw [List.dropLast_cons₂] at he
            rcases List.mem_cons.mp he with rfl | he
            · simpa using hr
            · exact hd e he
        · intro v2 h2 h3
          rw [hfind] at h2
          cases h2
          exact absurd h3 hr
    · have hfind : (v :: l).find? (fun v => decide (E.polyGetKey x.world v = key
          ∧ (E.polyCanSustain x.world v = true ∨ key = 0)))
          = l.find? (fun v => decide (E.polyGetKey x.world v = key
          ∧ (E.polyCanSustain x.world v = true ∨ key = 0))) := by
        simp [List.find?, hc]
      obtain ⟨L, vs, hL, hs, hm, hd, h1⟩ := ih x
      refine ⟨L, vs, ?_, List.Sublist.cons v hs, hm, hd, ?_⟩
      · rw [Part.stopNote.scan, if_neg hc, hL]
      · intro v2 h2
        rw [hfind] at h2
        exact h1 v2 h2

/-- C11, as stated, fails. With the pedal down and two voices on key 60, the first already
held, `stopNote(60)` calls `noteOff` on voice `1`, which reports no change, and goes on to
voice `2`: the first matching voice is left as it was and the later matching voice moves
from Playing to Held. -/
theorem stopNote_later_voice_changed :
    Example.part.activePolys.find? (fun v =>
        decide (Sim.env.polyGetKey Example.heldWorld v = 60
          ∧ (Sim.env.polyCanSustain Example.heldWorld v = true ∨ 60 = 0))) = some 1
      ∧ (Example.part.stopNote Sim.env 60 Example.heldExt).calls
          = [(Example.heldWorld, Call.polyNoteOff 1 true),
              (Example.heldWorld, Call.polyNoteOff 2 true)]
      ∧ (Example.part.stopNote Sim.env 60 Example.heldExt).world.poly 1
          = Example.heldWorld.poly 1
      ∧ (Example.heldWorld.poly 2).state = PolyState.POLY_Playing
      ∧ ((Example.part.stopNote Sim.env 60 Example.heldExt).world.poly 2).state
          = PolyState.POLY_Held
      ∧ (Example.part.stopNote Sim.env 60 Example.heldExt).world.poly 2
          ≠ Example.heldWorld.poly 2 := by
  decide

/-- The `stopNote` loop passes over the voices that do not qualify. -/
theorem stopNote_scan_skip {W : Type} (E : Env W) (holdpedal : Bool) (key : Nat)
    (l1 l2 : List PolyRef) (x : Ext W)
    (h : ∀ u ∈ l1, ¬ (E.polyGetKey x.world u = key
      ∧ (E.polyCanSustain x.world u = true ∨ key = 0))) :
    Part.stopNote.scan E holdpedal key (l1 ++ l2) x = Part.stopNote.scan E holdpedal key l2 x := by
  induction l1 with
  | nil => rfl
  | cons u l1 ih =>
    rw [List.cons_append, Part.stopNote.scan, if_neg (h u (List.mem_cons_self u l1))]
    exact ih (fun w hw => h w (List.mem_cons_of_mem u hw))

/-- The `stopNote` loop at a voice that qualifies and whose `noteOff` returns false: the
call is made and the loop goes on with the voices behind it. -/
theorem stopNote_scan_false {W : Type} (E : Env W) (holdpedal : Bool) (key : Nat)
    (v : PolyRef) (l2 : List PolyRef) (x : Ext W)
    (hq : E.polyGetKey x.world v = key ∧ (E.polyCanSustain x.world v = true ∨ key = 0))
    (hr : E.retBool x.world (Call.polyNoteOff v (holdpedal && key != 0)) = false) :
    Part.stopNote.scan E holdpedal key (v :: l2) x
      = Part.stopNote.scan E holdpedal key l2
          (x.call E (Call.polyNoteOff v (holdpedal && key != 0))) := by
  rw [Part.stopNote.scan, if_pos hq, if_neg (by rw [hr]; exact Bool.false_ne_true)]

/-- C11, amended. Let `new` be the calls of one `stopNote(key)`. They go to voices of the
active-voice list, in list order, each a `noteOff` with the pedal flag of the part, and the
loop stops after the first call that returns true: every call but the last has returned
false. So when `noteOff` on the first voice that qualifies returns true, that voice is the
only one called, and every later voice gets no call. When it returns false, the loop goes on
behind that voice: the note-off is that call followed by the note-off on the rest of the
list, so the next call, if a voice of the rest qualifies in the world the call has left, is
the `noteOff` on the first such voice, and there is no further call if none does. When no
voice of the list qualifies, no call is made. -/
theorem stopNote_first_success {W : Type} (E : Env W) (p : Part) (key : Nat) (x : Ext W)
    (new : List (W × Call)) (hnew : (p.stopNote E key x).calls = x.calls ++ new) :
    (∃ vs : List PolyRef, List.Sublist vs p.activePolys
        ∧ new.map Prod.snd = vs.map (fun v => Call.polyNoteOff v (p.holdpedal && key != 0)))
      ∧ (∀ e ∈ new.dropLast, E.retBool e.1 e.2 = false)
      ∧ (∀ v, p.activePolys.find? (fun v => decide (E.polyGetKey x.world v = key
              ∧ (E.polyCanSustain x.world v = true ∨ key = 0))) = some v →
          E.retBool x.world (Call.polyNoteOff v (p.holdpedal && key != 0)) = true →
            new = [(x.world, Call.polyNoteOff v (p.holdpedal && key != 0))])
      ∧ (∀ l1 v l2, p.activePolys = l1 ++ v :: l2 →
          (∀ u ∈ l1, ¬ (E.polyGetKey x.world u = key
            ∧ (E.polyCanSustain x.world u = true ∨ key = 0))) →
          (E.polyGetKey x.world v = key ∧ (E.polyCanSustain x.world v = true ∨ key = 0)) →
          E.retBool x.world (Call.polyNoteOff v (p.holdpedal && key != 0)) = false →
            p.stopNote E key x
                = Part.stopNote E { p with activePolys := l2 } key
                    (x.call E (Call.polyNoteOff v (p.holdpedal && key != 0)))
              ∧ (∀ v2, l2.find? (fun u => decide
                    (E.polyGetKey
                        (E.exec x.world (Call.polyNoteOff v (p.holdpedal && key != 0))) u = key
                      ∧ (E.polyCanSustain
                          (E.exec x.world (Call.polyNoteOff v (p.holdpedal && key != 0))) u
                            = true ∨ key = 0))) = some v2 →
                  ∃ rest, new
                    = (x.world, Call.polyNoteOff v (p.holdpedal && key != 0))
                      :: (E.exec x.world (Call.polyNoteOff v (p.holdpedal && key != 0)),
                          Call.polyNoteOff v2 (p.holdpedal && key != 0)) :: rest)
              ∧ (l2.find? (fun u => decide
                    (E.polyGetKey
                        (E.exec x.world (Call.polyNoteOff v (p.holdpedal && key != 0))) u = key
                      ∧ (E.polyCanSustain
                          (E.exec x.world (Call.polyNoteOff v (p.holdpedal && key != 0))) u
                            = true ∨ key = 0))) = none →
                  new = [(x.world, Call.polyNoteOff v (p.holdpedal && key != 0))]))
      ∧ ((∀ u ∈ p.activePolys, ¬ (E.polyGetKey x.world u = key
            ∧ (E.polyCanSustain x.world u = true ∨ key = 0))) →
          new = [] ∧ p.stopNote E key x = x) := by
  obtain ⟨L, vs, hL, hs, hm, hd, h1⟩ := stopNote_scan_order E p.holdpedal key p.activePolys x
  have hnew0 := hnew
  rw [Part.stopNote, hL] at hnew
  have := List.append_cancel_left hnew
  subst this
  refine ⟨⟨vs, hs, hm⟩, hd, h1, ?_, ?_⟩
  · intro l1 v l2 hl hskip hq hr
    have hstep : p.stopNote E key x
        = Part.stopNote E { p with activePolys := l2 } key
            (x.call E (Call.polyNoteOff v (p.holdpedal && key != 0))) := by
      rw [Part.stopNote, Part.stopNote, hl, stopNote_scan_skip E p.holdpedal key l1 _ x hskip,
        stopNote_scan_false E p.holdpedal key v l2 x hq hr]
    obtain ⟨L2, hL2, -, hhead, hnone⟩ := stopNote_scan_trace E p.holdpedal key l2
      (x.call E (Call.polyNoteOff v (p.holdpedal && key != 0)))
    have hcalls : L = (x.world, Call.polyNoteOff v (p.holdpedal && key != 0)) :: L2 := by
      have h2 : (p.stopNote E key x).calls
          = x.calls ++ ((x.world, Call.polyNoteOff v (p.holdpedal && key != 0)) :: L2) := by
        rw [hstep, Part.stopNote]
        show (Part.stopNote.scan E p.holdpedal key l2
          (x.call E (Call.polyNoteOff v (p.holdpedal && key != 0)))).calls = _
        rw [hL2, Ext.call_calls, List.append_assoc]
        rfl
      rw [hnew0] at h2
      exact List.append_cancel_left h2
    refine ⟨hstep, ?_, ?_⟩
    · intro v2 hf
      have hh := hhead v2 hf
      cases L2 with
      | nil => cases hh
      | cons b rest =>
        have hb : b = (E.exec x.world (Call.polyNoteOff v (p.holdpedal && key != 0)),
            Call.polyNoteOff v2 (p.holdpedal && key != 0)) := Option.some.inj hh
        exact ⟨rest, by rw [hcalls, hb]⟩
    · intro hf
      rw [hcalls, hnone hf]
  · intro hno
    have h2 := stopNote_scan_skip E p.holdpedal key p.activePolys [] x hno
    rw [List.append_nil] at h2
    have h3 : p.stopNote E key x = x := by
      rw [Part.stopNote, h2]
      rfl
    refine ⟨?_, h3⟩
    rw [h3] at hnew0
    have h4 : x.calls ++ [] = x.calls ++ L := by rw [List.append_nil]; exact hnew0
    exact (List.append_cancel_left h4).symm

theorem stopNote_first_success_witness :
    ((Example.part.stopNote Sim.env 60 Example.heldExt).calls
        = Example.heldExt.calls
          ++ [(Example.heldWorld, Call.polyNoteOff 1 true),
              (Example.heldWorld, Call.polyNoteOff 2 true)]
      ∧ Example.part.activePolys = [] ++ 1 :: [2]
      ∧ Sim.env.retBool Example.heldExt.world
          (Call.polyNoteOff 1 (Example.part.holdpedal && 60 != 0)) = false)
      ∧ (∀ e ∈ [(Example.heldWorld, Call.polyNoteOff 1 true),
            (Example.heldWorld, Call.polyNoteOff 2 true)].dropLast,
          Sim.env.retBool e.1 e.2 = false)
      ∧ Example.part.stopNote Sim.env 60 Example.heldExt
          = Part.stopNote Sim.env { Example.part with activePolys := [2] } 60
              (Example.heldExt.call Sim.env
                (Call.polyNoteOff 1 (Example.part.holdpedal && 60 != 0)))
      ∧ (∃ rest, [(Example.heldWorld, Call.polyNoteOff 1 true),
            (Example.heldWorld, Call.polyNoteOff 2 true)]
          = (Example.heldExt.world, Call.polyNoteOff 1 (Example.part.holdpedal && 60 != 0))
            :: (Sim.env.exec Example.heldExt.world
                  (Call.polyNoteOff 1 (Example.part.holdpedal && 60 != 0)),
                Call.polyNoteOff 2 (Example.part.holdpedal && 60 != 0)) :: rest) :=
  ⟨⟨by decide, by decide, by decide⟩,
    (stopNote_first_success Sim.env Example.part 60 Example.heldExt
      [(Example.heldWorld, Call.polyNoteOff 1 true), (Example.heldWorld, Call.polyNoteOff 2 true)]
      (by decide)).2.1,
    ((stopNote_first_success Sim.env Example.part 60 Example.heldExt
      [(Example.heldWorld, Call.polyNoteOff 1 true), (Example.heldWorld, Call.polyNoteOff 2 true)]
      (by decide)).2.2.2.1 [] 1 [2] (by decide) (by decide) (by decide) (by decide)).1,
    ((stopNote_first_success Sim.env Example.part 60 Example.heldExt
      [(Example.heldWorld, Call.polyNoteOff 1 true), (Example.heldWorld, Call.polyNoteOff 2 true)]
      (by decide)).2.2.2.1 [] 1 [2] (by decide) (by decide) (by decide) (by decide)).2.1 2
      (by decide)⟩

/-! ## C12: a deactivated unit -/

theorem decUInt32_of_pos (n : Nat) (h1 : 0 < n) : decUInt32 n = n - 1 := by
  unfold decUInt32
  rw [if_neg (by omega)]

theorem incUInt32_of_lt (n : Nat) (h : n < 4294967295) : incUInt32 n = n + 1 := by
  unfold incUInt32
  rw [if_neg (by omega)]

/-- C12. `partialDeactivated(poly)` decrements the active-unit counter by 1 (an `unsigned
int` decrement: `n - 1` for `n ≥ 1`). If the voice is no longer active, it is unlinked from
the active-voice list (on a list without duplicates it is then absent, and the other voices
keep their order), and exactly then `polyFreed(poly)` and the voice-state-changed
notification are issued, in that order. If the voice is still active the list is unchanged
and no call is made. No other field of the part changes. -/
theorem partialDeactivated_spec {W : Type} (E : Env W) (p : Part) (poly : PolyRef)
    (x : Ext W) :
    (p.partialDeactivated E poly x).1.activePartialCount = decUInt32 p.activePartialCount
      ∧ (0 < p.activePartialCount →
          (p.partialDeactivated E poly x).1.activePartialCount = p.activePartialCount - 1)
      ∧ (E.polyIsActive x.world poly = false →
          (p.partialDeactivated E poly x).1.activePolys = PolyList.remove p.activePolys poly
            ∧ (p.activePolys.Nodup →
                (p.partialDeactivated E poly x).1.activePolys
                    = p.activePolys.filter (fun v => v != poly)
                  ∧ poly ∉ (p.partialDeactivated E poly x).1.activePolys)
            ∧ (p.partialDeactivated E poly x).2.calls
                = x.calls ++ [(x.world, Call.polyFreed poly),
                    (E.exec x.world (Call.polyFreed poly),
                      Call.onPolyStateChanged (toBit8u p.partNum))])
      ∧ (E.polyIsActive x.world poly = true →
          (p.partialDeactivated E poly x).1.activePolys = p.activePolys
            ∧ (p.partialDeactivated E poly x).2 = x)
      ∧ (p.partialDeactivated E poly x).1
          = { p with
              activePartialCount := (p.partialDeactivated E poly x).1.activePartialCount
              activePolys := (p.partialDeactivated E poly x).1.activePolys } := by
  cases h : E.polyIsActive x.world poly
  · have e : p.partialDeactivated E poly x
        = ({ p with
              activePartialCount := decUInt32 p.activePartialCount
              activePolys := PolyList.remove p.activePolys poly },
            (x.call E (Call.polyFreed poly)).call E
              (Call.onPolyStateChanged (toBit8u p.partNum))) := by
      rw [Part.partialDeactivated]
      simp only [h, if_true]
    rw [e]
    refine ⟨rfl, fun h1 => decUInt32_of_pos _ h1, fun _ => ⟨rfl, fun hn => ?_, ?_⟩,
      fun h2 => (by cases h2), rfl⟩
    · have hf : PolyList.remove p.activePolys poly = p.activePolys.filter (fun v => v != poly) := by
        rw [PolyList.remove, List.Nodup.erase_eq_filter hn]
      refine ⟨hf, ?_⟩
      show poly ∉ PolyList.remove p.activePolys poly
      rw [hf]
      simp
    · rw [Ext.call_calls, Ext.call_calls, List.append_assoc]
      rfl
  · have e : p.partialDeactivated E poly x
        = ({ p with activePartialCount := decUInt32 p.activePartialCount }, x) := by
      rw [Part.partialDeactivated]
      simp only [h, Bool.true_eq_false, if_false]
    rw [e]
    exact ⟨rfl, fun h1 => decUInt32_of_pos _ h1, fun h2 => (by cases h2),
      fun _ => ⟨rfl, rfl⟩, rfl⟩

/-! ## C13: what the cache builder stores -/

theorem and_one_eq_one_iff (m t : Nat) : ((m >>> t) &&& 1 = 1) ↔ m / 2 ^ t % 2 = 1 := by
  rw [Nat.and_one_is_mod, Nat.shiftRight_eq_div_pow]

/-- The local `partialCount` of `cacheTimbre` after the first loop: the number of set bits
among bits 0..3 of the mute mask. -/
theorem cacheTimbre_count (m : Nat) :
    toUInt32 ((List.finRange 4).foldl
        (fun n (t : Fin 4) => if (m >>> t.val) &&& 1 = 1 then toInt32 (n + 1) else n) 0)
      = ((List.range 4).filter (fun i => decide (m / 2 ^ i % 2 = 1))).length := by
  have h3 : ((3 : Fin 4) : ℕ) = 3 := rfl
  rw [finRange_four]
  simp only [List.foldl, and_one_eq_one_iff, h3, Fin.val_zero, Fin.val_one, Fin.val_two]
  have hr : List.range 4 = [0, 1, 2, 3] := by decide
  rw [hr]
  by_cases h0 : m / 2 ^ 0 % 2 = 1 <;> by_cases h1 : m / 2 ^ 1 % 2 = 1 <;>
    by_cases h2 : m / 2 ^ 2 % 2 = 1 <;> by_cases h3 : m / 2 ^ 3 % 2 = 1 <;>
    simp only [h0, h1, h2, h3, if_true, if_false, List.filter, decide_True, decide_False] <;>
    decide

theorem cacheTimbre_active_playPartial (loc : TimbreLoc) (timbre : TimbreParam) (t : Fin 4)
    (e : PatchCache) : (cacheTimbre.active loc timbre t e).playPartial = true := by
  fin_cases t <;> rfl

/-- The structure fields that `cacheTimbre` writes to a playing slot, read off the two
tables at a selector `s` within the tables. -/
theorem structure_tables (s : Nat) (hs : s ≤ 12) (b : Nat) (hb : b = 1 ∨ b = 2) :
    ∃ ps pm, PartialStruct.get? s = some ps ∧ PartialMixStruct.get? s = some pm
      ∧ ((PartialStruct.getD s 0) &&& b != 0) = decide (ps / b % 2 = 1)
      ∧ PartialMixStruct.getD s 0 = pm := by
  rcases hb with rfl | rfl <;> interval_cases s <;> exact ⟨_, _, rfl, rfl, by decide, rfl⟩

theorem cacheTimbre_active_fields (loc : TimbreLoc) (timbre : TimbreParam) (t : Fin 4)
    (e : PatchCache) (h12 : timbre.common.partialStructure12 ≤ 12)
    (h34 : timbre.common.partialStructure34 ≤ 12) :
    ∃ ps pm,
      PartialStruct.get? (if t.val < 2 then timbre.common.partialStructure12
          else timbre.common.partialStructure34) = some ps
        ∧ PartialMixStruct.get? (if t.val < 2 then timbre.common.partialStructure12
          else timbre.common.partialStructure34) = some pm
        ∧ (cacheTimbre.active loc timbre t e).PCMPartial
            = decide (ps / 2 ^ (if t.val % 2 = 0 then 1 else 0) % 2 = 1)
        ∧ (cacheTimbre.active loc timbre t e).structureMix = pm
        ∧ (cacheTimbre.active loc timbre t e).structurePosition = ((t.val % 2 : Nat) : Int)
        ∧ (cacheTimbre.active loc timbre t e).structurePair = ((t.val ^^^ 1 : Nat) : Int)
        ∧ t.val ^^^ 1 < 4 := by
  fin_cases t
  · obtain ⟨ps, pm, h1, h2, h3, h4⟩ :=
      structure_tables timbre.common.partialStructure12 h12 2 (Or.inr rfl)
    exact ⟨ps, pm, h1, h2, h3, h4, rfl, rfl, by decide⟩
  · obtain ⟨ps, pm, h1, h2, h3, h4⟩ :=
      structure_tables timbre.common.partialStructure12 h12 1 (Or.inl rfl)
    exact ⟨ps, pm, h1, h2, h3, h4, rfl, rfl, by decide⟩
  · obtain ⟨ps, pm, h1, h2, h3, h4⟩ :=
      structure_tables timbre.common.partialStructure34 h34 2 (Or.inr rfl)
    exact ⟨ps, pm, h1, h2, h3, h4, rfl, rfl, by decide⟩
  · obtain ⟨ps, pm, h1, h2, h3, h4⟩ :=
      structure_tables timbre.common.partialStructure34 h34 1 (Or.inl rfl)
    exact ⟨ps, pm, h1, h2, h3, h4, rfl, rfl, by decide⟩

/-- Claim C13. For a timbre whose two structure selectors lie in `0..12`, the cache that
`cacheTimbre` builds has, in every slot `t`: `playPartial` set iff bit `t` of `partialMute`
is `1`; `partialCount` equal to the number of set bits among bits `0..3` of the mask;
`dirty = false`; `sustain = (noSustain == 0)`. A playing slot moreover has `PCMPartial` equal
to bit 1 (`t` even) or bit 0 (`t` odd) of `PartialStruct[s]`, `structureMix =
PartialMixStruct[s]`, `structurePosition = t mod 2` and `structurePair = t xor 1`, a valid
slot index, where `s` is `partialStructure12` for slots 0, 1 and `partialStructure34` for
slots 2, 3; both table lookups are in bounds. -/
theorem cacheTimbre_spec {W : Type} (E : Env W) (p : Part) (cacheLoc : CacheLoc)
    (cache : PatchCacheArr) (timbreLoc : TimbreLoc) (timbre : TimbreParam) (x : Ext W)
    (t : Fin 4) (h12 : timbre.common.partialStructure12 ≤ 12)
    (h34 : timbre.common.partialStructure34 ≤ 12) :
    (((p.cacheTimbre E cacheLoc cache timbreLoc timbre x).1 t).playPartial = true
        ↔ timbre.common.partialMute / 2 ^ t.val % 2 = 1)
      ∧ ((p.cacheTimbre E cacheLoc cache timbreLoc timbre x).1 t).partialCount
          = ((List.range 4).filter
              (fun i => decide (timbre.common.partialMute / 2 ^ i % 2 = 1))).length
      ∧ ((p.cacheTimbre E cacheLoc cache timbreLoc timbre x).1 t).dirty = false
      ∧ ((p.cacheTimbre E cacheLoc cache timbreLoc timbre x).1 t).sustain
          = decide (timbre.common.noSustain = 0)
      ∧ (timbre.common.partialMute / 2 ^ t.val % 2 = 1 →
          ∃ ps pm,
            PartialStruct.get? (if t.val < 2 then timbre.common.partialStructure12
                else timbre.common.partialStructure34) = some ps
              ∧ PartialMixStruct.get? (if t.val < 2 then timbre.common.partialStructure12
                else timbre.common.partialStructure34) = some pm
              ∧ ((p.cacheTimbre E cacheLoc cache timbreLoc timbre x).1 t).PCMPartial
                  = decide (ps / 2 ^ (if t.val % 2 = 0 then 1 else 0) % 2 = 1)
              ∧ ((p.cacheTimbre E cacheLoc cache timbreLoc timbre x).1 t).structureMix = pm
              ∧ ((p.cacheTimbre E cacheLoc cache timbreLoc timbre x).1 t).structurePosition
                  = ((t.val % 2 : Nat) : Int)
              ∧ ((p.cacheTimbre E cacheLoc cache timbreLoc timbre x).1 t).structurePair
                  = ((t.val ^^^ 1 : Nat) : Int)
              ∧ t.val ^^^ 1 < 4) := by
  have hb : (p.cacheTimbre E cacheLoc cache timbreLoc timbre x).1 t
      = cacheTimbre.build cache timbreLoc timbre t := rfl
  rw [hb, cacheTimbre_build_apply, cacheTimbre_count]
  refine ⟨?_, rfl, rfl, rfl, ?_⟩
  · by_cases hbit : (timbre.common.partialMute >>> t.val) &&& 1 = 1
    · rw [if_pos hbit]
      exact ⟨fun _ => (and_one_eq_one_iff _ _).1 hbit,
        fun _ => cacheTimbre_active_playPartial timbreLoc timbre t (cache t)⟩
    · rw [if_neg hbit]
      constructor
      · intro h
        cases h
      · intro h
        exact absurd ((and_one_eq_one_iff _ _).2 h) hbit
  · intro h
    rw [if_pos ((and_one_eq_one_iff _ _).2 h)]
    exact cacheTimbre_active_fields timbreLoc timbre t (cache t) h12 h34

theorem cacheTimbre_spec_witness :
    ((((Example.part.cacheTimbre Sim.env CacheLoc.patchCache (fun _ => Example.rawCache)
          (TimbreLoc.timbreTemp 0) Example.timbre Example.ext).1 2).playPartial = true
        ↔ Example.timbre.common.partialMute / 2 ^ 2 % 2 = 1)
      ∧ ((Example.part.cacheTimbre Sim.env CacheLoc.patchCache (fun _ => Example.rawCache)
          (TimbreLoc.timbreTemp 0) Example.timbre Example.ext).1 2).partialCount = 3)
      ∧ ((Example.part.cacheTimbre Sim.env CacheLoc.patchCache (fun _ => Example.rawCache)
          (TimbreLoc.timbreTemp 0) Example.timbre Example.ext).1 2).PCMPartial = true
      ∧ ((Example.part.cacheTimbre Sim.env CacheLoc.patchCache (fun _ => Example.rawCache)
          (TimbreLoc.timbreTemp 0) Example.timbre Example.ext).1 2).structureMix = 2
      ∧ ((Example.part.cacheTimbre Sim.env CacheLoc.patchCache (fun _ => Example.rawCache)
          (TimbreLoc.timbreTemp 0) Example.timbre Example.ext).1 2).structurePair = 3 :=
  ⟨⟨(cacheTimbre_spec Sim.env Example.part CacheLoc.patchCache (fun _ => Example.rawCache)
        (TimbreLoc.timbreTemp 0) Example.timbre Example.ext 2 (by decide) (by decide)).1,
      (cacheTimbre_spec Sim.env Example.part CacheLoc.patchCache (fun _ => Example.rawCache)
        (TimbreLoc.timbreTemp 0) Example.timbre Example.ext 2 (by decide) (by decide)).2.1⟩,
    by decide, by decide, by decide⟩

/-! ## C14: the drum table is read and written inside its 85 entries -/

/-- The part of `RhythmPart::noteOn` after the drum entry is settled reads and writes the
rhythm part's tables at `drumNum` only. -/
theorem rhythm_start_local {W : Type} (E : Env W) (synth : SynthConfig) (rp rp2 : RhythmPart)
    (midiKey key velocity drumNum drumTimbreNum : Nat) (x : Ext W)
    (hP : rp2.toPart = rp.toPart) (hr : rp2.rhythmTemp drumNum = rp.rhythmTemp drumNum)
    (hc : rp2.drumCache drumNum = rp.drumCache drumNum) :
    (RhythmPart.noteOn.start E synth rp2 midiKey key velocity drumNum drumTimbreNum x).2
        = (RhythmPart.noteOn.start E synth rp midiKey key velocity drumNum drumTimbreNum x).2
      ∧ (RhythmPart.noteOn.start E synth rp2 midiKey key velocity drumNum drumTimbreNum
          x).1.toPart
        = (RhythmPart.noteOn.start E synth rp midiKey key velocity drumNum drumTimbreNum
          x).1.toPart
      ∧ (RhythmPart.noteOn.start E synth rp2 midiKey key velocity drumNum drumTimbreNum
          x).1.drumCache drumNum
        = (RhythmPart.noteOn.start E synth rp midiKey key velocity drumNum drumTimbreNum
          x).1.drumCache drumNum := by
  obtain ⟨P, rt, dc⟩ := rp
  obtain ⟨P2, rt2, dc2⟩ := rp2
  dsimp only at hP hr hc
  subst hP
  by_cases hd : (dc drumNum 0).dirty = true
  · have hd2 : (dc2 drumNum 0).dirty = true := by rw [hc]; exact hd
    simp only [RhythmPart.noteOn.start, hd, hd2, if_true, Function.update_same, hc, hr]
    exact ⟨trivial, trivial, trivial⟩
  · have hd2 : ¬ (dc2 drumNum 0).dirty = true := by rw [hc]; exact hd
    simp only [RhythmPart.noteOn.start, hd, hd2, Bool.false_eq_true, if_false, hc, hr]
    exact ⟨trivial, trivial, trivial⟩

/-- The same part of `RhythmPart::noteOn` leaves the drum-table untouched and every drum
cache other than `drumNum` as it was. -/
theorem rhythm_start_frame {W : Type} (E : Env W) (synth : SynthConfig) (rp : RhythmPart)
    (midiKey key velocity drumNum drumTimbreNum : Nat) (x : Ext W) :
    (RhythmPart.noteOn.start E synth rp midiKey key velocity drumNum drumTimbreNum
        x).1.rhythmTemp = rp.rhythmTemp
      ∧ ∀ i, i ≠ drumNum →
        (RhythmPart.noteOn.start E synth rp midiKey key velocity drumNum drumTimbreNum
          x).1.drumCache i = rp.drumCache i := by
  by_cases hd : (rp.drumCache drumNum 0).dirty = true
  · simp only [RhythmPart.noteOn.start, hd, if_true]
    exact ⟨trivial, fun i hi => Function.update_noteq hi _ _⟩
  · simp only [RhythmPart.noteOn.start, hd, Bool.false_eq_true, if_false]
    exact ⟨trivial, fun i hi => trivial⟩

theorem rhythm_play_local {W : Type} (E : Env W) (synth : SynthConfig) (rp rp2 : RhythmPart)
    (midiKey velocity drumNum drumTimbreNum : Nat) (x : Ext W)
    (hP : rp2.toPart = rp.toPart) (hr : rp2.rhythmTemp drumNum = rp.rhythmTemp drumNum)
    (hc : rp2.drumCache drumNum = rp.drumCache drumNum) :
    (RhythmPart.noteOn.play E synth rp2 midiKey velocity drumNum drumTimbreNum x).2
        = (RhythmPart.noteOn.play E synth rp midiKey velocity drumNum drumTimbreNum x).2
      ∧ (RhythmPart.noteOn.play E synth rp2 midiKey velocity drumNum drumTimbreNum x).1.toPart
        = (RhythmPart.noteOn.play E synth rp midiKey velocity drumNum drumTimbreNum x).1.toPart
      ∧ (RhythmPart.noteOn.play E synth rp2 midiKey velocity drumNum drumTimbreNum
          x).1.drumCache drumNum
        = (RhythmPart.noteOn.play E synth rp midiKey velocity drumNum drumTimbreNum
          x).1.drumCache drumNum := by
  have hn : rp2.noteOff E 0 x = rp.noteOff E 0 x := by
    unfold RhythmPart.noteOff
    rw [hP]
  unfold RhythmPart.noteOn.play
  rw [hn]
  split_ifs
  · exact rhythm_start_local E synth rp rp2 midiKey 1 velocity drumNum drumTimbreNum _ hP hr hc
  · exact rhythm_start_local E synth rp rp2 midiKey 0 velocity drumNum drumTimbreNum _ hP hr hc
  · exact rhythm_start_local E synth rp rp2 midiKey midiKey velocity drumNum drumTimbreNum _
      hP hr hc

theorem rhythm_play_frame {W : Type} (E : Env W) (synth : SynthConfig) (rp : RhythmPart)
    (midiKey velocity drumNum drumTimbreNum : Nat) (x : Ext W) :
    (RhythmPart.noteOn.play E synth rp midiKey velocity drumNum drumTimbreNum
        x).1.rhythmTemp = rp.rhythmTemp
      ∧ ∀ i, i ≠ drumNum →
        (RhythmPart.noteOn.play E synth rp midiKey velocity drumNum drumTimbreNum
          x).1.drumCache i = rp.drumCache i := by
  unfold RhythmPart.noteOn.play
  split_ifs
  · exact rhythm_start_frame E synth rp midiKey 1 velocity drumNum drumTimbreNum _
  · exact rhythm_start_frame E synth rp midiKey 0 velocity drumNum drumTimbreNum _
  · exact rhythm_start_frame E synth rp midiKey midiKey velocity drumNum drumTimbreNum _

/-- Claim C14. `RhythmPart::noteOn` with a MIDI key below 24 or above 108 returns the rhythm
part as it was (voice list, drum caches, counters and all) and makes one call only, the
"invalid key" diagnostic: no voice is asked for. With a key in `24..108` the index
`midiKey - 24` is below 85, the size of the drum table and of the drum-cache array; the
drum table is not written, no drum cache other than entry `midiKey - 24` is written, and the
outcome depends on the two arrays through entry `midiKey - 24` only: a rhythm part that
differs from `rp` at other indices, the out-of-bounds ones included, gives the same calls,
the same part state and the same cache entry. -/
theorem rhythm_noteOn_bounds {W : Type} (E : Env W) (synth : SynthConfig) (rp : RhythmPart)
    (midiKey velocity : Nat) (x : Ext W) :
    ((midiKey < 24 ∨ 108 < midiKey) →
        rp.noteOn E synth midiKey velocity x
            = (rp, x.call E (Call.printDebug (Diag.invalidKey midiKey velocity)))
          ∧ (rp.noteOn E synth midiKey velocity x).2.calls
            = x.calls ++ [(x.world, Call.printDebug (Diag.invalidKey midiKey velocity))])
      ∧ ((24 ≤ midiKey ∧ midiKey ≤ 108) →
          midiKey - 24 < 85
            ∧ (rp.noteOn E synth midiKey velocity x).1.rhythmTemp = rp.rhythmTemp
            ∧ (∀ i, i ≠ midiKey - 24 →
                (rp.noteOn E synth midiKey velocity x).1.drumCache i = rp.drumCache i)
            ∧ ∀ rp2 : RhythmPart, rp2.toPart = rp.toPart →
                rp2.rhythmTemp (midiKey - 24) = rp.rhythmTemp (midiKey - 24) →
                rp2.drumCache (midiKey - 24) = rp.drumCache (midiKey - 24) →
                  (rp2.noteOn E synth midiKey velocity x).2
                      = (rp.noteOn E synth midiKey velocity x).2
                    ∧ (rp2.noteOn E synth midiKey velocity x).1.toPart
                      = (rp.noteOn E synth midiKey velocity x).1.toPart
                    ∧ (rp2.noteOn E synth midiKey velocity x).1.drumCache (midiKey - 24)
                      = (rp.noteOn E synth midiKey velocity x).1.drumCache (midiKey - 24)) := by
  constructor
  · intro h
    have h2 : midiKey < 24 ∨ midiKey > 108 := h
    have h3 : rp.noteOn E synth midiKey velocity x
        = (rp, x.call E (Call.printDebug (Diag.invalidKey midiKey velocity))) := by
      unfold RhythmPart.noteOn
      rw [if_pos h2]
    rw [h3]
    exact ⟨rfl, rfl⟩
  · intro h
    have h2 : ¬ (midiKey < 24 ∨ midiKey > 108) := by omega
    have hn : ∀ q : RhythmPart, q.noteOn E synth midiKey velocity x
        = if (q.rhythmTemp (midiKey - 24)).timbre = 127
              ∨ (q.rhythmTemp (midiKey - 24)).timbre ≥ 64 + synth.controlROMMap.timbreRCount then
            (q, (x.call E Call.rhythmNotePlayed).call E
              (Call.printDebug (Diag.unmappedKey midiKey velocity)))
          else
            RhythmPart.noteOn.play E synth q midiKey velocity (midiKey - 24)
              (q.rhythmTemp (midiKey - 24)).timbre (x.call E Call.rhythmNotePlayed) := by
      intro q
      unfold RhythmPart.noteOn
      rw [if_neg h2]
    refine ⟨by omega, ?_, ?_, ?_⟩
    · rw [hn]
      split_ifs
      · rfl
      · exact (rhythm_play_frame E synth rp midiKey velocity _ _ _).1
    · rw [hn]
      split_ifs
      · exact fun i hi => rfl
      · exact (rhythm_play_frame E synth rp midiKey velocity _ _ _).2
    · intro rp2 hP hr hc
      rw [hn rp2, hn rp, hr]
      split_ifs
      · exact ⟨rfl, hP, hc⟩
      · exact rhythm_play_local E synth rp rp2 midiKey velocity _ _ _ hP hr hc

/-! ## C15: unmapped drum entries -/

theorem playPoly_no_unmapped {W : Type} (E : Env W) (p : Part) (cacheLoc : CacheLoc)
    (cache : PatchCacheArr) (rhythmTemp : Option RhythmTemp) (midiKey key velocity : Nat)
    (x : Ext W) :
    ∃ new, (p.playPoly E cacheLoc cache rhythmTemp midiKey key velocity x).2.calls
        = x.calls ++ new
      ∧ ∀ e ∈ new, ∀ k v, e.2 ≠ Call.printDebug (Diag.unmappedKey k v) := by
  obtain ⟨B, hB, hk⟩ := playPoly_calls_split E p cacheLoc cache rhythmTemp midiKey key velocity x
  refine ⟨_, by rw [hB, List.append_assoc], ?_⟩
  intro e he
  rcases List.mem_append.mp he with he | he
  · have hv : ∃ v, e.2 = Call.polyStartAbort v := by
      split at he
      · split at he
        · simp at he
        · rw [List.mem_singleton] at he
          exact ⟨_, by rw [he]⟩
      · simp at he
    obtain ⟨v, hv⟩ := hv
    rw [hv]
    simp
  · rcases hk e he with h | h | h | h | h | ⟨_, _, h⟩ | ⟨_, _, _, _, _, h⟩ | h <;> rw [h] <;>
      exact fun _ _ hh => (by cases hh)

theorem rhythm_start_no_unmapped {W : Type} (E : Env W) (synth : SynthConfig)
    (rp : RhythmPart) (midiKey key velocity drumNum drumTimbreNum : Nat) (y : Ext W) :
    ∃ R, (RhythmPart.noteOn.start E synth rp midiKey key velocity drumNum drumTimbreNum
        y).2.calls = y.calls ++ R
      ∧ ∀ e ∈ R, ∀ k v, e.2 ≠ Call.printDebug (Diag.unmappedKey k v) := by
  obtain ⟨C, hC, hCk⟩ := foldl_call_trace E
    (fun poly => Call.polyBackupCacheToPartials poly (CacheLoc.drumCache drumNum)
      (List.ofFn (rp.drumCache drumNum))) rp.activePolys y
  by_cases hd : (rp.drumCache drumNum 0).dirty = true
  · simp only [RhythmPart.noteOn.start, hd, if_true]
    obtain ⟨P, hP, hPk⟩ := playPoly_no_unmapped E
      { rp.toPart with
        currentInstr :=
          (synth.mt32ram.timbres (drumTimbreNum + 128)).common.name.take 10
            ++ rp.currentInstr.drop 10 }
      (CacheLoc.drumCache drumNum)
      (Function.update rp.drumCache drumNum
        (cacheTimbre.build (rp.drumCache drumNum) (TimbreLoc.timbres (drumTimbreNum + 128))
          (synth.mt32ram.timbres (drumTimbreNum + 128))) drumNum)
      (some (rp.rhythmTemp drumNum)) midiKey key velocity
      (rp.activePolys.foldl (fun x poly => x.call E
        (Call.polyBackupCacheToPartials poly (CacheLoc.drumCache drumNum)
          (List.ofFn (rp.drumCache drumNum)))) y)
    refine ⟨C ++ P, ?_, ?_⟩
    · rw [← List.append_assoc, ← hC]
      exact hP
    · intro e he
      rcases List.mem_append.mp he with he | he
      · obtain ⟨v, -, hv⟩ := hCk e he
        rw [hv]
        exact fun _ _ hh => (by cases hh)
      · exact hPk e he
  · simp only [RhythmPart.noteOn.start, hd, Bool.false_eq_true, if_false]
    exact playPoly_no_unmapped E _ _ _ _ midiKey key velocity y

theorem rhythm_play_no_unmapped {W : Type} (E : Env W) (synth : SynthConfig)
    (rp : RhythmPart) (midiKey velocity drumNum drumTimbreNum : Nat) (y : Ext W) :
    ∃ R, (RhythmPart.noteOn.play E synth rp midiKey velocity drumNum drumTimbreNum
        y).2.calls = y.calls ++ R
      ∧ ∀ e ∈ R, ∀ k v, e.2 ≠ Call.printDebug (Diag.unmappedKey k v) := by
  have hoff : ∀ key, ∃ R,
      (RhythmPart.noteOn.start E synth rp midiKey key velocity drumNum drumTimbreNum
        (rp.noteOff E 0 y)).2.calls = y.calls ++ R
      ∧ ∀ e ∈ R, ∀ k v, e.2 ≠ Call.printDebug (Diag.unmappedKey k v) := by
    intro key
    obtain ⟨N, hN, hNk, -, -⟩ := stopNote_scan_trace E rp.holdpedal 0 rp.activePolys y
    obtain ⟨R, hR, hRk⟩ := rhythm_start_no_unmapped E synth rp midiKey key velocity drumNum
      drumTimbreNum (rp.noteOff E 0 y)
    refine ⟨N ++ R, ?_, ?_⟩
    · rw [hR, ← List.append_assoc, ← hN]
      rfl
    · intro e he
      rcases List.mem_append.mp he with he | he
      · obtain ⟨v, -, hv, -⟩ := hNk e he
        rw [hv]
        exact fun _ _ hh => (by cases hh)
      · exact hRk e he
  unfold RhythmPart.noteOn.play
  split_ifs
  · exact hoff 1
  · exact hoff 0
  · exact rhythm_start_no_unmapped E synth rp midiKey midiKey velocity drumNum drumTimbreNum y

/-- Claim C15, the counterexample. With 30 rhythm timbres the valid drum-timbre count is
94. The drum entry of key 27 holds selector 94, which is not the sentinel 127 and does not
exceed 94; the note is dropped all the same: the voice list is as before and the only calls
are the "rhythm note played" report and the "unmapped key" diagnostic. -/
theorem rhythm_noteOn_selector_at_count :
    (24 ≤ 27 ∧ 27 ≤ 108)
      ∧ (Example.boundaryPart.rhythmTemp (27 - 24)).timbre ≠ 127
      ∧ ¬ ((Example.boundaryPart.rhythmTemp (27 - 24)).timbre
            > 64 + Example.synthMT32.controlROMMap.timbreRCount)
      ∧ (Example.boundaryPart.noteOn Sim.env Example.synthMT32 27 100
            Example.ext).1.activePolys = Example.boundaryPart.activePolys
      ∧ (Example.boundaryPart.noteOn Sim.env Example.synthMT32 27 100
            Example.ext).2.calls.map Prod.snd
          = [Call.rhythmNotePlayed, Call.printDebug (Diag.unmappedKey 27 100)] := by
  decide

/-- Claim C15, amended. For a key in `24..108`, `RhythmPart::noteOn` issues the "unmapped
key" diagnostic exactly when the timbre selector of the drum entry is 127 or is at least
`64 + timbreRCount`. In that case the rhythm part is returned as it was and the calls are the
"rhythm note played" report and the diagnostic, nothing else: no voice is asked for, no cache
is rebuilt and no note-off is sent. For every other selector the call is the rest of the
note-on, which runs up to `playPoly` with some internal key `k`. -/
theorem rhythm_noteOn_unmapped {W : Type} (E : Env W) (synth : SynthConfig) (rp : RhythmPart)
    (midiKey velocity : Nat) (x : Ext W) (hlo : 24 ≤ midiKey) (hhi : midiKey ≤ 108) :
    ∃ new, (rp.noteOn E synth midiKey velocity x).2.calls = x.calls ++ new
      ∧ ((∃ e ∈ new, e.2 = Call.printDebug (Diag.unmappedKey midiKey velocity))
          ↔ ((rp.rhythmTemp (midiKey - 24)).timbre = 127
              ∨ (rp.rhythmTemp (midiKey - 24)).timbre
                  ≥ 64 + synth.controlROMMap.timbreRCount))
      ∧ (((rp.rhythmTemp (midiKey - 24)).timbre = 127
            ∨ (rp.rhythmTemp (midiKey - 24)).timbre
                ≥ 64 + synth.controlROMMap.timbreRCount) →
          (rp.noteOn E synth midiKey velocity x).1 = rp
            ∧ new = [(x.world, Call.rhythmNotePlayed),
                (E.exec x.world Call.rhythmNotePlayed,
                  Call.printDebug (Diag.unmappedKey midiKey velocity))])
      ∧ (¬ ((rp.rhythmTemp (midiKey - 24)).timbre = 127
            ∨ (rp.rhythmTemp (midiKey - 24)).timbre
                ≥ 64 + synth.controlROMMap.timbreRCount) →
          rp.noteOn E synth midiKey velocity x
              = RhythmPart.noteOn.play E synth rp midiKey velocity (midiKey - 24)
                  (rp.rhythmTemp (midiKey - 24)).timbre (x.call E Call.rhythmNotePlayed)
            ∧ ∃ k y, rp.noteOn E synth midiKey velocity x
              = RhythmPart.noteOn.start E synth rp midiKey k velocity (midiKey - 24)
                  (rp.rhythmTemp (midiKey - 24)).timbre y) := by
  have h2 : ¬ (midiKey < 24 ∨ midiKey > 108) := by omega
  have hn : rp.noteOn E synth midiKey velocity x
      = if (rp.rhythmTemp (midiKey - 24)).timbre = 127
            ∨ (rp.rhythmTemp (midiKey - 24)).timbre ≥ 64 + synth.controlROMMap.timbreRCount then
          (rp, (x.call E Call.rhythmNotePlayed).call E
            (Call.printDebug (Diag.unmappedKey midiKey velocity)))
        else
          RhythmPart.noteOn.play E synth rp midiKey velocity (midiKey - 24)
            (rp.rhythmTemp (midiKey - 24)).timbre (x.call E Call.rhythmNotePlayed) := by
    unfold RhythmPart.noteOn
    rw [if_neg h2]
  by_cases hu : (rp.rhythmTemp (midiKey - 24)).timbre = 127
      ∨ (rp.rhythmTemp (midiKey - 24)).timbre ≥ 64 + synth.controlROMMap.timbreRCount
  · rw [hn, if_pos hu]
    refine ⟨[(x.world, Call.rhythmNotePlayed), (E.exec x.world Call.rhythmNotePlayed,
      Call.printDebug (Diag.unmappedKey midiKey velocity))], ?_, ?_, ?_, ?_⟩
    · rw [Ext.call_calls, Ext.call_calls, List.append_assoc]
      rfl
    · exact ⟨fun _ => hu, fun _ => ⟨_, List.mem_cons_of_mem _ (List.mem_singleton.mpr rfl), rfl⟩⟩
    · exact fun _ => ⟨rfl, rfl⟩
    · exact fun h => absurd hu h
  · rw [hn, if_neg hu]
    obtain ⟨R, hR, hRk⟩ := rhythm_play_no_unmapped E synth rp midiKey velocity (midiKey - 24)
      (rp.rhythmTemp (midiKey - 24)).timbre (x.call E Call.rhythmNotePlayed)
    refine ⟨(x.world, Call.rhythmNotePlayed) :: R, ?_, ?_, ?_, ?_⟩
    · rw [hR, Ext.call_calls, List.append_assoc]
      rfl
    · constructor
      · rintro ⟨e, he, hd⟩
        rcases List.mem_cons.mp he with rfl | he
        · cases hd
        · exact absurd hd (hRk e he _ _)
      · exact fun h => absurd h hu
    · exact fun h => absurd h hu
    · intro _
      refine ⟨rfl, ?_⟩
      unfold RhythmPart.noteOn.play
      split_ifs
      · exact ⟨_, _, rfl⟩
      · exact ⟨_, _, rfl⟩
      · exact ⟨_, _, rfl⟩

theorem rhythm_noteOn_unmapped_witness :
    (24 ≤ 26 ∧ 26 ≤ 108)
      ∧ ∃ new, (Example.rhythmPart.noteOn Sim.env Example.synth 26 100 Example.ext).2.calls
          = Example.ext.calls ++ new
        ∧ ((∃ e ∈ new, e.2 = Call.printDebug (Diag.unmappedKey 26 100))
          ↔ ((Example.rhythmPart.rhythmTemp (26 - 24)).timbre = 127
              ∨ (Example.rhythmPart.rhythmTemp (26 - 24)).timbre
                  ≥ 64 + Example.synth.controlROMMap.timbreRCount)) :=
  ⟨by decide,
    (rhythm_noteOn_unmapped Sim.env Example.synth Example.rhythmPart 26 100 Example.ext
      (by decide) (by decide)).imp (fun _ h => ⟨h.1, h.2.1⟩)⟩

/-! ## C16: data entry and the RPN selector -/

theorem and_ff00 (r : Nat) : r &&& 0xFF00 = 2 ^ 8 * (r / 256 % 256) := by
  have h1 : (0xFF00 : Nat) = (2 ^ 8 - 1) <<< 8 := by decide
  have h2 : 2 ^ 8 * (r / 256 % 256) = ((r >>> 8) % 2 ^ 8) <<< 8 := by
    rw [Nat.shiftLeft_eq, Nat.shiftRight_eq_div_pow, Nat.mul_comm]
    norm_num
  rw [h1, h2]
  apply Nat.eq_of_testBit_eq
  intro i
  rw [Nat.testBit_and, Nat.testBit_shiftLeft, Nat.testBit_shiftLeft, Nat.testBit_two_pow_sub_one,
    Nat.testBit_mod_two_pow, Nat.testBit_shiftRight]
  by_cases h : i ≥ 8
  · have : 8 + (i - 8) = i := by omega
    rw [this]
    cases r.testBit i <;> simp [h]
  · simp [h]

theorem rpn_low (r lsb : Nat) (h : lsb ≤ 255) :
    ((r &&& 0xFF00) ||| lsb) % 65536 = (r / 256 % 256) * 256 + lsb := by
  rw [and_ff00, ← Nat.mul_add_lt_is_or (by omega : lsb < 2 ^ 8)]
  omega

theorem rpn_high (r msb : Nat) (h : msb ≤ 255) :
    ((r &&& 0x00FF) ||| (msb <<< 8)) % 65536 = msb * 256 + r % 256 := by
  have h1 : r &&& 0x00FF = r % 2 ^ 8 := Nat.and_pow_two_sub_one_eq_mod r 8
  rw [h1, Nat.lor_comm, Nat.shiftLeft_eq, Nat.mul_comm,
    ← Nat.mul_add_lt_is_or (Nat.mod_lt _ (by decide))]
  omega

theorem setRPNMSB_rpn (p : Part) (msb : Nat) (h : msb ≤ 255) :
    (p.setRPNMSB msb).rpn = msb * 256 + p.rpn % 256 :=
  rpn_high p.rpn msb h

theorem setRPNLSB_rpn (p : Part) (lsb : Nat) (h : lsb ≤ 255) :
    (p.setRPNLSB lsb).rpn = (p.rpn / 256 % 256) * 256 + lsb :=
  rpn_low p.rpn lsb h

/-- Claim C16. `setDataEntryMSB(m)`: when the NRPN flag is clear and the selected RPN is 0,
the patch bender range becomes `min(m, 24)` and `pitchBenderRange` becomes
`683 * min(m, 24)`; in every other case (NRPN flag set, or RPN not 0) the part is returned as
it was, bender range and `pitchBenderRange` included. The selector is composed by
`setRPNMSB` / `setRPNLSB`: each clears the NRPN flag and replaces its own byte of the 16-bit
RPN, so that after both, in either order, the RPN is `msb * 256 + lsb`, which is 0 only when
both bytes are 0; `setNRPN` sets the flag and keeps the RPN. -/
theorem setDataEntryMSB_spec (p : Part) (m : Nat) :
    ((p.nrpn = false ∧ p.rpn = 0) →
        (p.setDataEntryMSB m).patchTemp.patch.benderRange = min m 24
          ∧ (p.setDataEntryMSB m).pitchBenderRange = 683 * min m 24)
      ∧ (¬ (p.nrpn = false ∧ p.rpn = 0) → p.setDataEntryMSB m = p)
      ∧ (∀ msb lsb, msb ≤ 255 → lsb ≤ 255 →
          (p.setRPNMSB msb).nrpn = false
            ∧ (p.setRPNLSB lsb).nrpn = false
            ∧ (p.setRPNMSB msb).rpn = msb * 256 + p.rpn % 256
            ∧ (p.setRPNLSB lsb).rpn = (p.rpn / 256 % 256) * 256 + lsb
            ∧ ((p.setRPNMSB msb).setRPNLSB lsb).rpn = msb * 256 + lsb
            ∧ ((p.setRPNLSB lsb).setRPNMSB msb).rpn = msb * 256 + lsb
            ∧ (((p.setRPNMSB msb).setRPNLSB lsb).rpn = 0 ↔ msb = 0 ∧ lsb = 0))
      ∧ p.setNRPN.nrpn = true ∧ p.setNRPN.rpn = p.rpn := by
  refine ⟨?_, ?_, ?_, rfl, rfl⟩
  · rintro ⟨h1, h2⟩
    have hb : (if m > 24 then 24 else m) = min m 24 := by
      split_ifs with h
      · exact (Nat.min_eq_right (Nat.le_of_lt h)).symm
      · exact (Nat.min_eq_left (Nat.le_of_not_lt h)).symm
    have he : p.setDataEntryMSB m
        = Part.updatePitchBenderRange
            { p with
              patchTemp :=
                { p.patchTemp with
                  patch := { p.patchTemp.patch with benderRange := min m 24 } } } := by
      unfold Part.setDataEntryMSB
      rw [if_neg (by rw [h1]; exact Bool.false_ne_true), if_neg (fun h => h h2), hb]
    rw [he]
    refine ⟨rfl, ?_⟩
    show toBit16u (min m 24 * 683) = 683 * min m 24
    unfold toBit16u
    have : min m 24 ≤ 24 := Nat.min_le_right m 24
    omega
  · intro h
    unfold Part.setDataEntryMSB
    by_cases h1 : p.nrpn = true
    · rw [if_pos h1]
    · rw [if_neg h1, if_pos]
      intro h2
      exact h ⟨by simpa using h1, h2⟩
  · intro msb lsb hm hl
    have h1 := setRPNMSB_rpn p msb hm
    have h2 := setRPNLSB_rpn p lsb hl
    have h3 := setRPNLSB_rpn (p.setRPNMSB msb) lsb hl
    have h4 := setRPNMSB_rpn (p.setRPNLSB lsb) msb hm
    rw [h1] at h3
    rw [h2] at h4
    refine ⟨rfl, rfl, h1, h2, by omega, by omega, by omega⟩

/-! ## C17: where an admitted voice enters the list -/

theorem admission_insert {W : Type} (E : Env W) (p : Part) (cacheLoc : CacheLoc)
    (cache : PatchCacheArr) (rhythmTemp : Option RhythmTemp) (midiKey key velocity : Nat)
    (a : Ext W) :
    ∃ new,
      (Part.playPoly.admission E p cacheLoc cache rhythmTemp midiKey key velocity a).2.calls
          = a.calls ++ new
        ∧ (((∀ e ∈ new, e.2 = Call.assignPolyToPart p.partNum → E.retPoly e.1 e.2 = none)
            ∧ (Part.playPoly.admission E p cacheLoc cache rhythmTemp midiKey key velocity a).1
                = p)
          ∨ (∃ w poly, (w, Call.assignPolyToPart p.partNum) ∈ new
            ∧ E.retPoly w (Call.assignPolyToPart p.partNum) = some poly
            ∧ (Part.playPoly.admission E p cacheLoc cache rhythmTemp midiKey key velocity
                a).1.activePolys
              = (if p.patchTemp.patch.assignMode &&& 1 ≠ 0 then poly :: p.activePolys
                  else p.activePolys ++ [poly]))) := by
  rcases admission_trace E p cacheLoc cache rhythmTemp midiKey key velocity a with
    ⟨-, hp, hc⟩ | ⟨-, -, hp, hc⟩ | ⟨-, hnone, hp, hc⟩ | ⟨poly, L1, L2, w1, w2, ps, -, hsome, hp, hc, -, -⟩
  · refine ⟨_, hc, Or.inl ⟨?_, hp⟩⟩
    intro e he hk
    rw [List.mem_singleton] at he
    rw [he] at hk
    cases hk
  · refine ⟨_, hc, Or.inl ⟨?_, hp⟩⟩
    intro e he hk
    rw [List.mem_singleton] at he
    rw [he] at hk
    cases hk
  · refine ⟨_, hc, Or.inl ⟨?_, hp⟩⟩
    intro e he hk
    rcases List.mem_cons.mp he with he | he
    · rw [he] at hk
      cases hk
    · rcases List.mem_cons.mp he with he | he
      · rw [he]
        exact hnone
      · rw [List.mem_singleton] at he
        rw [he] at hk
        cases hk
  · refine ⟨[(a.world, Call.freePartials (cache 0).partialCount p.partNum),
        ((a.call E (Call.freePartials (cache 0).partialCount p.partNum)).world,
          Call.assignPolyToPart p.partNum)]
        ++ L1 ++ [(w1, Call.polyReset poly key velocity (cache 0).sustain ps)]
        ++ L2 ++ [(w2, Call.onPolyStateChanged (toBit8u p.partNum))], ?_,
      Or.inr ⟨_, poly, ?_, hsome, hp⟩⟩
    · rw [hc]
      simp only [List.append_assoc]
    · simp

/-- Claim C17. `playPoly` either leaves the part as it was, and then no `assignPolyToPart`
request of the call has returned a voice, or it has admitted a voice: an `assignPolyToPart`
request of the call returned `poly`, and the active-voice list afterwards is `poly` followed
by the old list when bit 0 of `assignMode` is set, and the old list followed by `poly`
otherwise. In both cases the old list is a sublist of the new one: no voice is removed and
the old voices keep their order. -/
theorem playPoly_insert {W : Type} (E : Env W) (p : Part) (cacheLoc : CacheLoc)
    (cache : PatchCacheArr) (rhythmTemp : Option RhythmTemp) (midiKey key velocity : Nat)
    (x : Ext W) :
    ∃ new, (p.playPoly E cacheLoc cache rhythmTemp midiKey key velocity x).2.calls
        = x.calls ++ new
      ∧ (((∀ e ∈ new, e.2 = Call.assignPolyToPart p.partNum → E.retPoly e.1 e.2 = none)
          ∧ (p.playPoly E cacheLoc cache rhythmTemp midiKey key velocity x).1 = p)
        ∨ (∃ w poly, (w, Call.assignPolyToPart p.partNum) ∈ new
          ∧ E.retPoly w (Call.assignPolyToPart p.partNum) = some poly
          ∧ (p.playPoly E cacheLoc cache rhythmTemp midiKey key velocity x).1.activePolys
            = (if p.patchTemp.patch.assignMode &&& 1 ≠ 0 then poly :: p.activePolys
                else p.activePolys ++ [poly])))
      ∧ List.Sublist p.activePolys
          (p.playPoly E cacheLoc cache rhythmTemp midiKey key velocity x).1.activePolys := by
  have hsub : ∀ new : List (W × Call),
      (((∀ e ∈ new, e.2 = Call.assignPolyToPart p.partNum → E.retPoly e.1 e.2 = none)
          ∧ (p.playPoly E cacheLoc cache rhythmTemp midiKey key velocity x).1 = p)
        ∨ (∃ w poly, (w, Call.assignPolyToPart p.partNum) ∈ new
          ∧ E.retPoly w (Call.assignPolyToPart p.partNum) = some poly
          ∧ (p.playPoly E cacheLoc cache rhythmTemp midiKey key velocity x).1.activePolys
            = (if p.patchTemp.patch.assignMode &&& 1 ≠ 0 then poly :: p.activePolys
                else p.activePolys ++ [poly]))) →
      List.Sublist p.activePolys
          (p.playPoly E cacheLoc cache rhythmTemp midiKey key velocity x).1.activePolys := by
    intro new h
    rcases h with ⟨-, h⟩ | ⟨w, poly, -, -, h⟩
    · rw [h]
    · rw [h]
      split_ifs
      · exact List.sublist_cons_self poly p.activePolys
      · exact List.sublist_append_left p.activePolys [poly]
  have hmain : ∃ new, (p.playPoly E cacheLoc cache rhythmTemp midiKey key velocity x).2.calls
        = x.calls ++ new
      ∧ (((∀ e ∈ new, e.2 = Call.assignPolyToPart p.partNum → E.retPoly e.1 e.2 = none)
          ∧ (p.playPoly E cacheLoc cache rhythmTemp midiKey key velocity x).1 = p)
        ∨ (∃ w poly, (w, Call.assignPolyToPart p.partNum) ∈ new
          ∧ E.retPoly w (Call.assignPolyToPart p.partNum) = some poly
          ∧ (p.playPoly E cacheLoc cache rhythmTemp midiKey key velocity x).1.activePolys
            = (if p.patchTemp.patch.assignMode &&& 1 ≠ 0 then poly :: p.activePolys
                else p.activePolys ++ [poly]))) := by
    obtain ⟨a, A, ha, hA, -, hcases⟩ :=
      playPoly_trace E p cacheLoc cache rhythmTemp midiKey key velocity x
    have hAk : ∀ e ∈ A, ∃ v, e.2 = Call.polyStartAbort v := by
      intro e he
      rw [hA] at he
      split at he
      · split at he
        · simp at he
        · rw [List.mem_singleton] at he
          exact ⟨_, by rw [he]⟩
      · simp at he
    rcases hcases with ⟨-, hr⟩ | ⟨-, -, -, hr⟩ | ⟨-, -, hr⟩
    · refine ⟨[(x.world, Call.printDebug Diag.mutedInstrument)], by rw [hr, Ext.call_calls],
        Or.inl ⟨?_, by rw [hr]⟩⟩
      intro e he hk
      rw [List.mem_singleton] at he
      rw [he] at hk
      cases hk
    · refine ⟨A, by rw [hr, ha], Or.inl ⟨?_, by rw [hr]⟩⟩
      intro e he hk
      obtain ⟨v, hv⟩ := hAk e he
      rw [hv] at hk
      cases hk
    · obtain ⟨new, hnew, hd⟩ :=
        admission_insert E p cacheLoc cache rhythmTemp midiKey key velocity a
      rw [hr]
      refine ⟨A ++ new, by rw [hnew, ha, List.append_assoc], ?_⟩
      rcases hd with ⟨hn, hp⟩ | ⟨w, poly, hmem, hret, hp⟩
      · refine Or.inl ⟨?_, hp⟩
        intro e he hk
        rcases List.mem_append.mp he with he | he
        · obtain ⟨v, hv⟩ := hAk e he
          rw [hv] at hk
          cases hk
        · exact hn e he hk
      · exact Or.inr ⟨w, poly, List.mem_append_right A hmem, hret, hp⟩
  obtain ⟨new, h1, h2⟩ := hmain
  exact ⟨new, h1, h2, hsub new h2⟩

/-! ## C18: the hold pedal -/

/-- Claim C18. `setHoldPedal(pressed)` leaves the part with `holdpedal = pressed` and
nothing else changed. When the pedal was down and `pressed` is false it runs
`stopPedalHold`: one `Poly::stopPedalHold` call per voice of the list, in list order. In
every other case (up to down, down to down, up to up) it makes no call at all and the
outside is as before. -/
theorem setHoldPedal_spec {W : Type} (E : Env W) (p : Part) (pressed : Bool) (x : Ext W) :
    (p.setHoldPedal E pressed x).1 = { p with holdpedal := pressed }
      ∧ ((p.holdpedal = true ∧ pressed = false) →
          (p.setHoldPedal E pressed x).2 = Part.stopPedalHold E p x
            ∧ (p.setHoldPedal E pressed x).2.calls.map Prod.snd
              = x.calls.map Prod.snd ++ p.activePolys.map Call.polyStopPedalHold)
      ∧ (¬ (p.holdpedal = true ∧ pressed = false) → (p.setHoldPedal E pressed x).2 = x) := by
  by_cases h : p.holdpedal = true ∧ pressed = false
  · have he : p.setHoldPedal E pressed x
        = ({ p with holdpedal := false }, Part.stopPedalHold E { p with holdpedal := false } x) := by
      unfold Part.setHoldPedal
      rw [if_pos h]
    rw [he]
    refine ⟨by rw [h.2], fun _ => ⟨rfl, ?_⟩, fun hn => absurd h hn⟩
    exact foldl_call_calls E Call.polyStopPedalHold p.activePolys x
  · have he : p.setHoldPedal E pressed x = ({ p with holdpedal := pressed }, x) := by
      unfold Part.setHoldPedal
      rw [if_neg h]
    rw [he]
    exact ⟨rfl, fun hp => absurd hp h, fun _ => rfl⟩

/-! ## C19: the count of voices that are not releasing -/

theorem incUInt32_ne (n : Nat) : incUInt32 n ≠ n := by
  unfold incUInt32
  split_ifs with h
  · rw [h]
    decide
  · exact Nat.succ_ne_self n

theorem decUInt32_ne (n : Nat) : decUInt32 n ≠ n := by
  unfold decUInt32
  split_ifs with h
  · rw [h]
    decide
  · omega

theorem decUInt32_eq_zero (n : Nat) : decUInt32 n = 0 ↔ n = 1 := by
  unfold decUInt32
  split_ifs with h
  · rw [h]
    decide
  · omega

/-- Claim C19, the counterexample. A voice of the example part goes from Held to Playing;
the part has two voices that are not releasing, and the count becomes three: it is
incremented although the old state is Held. -/
theorem polyStateChanged_from_held :
    Example.part.activeNonReleasingPolyCount = 2
      ∧ (Example.part.polyStateChanged Sim.env PolyState.POLY_Held PolyState.POLY_Playing
          Example.ext).1.activeNonReleasingPolyCount = 3 := by
  decide

/-- Claim C19, amended. `Part::polyStateChanged(oldState, newState)`: when `newState` is
Playing, whatever `oldState` is, the count of voices that are not releasing is incremented
(by 1, as an `unsigned int`), and the part is reported active exactly when the count was 0
before. When `newState` is Releasing or Inactive and `oldState` is Playing or Held, the
count is decremented (by 1, as an `unsigned int`), and the part is reported inactive
exactly when the count was 1 before. For every other pair nothing changes and nothing is
reported. A count that is incremented or decremented differs from the old one. -/
theorem polyStateChanged_spec {W : Type} (E : Env W) (p : Part) (oldState newState : PolyState)
    (x : Ext W) :
    (newState = PolyState.POLY_Playing →
        (p.polyStateChanged E oldState newState x).1
            = { p with activeNonReleasingPolyCount := incUInt32 p.activeNonReleasingPolyCount }
          ∧ (p.activeNonReleasingPolyCount < 4294967295 →
              (p.polyStateChanged E oldState newState x).1.activeNonReleasingPolyCount
                = p.activeNonReleasingPolyCount + 1)
          ∧ (p.polyStateChanged E oldState newState x).1.activeNonReleasingPolyCount
              ≠ p.activeNonReleasingPolyCount
          ∧ (p.activeNonReleasingPolyCount = 0 →
              (p.polyStateChanged E oldState newState x).2
                = x.call E (Call.voicePartStateChanged p.partNum true))
          ∧ (p.activeNonReleasingPolyCount ≠ 0 →
              (p.polyStateChanged E oldState newState x).2 = x))
      ∧ ((newState = PolyState.POLY_Releasing ∨ newState = PolyState.POLY_Inactive)
            ∧ (oldState = PolyState.POLY_Playing ∨ oldState = PolyState.POLY_Held) →
        (p.polyStateChanged E oldState newState x).1
            = { p with activeNonReleasingPolyCount := decUInt32 p.activeNonReleasingPolyCount }
          ∧ (0 < p.activeNonReleasingPolyCount →
              (p.polyStateChanged E oldState newState x).1.activeNonReleasingPolyCount
                = p.activeNonReleasingPolyCount - 1)
          ∧ (p.polyStateChanged E oldState newState x).1.activeNonReleasingPolyCount
              ≠ p.activeNonReleasingPolyCount
          ∧ (p.activeNonReleasingPolyCount = 1 →
              (p.polyStateChanged E oldState newState x).2
                = x.call E (Call.voicePartStateChanged p.partNum false))
          ∧ (p.activeNonReleasingPolyCount ≠ 1 →
              (p.polyStateChanged E oldState newState x).2 = x))
      ∧ (newState = PolyState.POLY_Held
            ∨ ((newState = PolyState.POLY_Releasing ∨ newState = PolyState.POLY_Inactive)
              ∧ ¬ (oldState = PolyState.POLY_Playing ∨ oldState = PolyState.POLY_Held)) →
        p.polyStateChanged E oldState newState x = (p, x)) := by
  have hdec : (oldState = PolyState.POLY_Playing ∨ oldState = PolyState.POLY_Held) →
      (if oldState = PolyState.POLY_Playing ∨ oldState = PolyState.POLY_Held then
          if decUInt32 p.activeNonReleasingPolyCount = 0 then
            (({ p with activeNonReleasingPolyCount := decUInt32 p.activeNonReleasingPolyCount } :
                Part),
              x.call E (Call.voicePartStateChanged p.partNum false))
          else
            ({ p with activeNonReleasingPolyCount := decUInt32 p.activeNonReleasingPolyCount },
              x)
        else (p, x)).1
          = { p with activeNonReleasingPolyCount := decUInt32 p.activeNonReleasingPolyCount }
      ∧ (p.activeNonReleasingPolyCount = 1 →
        (if oldState = PolyState.POLY_Playing ∨ oldState = PolyState.POLY_Held then
          if decUInt32 p.activeNonReleasingPolyCount = 0 then
            (({ p with activeNonReleasingPolyCount := decUInt32 p.activeNonReleasingPolyCount } :
                Part),
              x.call E (Call.voicePartStateChanged p.partNum false))
          else
            ({ p with activeNonReleasingPolyCount := decUInt32 p.activeNonReleasingPolyCount },
              x)
        else (p, x)).2 = x.call E (Call.voicePartStateChanged p.partNum false))
      ∧ (p.activeNonReleasingPolyCount ≠ 1 →
        (if oldState = PolyState.POLY_Playing ∨ oldState = PolyState.POLY_Held then
          if decUInt32 p.activeNonReleasingPolyCount = 0 then
            (({ p with activeNonReleasingPolyCount := decUInt32 p.activeNonReleasingPolyCount } :
                Part),
              x.call E (Call.voicePartStateChanged p.partNum false))
          else
            ({ p with activeNonReleasingPolyCount := decUInt32 p.activeNonReleasingPolyCount },
              x)
        else (p, x)).2 = x) := by
    intro ho
    rw [if_pos ho]
    by_cases h1 : decUInt32 p.activeNonReleasingPolyCount = 0
    · rw [if_pos h1]
      exact ⟨rfl, fun _ => rfl, fun hn => absurd ((decUInt32_eq_zero _).1 h1) hn⟩
    · rw [if_neg h1]
      exact ⟨rfl, fun h => absurd ((decUInt32_eq_zero _).2 h) h1, fun _ => rfl⟩
  refine ⟨?_, ?_, ?_⟩
  · intro hn
    subst hn
    have he : p.polyStateChanged E oldState PolyState.POLY_Playing x
        = if p.activeNonReleasingPolyCount = 0 then
            ({ p with activeNonReleasingPolyCount := incUInt32 p.activeNonReleasingPolyCount },
              x.call E (Call.voicePartStateChanged p.partNum true))
          else
            ({ p with activeNonReleasingPolyCount := incUInt32 p.activeNonReleasingPolyCount },
              x) := rfl
    rw [he]
    by_cases h0 : p.activeNonReleasingPolyCount = 0
    · rw [if_pos h0]
      exact ⟨rfl, fun h => incUInt32_of_lt _ h, incUInt32_ne _, fun _ => rfl,
        fun hn => absurd h0 hn⟩
    · rw [if_neg h0]
      exact ⟨rfl, fun h => incUInt32_of_lt _ h, incUInt32_ne _, fun h => absurd h h0,
        fun _ => rfl⟩
  · rintro ⟨hn, ho⟩
    obtain ⟨h1, h2, h3⟩ := hdec ho
    rcases hn with hn | hn <;> subst hn
    · exact ⟨h1, fun h => (congrArg Part.activeNonReleasingPolyCount h1).trans
          (decUInt32_of_pos _ h),
        fun h => decUInt32_ne _ ((congrArg Part.activeNonReleasingPolyCount h1).symm.trans h),
        h2, h3⟩
    · exact ⟨h1, fun h => (congrArg Part.activeNonReleasingPolyCount h1).trans
          (decUInt32_of_pos _ h),
        fun h => decUInt32_ne _ ((congrArg Part.activeNonReleasingPolyCount h1).symm.trans h),
        h2, h3⟩
  · rintro (hn | ⟨hn, ho⟩)
    · subst hn
      rfl
    · have he : (if oldState = PolyState.POLY_Playing ∨ oldState = PolyState.POLY_Held then
          if decUInt32 p.activeNonReleasingPolyCount = 0 then
            (({ p with activeNonReleasingPolyCount := decUInt32 p.activeNonReleasingPolyCount } :
                Part),
              x.call E (Call.voicePartStateChanged p.partNum false))
          else
            ({ p with activeNonReleasingPolyCount := decUInt32 p.activeNonReleasingPolyCount },
              x)
        else (p, x)) = (p, x) := if_neg ho
      rcases hn with hn | hn <;> subst hn <;> exact he

/-! ## C20: which voice an abort is requested on -/

theorem abortFirstPolyState_scan_skip {W : Type} (E : Env W) (polyState : PolyState)
    (l1 l2 : List PolyRef) (x : Ext W)
    (h : ∀ u ∈ l1, E.polyGetState x.world u ≠ polyState) :
    Part.abortFirstPolyState.scan E polyState (l1 ++ l2) x
      = Part.abortFirstPolyState.scan E polyState l2 x := by
  induction l1 with
  | nil => rfl
  | cons u l1 ih =>
    rw [List.cons_append, Part.abortFirstPolyState.scan,
      if_neg (h u (List.mem_cons_self u l1))]
    exact ih (fun w hw => h w (List.mem_cons_of_mem u hw))

theorem abortFirstPolyKey_scan_skip {W : Type} (E : Env W) (key : Nat)
    (l1 l2 : List PolyRef) (x : Ext W)
    (h : ∀ u ∈ l1, E.polyGetKey x.world u ≠ key) :
    Part.abortFirstPolyKey.scan E key (l1 ++ l2) x
      = Part.abortFirstPolyKey.scan E key l2 x := by
  induction l1 with
  | nil => rfl
  | cons u l1 ih =>
    rw [List.cons_append, Part.abortFirstPolyKey.scan,
      if_neg (h u (List.mem_cons_self u l1))]
    exact ih (fun w hw => h w (List.mem_cons_of_mem u hw))

theorem abortFirstPolyState_first {W : Type} (E : Env W) (p : Part) (polyState : PolyState)
    (x : Ext W) (l1 l2 : List PolyRef) (v : PolyRef) (hl : p.activePolys = l1 ++ v :: l2)
    (h1 : ∀ u ∈ l1, E.polyGetState x.world u ≠ polyState)
    (hv : E.polyGetState x.world v = polyState) :
    p.abortFirstPolyState E polyState x
      = (E.retBool x.world (Call.polyStartAbort v), x.call E (Call.polyStartAbort v)) := by
  rw [Part.abortFirstPolyState, hl, abortFirstPolyState_scan_skip E polyState l1 _ x h1,
    Part.abortFirstPolyState.scan, if_pos hv]

theorem abortFirstPolyState_none {W : Type} (E : Env W) (p : Part) (polyState : PolyState)
    (x : Ext W) (h : ∀ u ∈ p.activePolys, E.polyGetState x.world u ≠ polyState) :
    p.abortFirstPolyState E polyState x = (false, x) := by
  have h2 := abortFirstPolyState_scan_skip E polyState p.activePolys [] x h
  rw [List.append_nil] at h2
  rw [Part.abortFirstPolyState, h2]
  rfl

theorem abortFirstPoly_head {W : Type} (E : Env W) (p : Part) (x : Ext W) (h : PolyRef)
    (hh : p.activePolys.head? = some h) :
    p.abortFirstPoly E x
      = (E.retBool x.world (Call.polyStartAbort h), x.call E (Call.polyStartAbort h)) := by
  unfold Part.abortFirstPoly PolyList.isEmpty PolyList.getFirst
  cases hl : p.activePolys with
  | nil =>
    rw [hl] at hh
    cases hh
  | cons a l =>
    rw [hl] at hh
    cases hh
    rfl

/-- Claim C20. `abortFirstPolyPreferHeld`: on an empty list it returns false and makes no
call. If `v` is the first voice of the list in state Held (every voice before it is in
another state), the abort is requested on `v`; when that request succeeds the result is true
and no other call is made; when it fails, the abort is requested on the head of the list and
its outcome returned. If no voice is Held, the abort is requested on the head and on no
other voice. `abortFirstPoly(state)` and `abortFirstPoly(key)` make one call, the abort
request on the first voice of the list with that state or key, and return its outcome; with
no such voice they make no call and return false. -/
theorem abortFirstPoly_spec {W : Type} (E : Env W) (p : Part) (x : Ext W) :
    (p.activePolys = [] → p.abortFirstPolyPreferHeld E x = (false, x))
      ∧ (∀ l1 v l2, p.activePolys = l1 ++ v :: l2 →
          (∀ u ∈ l1, E.polyGetState x.world u ≠ PolyState.POLY_Held) →
          E.polyGetState x.world v = PolyState.POLY_Held →
            (E.retBool x.world (Call.polyStartAbort v) = true →
                p.abortFirstPolyPreferHeld E x = (true, x.call E (Call.polyStartAbort v)))
              ∧ (E.retBool x.world (Call.polyStartAbort v) = false →
                  ∀ h, p.activePolys.head? = some h →
                    p.abortFirstPolyPreferHeld E x
                      = (E.retBool (E.exec x.world (Call.polyStartAbort v))
                            (Call.polyStartAbort h),
                          (x.call E (Call.polyStartAbort v)).call E (Call.polyStartAbort h))))
      ∧ ((∀ u ∈ p.activePolys, E.polyGetState x.world u ≠ PolyState.POLY_Held) →
          ∀ h, p.activePolys.head? = some h →
            p.abortFirstPolyPreferHeld E x
              = (E.retBool x.world (Call.polyStartAbort h), x.call E (Call.polyStartAbort h)))
      ∧ (∀ polyState l1 v l2, p.activePolys = l1 ++ v :: l2 →
          (∀ u ∈ l1, E.polyGetState x.world u ≠ polyState) →
          E.polyGetState x.world v = polyState →
            p.abortFirstPolyState E polyState x
              = (E.retBool x.world (Call.polyStartAbort v), x.call E (Call.polyStartAbort v)))
      ∧ (∀ polyState, (∀ u ∈ p.activePolys, E.polyGetState x.world u ≠ polyState) →
          p.abortFirstPolyState E polyState x = (false, x))
      ∧ (∀ key l1 v l2, p.activePolys = l1 ++ v :: l2 →
          (∀ u ∈ l1, E.polyGetKey x.world u ≠ key) →
          E.polyGetKey x.world v = key →
            p.abortFirstPolyKey E key x
              = (E.retBool x.world (Call.polyStartAbort v), x.call E (Call.polyStartAbort v)))
      ∧ (∀ key, (∀ u ∈ p.activePolys, E.polyGetKey x.world u ≠ key) →
          p.abortFirstPolyKey E key x = (false, x)) := by
  refine ⟨?_, ?_, ?_, ?_, ?_, ?_, ?_⟩
  · intro he
    have hs : p.abortFirstPolyState E PolyState.POLY_Held x = (false, x) := by
      rw [Part.abortFirstPolyState, he]
      rfl
    have ha : p.abortFirstPoly E x = (false, x) := by
      unfold Part.abortFirstPoly PolyList.isEmpty
      rw [he]
      rfl
    unfold Part.abortFirstPolyPreferHeld
    rw [hs, if_neg Bool.false_ne_true]
    exact ha
  · intro l1 v l2 hl h1 hv
    have hs := abortFirstPolyState_first E p PolyState.POLY_Held x l1 l2 v hl h1 hv
    constructor
    · intro hr
      unfold Part.abortFirstPolyPreferHeld
      rw [hs, if_pos hr]
    · intro hr h hh
      unfold Part.abortFirstPolyPreferHeld
      rw [hs, if_neg (by rw [hr]; exact Bool.false_ne_true)]
      exact abortFirstPoly_head E p _ h hh
  · intro hn h hh
    have hs := abortFirstPolyState_none E p PolyState.POLY_Held x hn
    unfold Part.abortFirstPolyPreferHeld
    rw [hs, if_neg Bool.false_ne_true]
    exact abortFirstPoly_head E p x h hh
  · intro polyState l1 v l2 hl h1 hv
    exact abortFirstPolyState_first E p polyState x l1 l2 v hl h1 hv
  · intro polyState hn
    exact abortFirstPolyState_none E p polyState x hn
  · intro key l1 v l2 hl h1 hv
    rw [Part.abortFirstPolyKey, hl, abortFirstPolyKey_scan_skip E key l1 _ x h1,
      Part.abortFirstPolyKey.scan, if_pos hv]
  · intro key hn
    have h2 := abortFirstPolyKey_scan_skip E key p.activePolys [] x hn
    rw [List.append_nil] at h2
    rw [Part.abortFirstPolyKey, h2]
    rfl

/-! ## The claims without a side condition, on the example part -/

theorem partialDeactivated_spec_witness :
    0 < Example.part.activePartialCount
      ∧ (Example.part.partialDeactivated Sim.env 1 Example.ext).1.activePartialCount
          = Example.part.activePartialCount - 1 :=
  ⟨by decide, (partialDeactivated_spec Sim.env Example.part 1 Example.ext).2.1 (by decide)⟩

theorem rhythm_noteOn_bounds_witness :
    (20 < 24 ∨ 108 < 20)
      ∧ Example.rhythmPart.noteOn Sim.env Example.synth 20 100 Example.ext
          = (Example.rhythmPart,
              Example.ext.call Sim.env (Call.printDebug (Diag.invalidKey 20 100)))
      ∧ (Example.rhythmPart.noteOn Sim.env Example.synth 20 100 Example.ext).2.calls
          = Example.ext.calls ++ [(Example.ext.world, Call.printDebug (Diag.invalidKey 20 100))] :=
  ⟨by decide,
    (rhythm_noteOn_bounds Sim.env Example.synth Example.rhythmPart 20 100 Example.ext).1
      (Or.inl (by decide))⟩

theorem setDataEntryMSB_spec_witness :
    (Example.part.nrpn = false ∧ Example.part.rpn = 0)
      ∧ (Example.part.setDataEntryMSB 30).patchTemp.patch.benderRange = min 30 24
      ∧ (Example.part.setDataEntryMSB 30).pitchBenderRange = 683 * min 30 24 :=
  ⟨⟨rfl, rfl⟩, (setDataEntryMSB_spec Example.part 30).1 ⟨rfl, rfl⟩⟩

theorem playPoly_insert_witness :
    (Example.part.playPoly Sim.env CacheLoc.patchCache Example.part.patchCache none 72 72 100
        Example.ext).1.activePolys = [1, 2, 3]
      ∧ List.Sublist Example.part.activePolys
          (Example.part.playPoly Sim.env CacheLoc.patchCache Example.part.patchCache none 72 72
            100 Example.ext).1.activePolys :=
  ⟨by decide,
    (playPoly_insert Sim.env Example.part CacheLoc.patchCache Example.part.patchCache none 72 72
      100 Example.ext).elim (fun _ h => h.2.2)⟩

theorem setHoldPedal_spec_witness :
    (Example.part.holdpedal = true ∧ false = false)
      ∧ (Example.part.setHoldPedal Sim.env false Example.heldExt).2
          = Part.stopPedalHold Sim.env Example.part Example.heldExt
      ∧ (Example.part.setHoldPedal Sim.env false Example.heldExt).2.calls.map Prod.snd
          = Example.heldExt.calls.map Prod.snd
            ++ Example.part.activePolys.map Call.polyStopPedalHold :=
  ⟨⟨rfl, rfl⟩,
    (setHoldPedal_spec Sim.env Example.part false Example.heldExt).2.1 ⟨rfl, rfl⟩⟩

theorem polyStateChanged_spec_witness :
    Example.part.activeNonReleasingPolyCount < 4294967295
      ∧ (Example.part.polyStateChanged Sim.env PolyState.POLY_Inactive PolyState.POLY_Playing
          Example.ext).1.activeNonReleasingPolyCount
        = Example.part.activeNonReleasingPolyCount + 1 :=
  ⟨by decide,
    ((polyStateChanged_spec Sim.env Example.part PolyState.POLY_Inactive
      PolyState.POLY_Playing Example.ext).1 rfl).2.1 (by decide)⟩

theorem abortFirstPoly_spec_witness :
    Example.part.activePolys = [1] ++ 2 :: []
      ∧ Sim.env.polyGetState Example.lateHeldExt.world 1 ≠ PolyState.POLY_Held
      ∧ Sim.env.polyGetState Example.lateHeldExt.world 2 = PolyState.POLY_Held
      ∧ Example.part.abortFirstPolyPreferHeld Sim.env Example.lateHeldExt
          = (true, Example.lateHeldExt.call Sim.env (Call.polyStartAbort 2)) :=
  ⟨rfl, by decide, by decide,
    ((abortFirstPoly_spec Sim.env Example.part Example.lateHeldExt).2.1 [1] 2 [] rfl
      (by decide) (by decide)).1 (by decide)⟩

/-! ## C23: a note-on right after construction -/

/-- Claim C23. In the part that `Part::Part` leaves, for any storage found and any part
number: the whole patch cache is zeroed, so `patchCache[0].dirty` is false and every slot has
`partialCount = 0`; `volumeOverride = 255`, `expression = 100`, `modulation = 0`,
`pitchBend = 0`, the hold pedal is up, both counters are 0 and the voice list is empty. A
`noteOn` on that part does not rebuild the cache: it returns, the part is as constructed (no
voice is created) and the only call made is the "completely muted instrument" diagnostic. -/
theorem new_noteOn_muted {W : Type} (E : Env W) (synth : SynthConfig) (raw : Part)
    (usePartNum midiKey velocity : Nat) (x : Ext W) :
    ((Part.new synth raw usePartNum).patchCache 0).dirty = false
      ∧ (∀ t, ((Part.new synth raw usePartNum).patchCache t).partialCount = 0)
      ∧ (∀ t, (Part.new synth raw usePartNum).patchCache t
          = PatchCache.zeroed (raw.patchCache t))
      ∧ (Part.new synth raw usePartNum).volumeOverride = 255
      ∧ (Part.new synth raw usePartNum).expression = 100
      ∧ (Part.new synth raw usePartNum).modulation = 0
      ∧ (Part.new synth raw usePartNum).pitchBend = 0
      ∧ (Part.new synth raw usePartNum).holdpedal = false
      ∧ (Part.new synth raw usePartNum).activePartialCount = 0
      ∧ (Part.new synth raw usePartNum).activeNonReleasingPolyCount = 0
      ∧ (Part.new synth raw usePartNum).activePolys = []
      ∧ (Part.new synth raw usePartNum).noteOn E synth midiKey velocity x
          = some (Part.new synth raw usePartNum,
              x.call E (Call.printDebug Diag.mutedInstrument))
      ∧ (x.call E (Call.printDebug Diag.mutedInstrument)).calls
          = x.calls ++ [(x.world, Call.printDebug Diag.mutedInstrument)] := by
  have hd : ¬ ((Part.new synth raw usePartNum).patchCache 0).dirty = true :=
    Bool.false_ne_true
  have hc : ((Part.new synth raw usePartNum).patchCache 0).partialCount = 0 := rfl
  refine ⟨rfl, fun _ => rfl, fun _ => rfl, rfl, rfl, rfl, rfl, rfl, rfl, rfl, rfl, ?_, rfl⟩
  unfold Part.noteOn
  rw [if_neg hd]
  unfold Part.playPoly
  rw [if_pos hc]

theorem new_noteOn_muted_witness :
    (Part.new Example.synth Example.part 0).noteOn Sim.env Example.synth 60 100 Example.ext
        = some (Part.new Example.synth Example.part 0,
            Example.ext.call Sim.env (Call.printDebug Diag.mutedInstrument))
      ∧ (Part.new Example.synth Example.part 0).activePolys = [] :=
  ⟨(new_noteOn_muted Sim.env Example.synth Example.part 0 60 100 Example.ext).2.2.2.2.2.2.2.2.2.2.2.1,
    (new_noteOn_muted Sim.env Example.synth Example.part 0 60 100 Example.ext).2.2.2.2.2.2.2.2.2.2.1⟩

/-! ## C22: the linked nodes and the sequence -/

theorem path_congr (next next2 : PolyRef → Option PolyRef) (l : List PolyRef) :
    ∀ (s t : Option PolyRef), (∀ a ∈ l, next2 a = next a) →
      (Intrusive.PolyList.path next2 s l t ↔ Intrusive.PolyList.path next s l t) := by
  induction l with
  | nil => exact fun _ _ _ => Iff.rfl
  | cons b l ih =>
    intro s t h
    show (s = some b ∧ Intrusive.PolyList.path next2 (next2 b) l t)
      ↔ (s = some b ∧ Intrusive.PolyList.path next (next b) l t)
    rw [h b (List.mem_cons_self b l)]
    exact and_congr Iff.rfl (ih _ _ (fun a ha => h a (List.mem_cons_of_mem b ha)))

theorem path_append (next : PolyRef → Option PolyRef) (l1 l2 : List PolyRef) :
    ∀ (s t : Option PolyRef),
      Intrusive.PolyList.path next s (l1 ++ l2) t
        ↔ ∃ mid, Intrusive.PolyList.path next s l1 mid ∧ Intrusive.PolyList.path next mid l2 t := by
  induction l1 with
  | nil =>
    intro s t
    constructor
    · exact fun h => ⟨s, rfl, h⟩
    · rintro ⟨mid, h1, h2⟩
      have h3 : s = mid := h1
      rw [h3]
      exact h2
  | cons b l1 ih =>
    intro s t
    show (s = some b ∧ Intrusive.PolyList.path next (next b) (l1 ++ l2) t)
      ↔ ∃ mid, (s = some b ∧ Intrusive.PolyList.path next (next b) l1 mid)
          ∧ Intrusive.PolyList.path next mid l2 t
    rw [ih]
    constructor
    · rintro ⟨hs, mid, h1, h2⟩
      exact ⟨mid, ⟨hs, h1⟩, h2⟩
    · rintro ⟨mid, ⟨hs, h1⟩, h2⟩
      exact ⟨hs, mid, h1, h2⟩

/-- From one start, `next` leads to `NULL` along one sequence only. -/
theorem path_unique (next : PolyRef → Option PolyRef) (l1 : List PolyRef) :
    ∀ (s : Option PolyRef) (l2 : List PolyRef),
      Intrusive.PolyList.path next s l1 none → Intrusive.PolyList.path next s l2 none →
        l1 = l2 := by
  induction l1 with
  | nil =>
    intro s l2 h1 h2
    have hs : s = none := h1
    cases l2 with
    | nil => rfl
    | cons c l2 =>
      have hc : s = some c := h2.1
      rw [hs] at hc
      cases hc
  | cons b l1 ih =>
    intro s l2 h1 h2
    have hs : s = some b := h1.1
    cases l2 with
    | nil =>
      have hc : s = none := h2
      rw [hs] at hc
      cases hc
    | cons c l2 =>
      have hc : s = some c := h2.1
      rw [hs] at hc
      cases hc
      rw [ih (next b) l2 h1.2 h2.2]

/-- A sequence of nodes that ends at `NULL` has no node twice. -/
theorem path_nodup (next : PolyRef → Option PolyRef) (l : List PolyRef) :
    ∀ (s : Option PolyRef), Intrusive.PolyList.path next s l none → l.Nodup := by
  induction l with
  | nil => exact fun _ _ => List.nodup_nil
  | cons b l ih =>
    intro s h
    refine List.nodup_cons.mpr ⟨?_, ih (next b) h.2⟩
    intro hb
    obtain ⟨l1, l2, hl⟩ := List.append_of_mem hb
    have h2 := h.2
    rw [hl, path_append] at h2
    obtain ⟨mid, -, hm⟩ := h2
    have h3 : Intrusive.PolyList.path next (next b) l2 none := hm.2
    have h4 := path_unique next l (next b) l2 h.2 h3
    have h5 := congrArg List.length h4
    rw [hl] at h5
    simp at h5
    omega

/-- The `next` pointer of a node on the way is the end of the way or a node on the way. -/
theorem path_next_cases (next : PolyRef → Option PolyRef) (u : List PolyRef) :
    ∀ (s stop : Option PolyRef) (x : PolyRef), Intrusive.PolyList.path next s u stop → x ∈ u →
      (next x = stop ∨ ∃ y ∈ u, next x = some y) := by
  induction u with
  | nil => exact fun _ _ _ _ hx => absurd hx (List.not_mem_nil _)
  | cons b u ih =>
    intro s stop x h hx
    rcases List.mem_cons.mp hx with rfl | hx
    · cases u with
      | nil => exact Or.inl h.2
      | cons c u =>
        exact Or.inr ⟨c, List.mem_cons_of_mem _ (List.mem_cons_self c u), h.2.1⟩
    · rcases ih (next b) stop x h.2 hx with h1 | ⟨y, hy, h1⟩
      · exact Or.inl h1
      · exact Or.inr ⟨y, List.mem_cons_of_mem b hy, h1⟩

theorem represents_prepend (m : Intrusive.PolyList) (l : List PolyRef) (p : PolyRef)
    (h : m.Represents l) (hp : p ∉ l) : (m.prepend p).Represents (p :: l) := by
  obtain ⟨hpath, hlast⟩ := h
  have hnext : ∀ a ∈ l, Function.update m.next p m.firstPoly a = m.next a :=
    fun a ha => Function.update_noteq (fun (e : a = p) => hp (e ▸ ha)) _ _
  have hpath2 : Intrusive.PolyList.path (Function.update m.next p m.firstPoly) (some p) (p :: l)
      none := by
    refine ⟨rfl, ?_⟩
    rw [Function.update_same]
    exact (path_congr m.next _ l _ _ hnext).2 hpath
  cases l with
  | nil =>
    have hl : m.lastPoly = none := hlast
    have he : m.prepend p
        = { firstPoly := some p, lastPoly := some p,
            next := Function.update m.next p m.firstPoly } := by
      unfold Intrusive.PolyList.prepend Intrusive.PolyList.setNext
      simp only [hl, if_true]
    rw [he]
    exact ⟨hpath2, rfl⟩
  | cons b l =>
    have hl : m.lastPoly = (b :: l).getLast? := hlast
    have hne : m.lastPoly ≠ none := by
      rw [hl, List.getLast?_eq_getLast _ (List.cons_ne_nil b l)]
      exact Option.some_ne_none _
    have he : m.prepend p
        = { firstPoly := some p, lastPoly := m.lastPoly,
            next := Function.update m.next p m.firstPoly } := by
      unfold Intrusive.PolyList.prepend Intrusive.PolyList.setNext
      simp only [hne, if_false]
    rw [he]
    exact ⟨hpath2, by rw [List.getLast?_cons_cons]; exact hl⟩

theorem represents_append (m : Intrusive.PolyList) (l : List PolyRef) (p : PolyRef)
    (h : m.Represents l) (hp : p ∉ l) : (m.append p).Represents (l ++ [p]) := by
  obtain ⟨hpath, hlast⟩ := h
  have hcases : l = [] ∨ ∃ l0 z, l = l0 ++ [z] := by
    rcases List.eq_nil_or_concat l with h0 | ⟨l0, z, h0⟩
    · exact Or.inl h0
    · exact Or.inr ⟨l0, z, by rw [h0, List.concat_eq_append]⟩
  rcases hcases with rfl | ⟨l0, z, rfl⟩
  · have hf : m.firstPoly = none := hpath
    have hl : m.lastPoly = none := hlast
    have he : m.append p
        = { firstPoly := some p, lastPoly := some p, next := Function.update m.next p none } := by
      unfold Intrusive.PolyList.append Intrusive.PolyList.setNext
      simp only [hl, hf, if_true]
    rw [he]
    exact ⟨⟨rfl, Function.update_same _ _ _⟩, rfl⟩
  · have hl : m.lastPoly = some z := by rw [hlast, List.getLast?_concat]
    have hzp : z ≠ p := fun e => hp (by rw [← e]; simp)
    obtain ⟨mid, h1, h2⟩ := (path_append m.next l0 [z] _ _).1 hpath
    have hmid : mid = some z := h2.1
    have hz : m.next z = none := h2.2
    rw [hmid] at h1
    have hfs : m.firstPoly ≠ none := by
      cases l0 with
      | nil =>
        have : m.firstPoly = some z := h1
        rw [this]
        exact Option.some_ne_none _
      | cons c l0 =>
        have : m.firstPoly = some c := h1.1
        rw [this]
        exact Option.some_ne_none _
    have he : m.append p
        = { firstPoly := m.firstPoly, lastPoly := some p,
            next := Function.update (Function.update m.next p none) z (some p) } := by
      unfold Intrusive.PolyList.append Intrusive.PolyList.setNext
      simp only [hl, hfs, if_false]
    rw [he]
    have hnd := path_nodup m.next _ _ hpath
    have hz0 : z ∉ l0 := by
      intro hz0
      have := List.nodup_append.mp hnd
      exact this.2.2 hz0 (List.mem_singleton.mpr rfl)
    have hp0 : p ∉ l0 := fun hp0 => hp (List.mem_append_left _ hp0)
    refine ⟨?_, by rw [List.getLast?_concat]⟩
    rw [List.append_assoc]
    refine (path_append _ l0 _ _ _).2 ⟨some z, ?_, ?_⟩
    · refine (path_congr m.next _ l0 _ _ ?_).2 h1
      intro a ha
      show Function.update (Function.update m.next p none) z (some p) a = m.next a
      rw [Function.update_noteq (fun (e : a = z) => hz0 (e ▸ ha)),
        Function.update_noteq (fun (e : a = p) => hp0 (e ▸ ha))]
    · refine ⟨rfl, ?_, ?_⟩
      · exact Function.update_same _ _ _
      · show Function.update (Function.update m.next p none) z (some p) p = none
        rw [Function.update_noteq (Ne.symm hzp), Function.update_same]

theorem represents_takeFirst (m : Intrusive.PolyList) (a : PolyRef) (t : List PolyRef)
    (h : m.Represents (a :: t)) :
    ∃ m2, m.takeFirst = some (a, m2) ∧ m2.Represents t ∧ m2.next a = none := by
  obtain ⟨hpath, hlast⟩ := h
  have hf : m.firstPoly = some a := hpath.1
  have hnd := path_nodup m.next _ _ hpath
  have hat : a ∉ t := (List.nodup_cons.mp hnd).1
  have hp2 : Intrusive.PolyList.path (Function.update m.next a none) (m.next a) t none :=
    (path_congr m.next _ t _ _
      (fun b hb => Function.update_noteq (fun (e : b = a) => hat (e ▸ hb)) _ _)).2 hpath.2
  cases t with
  | nil =>
    have hn : m.next a = none := hpath.2
    refine ⟨Intrusive.PolyList.mk none none (Function.update m.next a none), ?_, ⟨rfl, rfl⟩,
      Function.update_same _ _ _⟩
    unfold Intrusive.PolyList.takeFirst Intrusive.PolyList.setNext Intrusive.PolyList.getNext
    rw [hf]
    simp only [hn, if_true]
  | cons b t =>
    have hn : m.next a = some b := hpath.2.1
    refine ⟨Intrusive.PolyList.mk (some b) m.lastPoly (Function.update m.next a none), ?_,
      ⟨?_, ?_⟩, Function.update_same _ _ _⟩
    · unfold Intrusive.PolyList.takeFirst Intrusive.PolyList.setNext Intrusive.PolyList.getNext
      rw [hf]
      simp only [hn, Option.some_ne_none, if_false]
    · rw [← hn]
      exact hp2
    · rw [hlast, List.getLast?_cons_cons]

theorem remove_scan_not_found (m : Intrusive.PolyList) (p : PolyRef) (l2 : List PolyRef) :
    ∀ (cur : Option PolyRef) (fuel : Nat), Intrusive.PolyList.path m.next cur l2 none →
      (∀ x ∈ l2, m.next x ≠ some p) → l2.length ≤ fuel →
        Intrusive.PolyList.remove.scan p fuel cur m = some m := by
  induction l2 with
  | nil =>
    intro cur fuel h _ _
    have hc : cur = none := h
    rw [hc]
    cases fuel <;> rfl
  | cons b l2 ih =>
    intro cur fuel h hx hf
    have hc : cur = some b := h.1
    rw [hc]
    cases fuel with
    | zero => simp at hf
    | succ f =>
      have hb : ¬ m.getNext b = some p := hx b (List.mem_cons_self b l2)
      rw [Intrusive.PolyList.remove.scan, if_neg hb]
      exact ih (m.next b) f h.2 (fun x hx2 => hx x (List.mem_cons_of_mem b hx2))
        (Nat.le_of_succ_le_succ hf)

theorem remove_scan_found (m : Intrusive.PolyList) (p q : PolyRef) (u : List PolyRef) :
    ∀ (cur : Option PolyRef) (fuel : Nat), Intrusive.PolyList.path m.next cur u (some q) →
      (∀ x ∈ u, m.next x ≠ some p) → m.next q = some p → u.length < fuel →
        Intrusive.PolyList.remove.scan p fuel cur m
          = some (Intrusive.PolyList.mk m.firstPoly
              (if some p = m.lastPoly then some q else m.lastPoly)
              (Function.update (Function.update m.next q (m.next p)) p none)) := by
  induction u with
  | nil =>
    intro cur fuel h _ hq hf
    have hc : cur = some q := h
    rw [hc]
    cases fuel with
    | zero => simp at hf
    | succ f =>
      have hb : m.getNext q = some p := hq
      rw [Intrusive.PolyList.remove.scan, if_pos hb]
      by_cases hl : some p = m.lastPoly
      · simp only [hl, if_true]
        rfl
      · simp only [hl, if_false]
        rfl
  | cons b u ih =>
    intro cur fuel h hx hq hf
    have hc : cur = some b := h.1
    rw [hc]
    cases fuel with
    | zero => simp at hf
    | succ f =>
      have hb : ¬ m.getNext b = some p := hx b (List.mem_cons_self b u)
      rw [Intrusive.PolyList.remove.scan, if_neg hb]
      exact ih (m.next b) f h.2 (fun x hx2 => hx x (List.mem_cons_of_mem b hx2)) hq
        (Nat.lt_of_succ_lt_succ hf)

theorem represents_remove (m : Intrusive.PolyList) (l : List PolyRef) (p : PolyRef)
    (fuel : Nat) (h : m.Represents l) (hf : l.length ≤ fuel) :
    ∃ m2, m.remove p fuel = some m2 ∧ m2.Represents (l.erase p) ∧ (p ∉ l → m2 = m) := by
  have hnd := path_nodup m.next l _ h.1
  by_cases hfirst : some p = m.firstPoly
  · cases l with
    | nil =>
      have : m.firstPoly = none := h.1
      rw [this] at hfirst
      cases hfirst
    | cons a t =>
      have ha : m.firstPoly = some a := h.1.1
      rw [ha] at hfirst
      cases hfirst
      obtain ⟨m2, h1, h2, -⟩ := represents_takeFirst m p t h
      refine ⟨m2, ?_, by rw [List.erase_cons_head]; exact h2,
        fun hn => absurd (List.mem_cons_self p t) hn⟩
      unfold Intrusive.PolyList.remove
      rw [if_pos ha.symm, h1]
      rfl
  · have hrem : m.remove p fuel = Intrusive.PolyList.remove.scan p fuel m.firstPoly m := by
      unfold Intrusive.PolyList.remove
      rw [if_neg hfirst]
    rw [hrem]
    by_cases hp : p ∈ l
    · obtain ⟨l1, l2, hl⟩ := List.append_of_mem hp
      have hl1 : l1 = [] ∨ ∃ u q, l1 = u ++ [q] := by
        rcases List.eq_nil_or_concat l1 with h0 | ⟨u, q, h0⟩
        · exact Or.inl h0
        · exact Or.inr ⟨u, q, by rw [h0, List.concat_eq_append]⟩
      rcases hl1 with rfl | ⟨u, q, rfl⟩
      · rw [hl] at h
        exact absurd h.1.1.symm hfirst
      · subst hl
        have hpath := h.1
        rw [path_append] at hpath
        obtain ⟨mid, hA, hB⟩ := hpath
        have hmid : mid = some p := hB.1
        have hl2 : Intrusive.PolyList.path m.next (m.next p) l2 none := hB.2
        rw [hmid, path_append] at hA
        obtain ⟨mid2, hu, hq⟩ := hA
        have hmid2 : mid2 = some q := hq.1
        have hqp : m.next q = some p := hq.2
        rw [hmid2] at hu
        have hd := List.nodup_append.mp hnd
        have hpl1 : p ∉ u ++ [q] := fun hm => hd.2.2 hm (List.mem_cons_self p l2)
        have hpu : p ∉ u := fun hm => hpl1 (List.mem_append_left _ hm)
        have hqne : q ≠ p := fun e => hpl1 (by rw [e]; simp)
        have hpl2 : p ∉ l2 := (List.nodup_cons.mp hd.2.1).1
        have hqu : q ∉ u := fun hm =>
          (List.nodup_append.mp hd.1).2.2 hm (List.mem_singleton.mpr rfl)
        have hql2 : q ∉ l2 := fun hm =>
          hd.2.2 (List.mem_append_right u (List.mem_singleton.mpr rfl))
            (List.mem_cons_of_mem p hm)
        have hux : ∀ x ∈ u, m.next x ≠ some p := by
          intro x hx hn
          rcases path_next_cases m.next u _ _ x hu hx with h1 | ⟨y, hy, h1⟩
          · rw [hn] at h1
            exact hqne (Option.some.inj h1).symm
          · rw [hn] at h1
            exact hpu ((Option.some.inj h1) ▸ hy)
        have hlen : u.length < fuel := by
          simp at hf
          omega
        rw [remove_scan_found m p q u _ fuel hu hux hqp hlen]
        have her : ((u ++ [q]) ++ p :: l2).erase p = u ++ q :: l2 := by
          rw [List.erase_append_right _ hpl1, List.erase_cons_head, List.append_assoc]
          rfl
        refine ⟨_, rfl, ?_, fun hn => absurd hp hn⟩
        rw [her]
        constructor
        · refine (path_append _ u _ _ _).2 ⟨some q, ?_, rfl, ?_⟩
          · refine (path_congr m.next _ u _ _ ?_).2 hu
            intro a ha
            show Function.update (Function.update m.next q (m.next p)) p none a = m.next a
            rw [Function.update_noteq (fun (e : a = p) => hpu (e ▸ ha)),
              Function.update_noteq (fun (e : a = q) => hqu (e ▸ ha))]
          · show Intrusive.PolyList.path _
              (Function.update (Function.update m.next q (m.next p)) p none q) l2 none
            rw [Function.update_noteq hqne, Function.update_same]
            refine (path_congr m.next _ l2 _ _ ?_).2 hl2
            intro a ha
            show Function.update (Function.update m.next q (m.next p)) p none a = m.next a
            rw [Function.update_noteq (fun (e : a = p) => hpl2 (e ▸ ha)),
              Function.update_noteq (fun (e : a = q) => hql2 (e ▸ ha))]
        · show (if some p = m.lastPoly then some q else m.lastPoly) = (u ++ q :: l2).getLast?
          have hlast := h.2
          cases l2 with
          | nil =>
            rw [List.getLast?_concat] at hlast
            rw [if_pos hlast.symm]
            exact (List.getLast?_concat u).symm
          | cons c l2 =>
            rw [List.getLast?_append_cons, List.getLast?_cons_cons] at hlast
            have hne : ¬ some p = m.lastPoly := by
              intro e
              rw [hlast] at e
              exact hpl2 (List.mem_of_getLast?_eq_some e.symm)
            rw [if_neg hne, hlast, List.getLast?_append_cons, List.getLast?_cons_cons]
    · have hx : ∀ x ∈ l, m.next x ≠ some p := by
        intro x hx hn
        rcases path_next_cases m.next l _ _ x h.1 hx with h1 | ⟨y, hy, h1⟩
        · rw [hn] at h1
          cases h1
        · rw [hn] at h1
          exact hp ((Option.some.inj h1) ▸ hy)
      rw [remove_scan_not_found m p l _ fuel h.1 hx hf, List.erase_of_not_mem hp]
      exact ⟨m, rfl, h, fun _ => rfl⟩

/-- Claim C22. Let the linked nodes be well formed and hold the sequence `l`: the nodes from
`firstPoly` along `next` as far as `NULL` are `l`, and `lastPoly` is the last of them. Then
`l` has no voice twice and `firstPoly` is `NULL` iff `lastPoly` is; `isEmpty` holds iff `l`
is empty and `getFirst` is the head of `l`; for `p` not in `l`, `prepend(p)` leaves `p`
followed by `l` and `append(p)` leaves `l` followed by `p`; on `l = a :: t`, `takeFirst`
returns `a` and leaves `t`; `remove(p)` ends within `length l` rounds of its loop and leaves
`l` without `p`, the other voices in their order, and changes nothing at all when `p` is not
in `l`. Every memory left is again well formed and without duplicates, and so is the memory
the constructor leaves, which holds the empty sequence. -/
theorem polyList_refines (m : Intrusive.PolyList) (l : List PolyRef) (h : m.Represents l) :
    l.Nodup
      ∧ (m.firstPoly = none ↔ m.lastPoly = none)
      ∧ m.isEmpty = PolyList.isEmpty l
      ∧ (m.isEmpty = true ↔ l = [])
      ∧ m.getFirst = PolyList.getFirst l
      ∧ (∀ p, p ∉ l →
          (m.prepend p).Represents (PolyList.prepend l p) ∧ (PolyList.prepend l p).Nodup)
      ∧ (∀ p, p ∉ l →
          (m.append p).Represents (PolyList.append l p) ∧ (PolyList.append l p).Nodup)
      ∧ (∀ a t, l = a :: t →
          ∃ m2, m.takeFirst = some (a, m2) ∧ m2.Represents t ∧ t.Nodup)
      ∧ (∀ p fuel, l.length ≤ fuel →
          ∃ m2, m.remove p fuel = some m2
            ∧ m2.Represents (PolyList.remove l p)
            ∧ (PolyList.remove l p).Nodup
            ∧ PolyList.remove l p = l.filter (fun v => v != p)
            ∧ p ∉ PolyList.remove l p
            ∧ (p ∉ l → m2 = m ∧ PolyList.remove l p = l))
      ∧ (∀ next, (Intrusive.PolyList.new next).Represents []) := by
  have hnd := path_nodup m.next l _ h.1
  have hempty : m.isEmpty = PolyList.isEmpty l ∧ (m.firstPoly = none ↔ m.lastPoly = none)
      ∧ m.getFirst = PolyList.getFirst l := by
    cases l with
    | nil =>
      have h1 : m.firstPoly = none := h.1
      have h2 : m.lastPoly = none := h.2
      unfold Intrusive.PolyList.isEmpty Intrusive.PolyList.getFirst
      rw [h1, h2]
      exact ⟨rfl, Iff.rfl, rfl⟩
    | cons a t =>
      have h1 : m.firstPoly = some a := h.1.1
      have h2 : m.lastPoly = some ((a :: t).getLast (List.cons_ne_nil a t)) := by
        rw [h.2, List.getLast?_eq_getLast]
      unfold Intrusive.PolyList.isEmpty Intrusive.PolyList.getFirst
      rw [h1, h2]
      exact ⟨rfl, ⟨fun e => (by cases e), fun e => (by cases e)⟩, rfl⟩
  refine ⟨hnd, hempty.2.1, hempty.1, ?_, hempty.2.2, ?_, ?_, ?_, ?_, fun _ => ⟨rfl, rfl⟩⟩
  · rw [hempty.1]
    cases l with
    | nil => exact ⟨fun _ => rfl, fun _ => rfl⟩
    | cons a t => exact ⟨fun e => (by cases e), fun e => (by cases e)⟩
  · intro p hp
    have hr := represents_prepend m l p h hp
    exact ⟨hr, path_nodup _ _ _ hr.1⟩
  · intro p hp
    have hr := represents_append m l p h hp
    exact ⟨hr, path_nodup _ _ _ hr.1⟩
  · intro a t hl
    subst hl
    obtain ⟨m2, h1, h2, -⟩ := represents_takeFirst m a t h
    exact ⟨m2, h1, h2, path_nodup _ _ _ h2.1⟩
  · intro p fuel hf
    obtain ⟨m2, h1, h2, h3⟩ := represents_remove m l p fuel h hf
    have hfilt : PolyList.remove l p = l.filter (fun v => v != p) := by
      rw [PolyList.remove, List.Nodup.erase_eq_filter hnd]
    refine ⟨m2, h1, h2, path_nodup _ _ _ h2.1, hfilt, ?_,
      fun hp => ⟨h3 hp, List.erase_of_not_mem hp⟩⟩
    rw [hfilt]
    simp

theorem polyList_refines_witness :
    Example.linked.Represents [1, 2]
      ∧ (∀ p, p ∉ [1, 2] →
          (Example.linked.prepend p).Represents (PolyList.prepend [1, 2] p)
            ∧ (PolyList.prepend [1, 2] p).Nodup)
      ∧ (Example.linked.remove 2 2).isSome = true :=
  ⟨by decide,
    (polyList_refines Example.linked [1, 2] (by decide)).2.2.2.2.2.1,
    by decide⟩

/-! ## C21: the active-unit counter -/

theorem alloc_play {W : Type} (E : Env W) (partNum : Nat) (cache : PatchCacheArr)
    (st : List (Option PartialRef) × Nat × Ext W) (t : Fin 4)
    (h : (cache t).playPartial = true) :
    Part.playPoly.alloc E partNum cache st t
      = (st.1 ++ [E.retPartial st.2.2.world (Call.allocPartial partNum)],
          (st.2.1 + 1) % 4294967296, st.2.2.call E (Call.allocPartial partNum)) := by
  unfold Part.playPoly.alloc
  rw [if_pos h]

theorem alloc_skip {W : Type} (E : Env W) (partNum : Nat) (cache : PatchCacheArr)
    (st : List (Option PartialRef) × Nat × Ext W) (t : Fin 4)
    (h : ¬ (cache t).playPartial = true) :
    Part.playPoly.alloc E partNum cache st t = (st.1 ++ [none], st.2.1, st.2.2) := by
  unfold Part.playPoly.alloc
  rw [if_neg h]

/-- The first slot loop of `playPoly`: one `allocPartial` request per playing slot, the
counter goes up by one per request, and the handles collected are what the requests
returned. -/
theorem alloc_fold_units {W : Type} (E : Env W) (partNum : Nat) (cache : PatchCacheArr)
    (l : List (Fin 4)) :
    ∀ st : List (Option PartialRef) × Nat × Ext W,
      ∃ (L : List (W × Call)) (hs : List (Option PartialRef)),
        (l.foldl (Part.playPoly.alloc E partNum cache) st).2.2.calls = st.2.2.calls ++ L
          ∧ (l.foldl (Part.playPoly.alloc E partNum cache) st).1 = st.1 ++ hs
          ∧ (∀ e ∈ L, e.2 = Call.allocPartial partNum)
          ∧ L.length = (l.filter (fun t => (cache t).playPartial)).length
          ∧ (st.2.1 + l.length < 4294967296 →
              (l.foldl (Part.playPoly.alloc E partNum cache) st).2.1 = st.2.1 + L.length)
          ∧ Poly.unitsGiven hs = L.countP (fun e => (E.retPartial e.1 e.2).isSome) := by
  induction l with
  | nil => exact fun st => ⟨[], [], by simp, by simp, by simp, rfl, fun _ => rfl, rfl⟩
  | cons t l ih =>
    intro st
    obtain ⟨L, hs, hL, hH, hK, hN, hC, hU⟩ := ih (Part.playPoly.alloc E partNum cache st t)
    rw [List.foldl_cons, hL, hH]
    by_cases h : (cache t).playPartial = true
    · rw [alloc_play E partNum cache st t h] at hC ⊢
      refine ⟨(st.2.2.world, Call.allocPartial partNum) :: L,
        E.retPartial st.2.2.world (Call.allocPartial partNum) :: hs, ?_, ?_, ?_, ?_, ?_, ?_⟩
      · show (st.2.2.call E (Call.allocPartial partNum)).calls ++ L = _
        rw [Ext.call_calls, List.append_assoc]
        rfl
      · show st.1 ++ [E.retPartial st.2.2.world (Call.allocPartial partNum)] ++ hs = _
        rw [List.append_assoc]
        rfl
      · intro e he
        rcases List.mem_cons.mp he with rfl | he
        · rfl
        · exact hK e he
      · rw [List.length_cons, hN, List.filter_cons, if_pos h, List.length_cons]
      · intro hlt
        rw [List.length_cons] at hlt ⊢
        have h1 : (st.2.1 + 1) % 4294967296 = st.2.1 + 1 := Nat.mod_eq_of_lt (by omega)
        have h2 := hC (by
          show (st.2.1 + 1) % 4294967296 + l.length < 4294967296
          rw [h1]
          omega)
        rw [h2]
        show (st.2.1 + 1) % 4294967296 + L.length = _
        rw [h1]
        omega
      · unfold Poly.unitsGiven at hU ⊢
        rw [List.countP_cons, List.countP_cons, hU]
    · rw [alloc_skip E partNum cache st t h] at hC ⊢
      refine ⟨L, none :: hs, rfl, ?_, hK, ?_, ?_, ?_⟩
      · show st.1 ++ [none] ++ hs = _
        rw [List.append_assoc]
        rfl
      · rw [hN, List.filter_cons, if_neg h]
      · intro hlt
        rw [List.length_cons] at hlt
        exact hC (by
          show st.2.1 + l.length < 4294967296
          omega)
      · unfold Poly.unitsGiven at hU ⊢
        rw [List.countP_cons, hU]
        rfl

/-- A cache built by `cacheTimbre` has as many playing slots as its `partialCount` says, and
that is at most 4. -/
theorem cacheTimbre_playing_count (c0 : PatchCacheArr) (loc : TimbreLoc)
    (timbre : TimbreParam) :
    ((List.finRange 4).filter
        (fun t => (cacheTimbre.build c0 loc timbre t).playPartial)).length
        = (cacheTimbre.build c0 loc timbre 0).partialCount
      ∧ (cacheTimbre.build c0 loc timbre 0).partialCount ≤ 4 := by
  have hp : ∀ t : Fin 4, (cacheTimbre.build c0 loc timbre t).playPartial
      = decide (timbre.common.partialMute / 2 ^ t.val % 2 = 1) := by
    intro t
    rw [cacheTimbre_build_apply]
    by_cases hbit : (timbre.common.partialMute >>> t.val) &&& 1 = 1
    · rw [if_pos hbit]
      have h1 := (and_one_eq_one_iff _ _).1 hbit
      rw [decide_eq_true h1]
      exact cacheTimbre_active_playPartial loc timbre t (c0 t)
    · rw [if_neg hbit]
      have h1 : ¬ timbre.common.partialMute / 2 ^ t.val % 2 = 1 :=
        fun h => hbit ((and_one_eq_one_iff _ _).2 h)
      rw [decide_eq_false h1]
  have hc : (cacheTimbre.build c0 loc timbre 0).partialCount
      = ((List.range 4).filter
          (fun i => decide (timbre.common.partialMute / 2 ^ i % 2 = 1))).length := by
    rw [cacheTimbre_build_apply]
    exact cacheTimbre_count timbre.common.partialMute
  have hf : (fun t : Fin 4 => (cacheTimbre.build c0 loc timbre t).playPartial)
      = (fun i => decide (timbre.common.partialMute / 2 ^ i % 2 = 1)) ∘ Fin.val := by
    funext t
    exact hp t
  rw [hc, hf, ← List.map_coe_finRange, List.filter_map, List.length_map]
  refine ⟨rfl, ?_⟩
  exact le_trans (List.length_filter_le _ _) (by simp)

/-- What `playPoly` leaves from the `freePartials` request on: either the part as it was and
no `Poly::reset`, or a voice admitted, with the requests made for it and the counter. -/
theorem admission_units {W : Type} (E : Env W) (p : Part) (cacheLoc : CacheLoc)
    (cache : PatchCacheArr) (rhythmTemp : Option RhythmTemp) (midiKey key velocity : Nat)
    (a : Ext W) :
    ((Part.playPoly.admission E p cacheLoc cache rhythmTemp midiKey key velocity a).1 = p
        ∧ ∃ T, (Part.playPoly.admission E p cacheLoc cache rhythmTemp midiKey key velocity
              a).2.calls = a.calls ++ T
          ∧ ∀ e ∈ T, (∀ poly k v s ps, e.2 ≠ Call.polyReset poly k v s ps)
              ∧ e.2 ≠ Call.allocPartial p.partNum)
      ∨ (∃ poly L1 L2 w0 w1 w2 ps,
        E.retPoly w0 (Call.assignPolyToPart p.partNum) = some poly
        ∧ (Part.playPoly.admission E p cacheLoc cache rhythmTemp midiKey key velocity a).1.activePolys
            = (if p.patchTemp.patch.assignMode &&& 1 ≠ 0 then PolyList.prepend p.activePolys poly
                else PolyList.append p.activePolys poly)
        ∧ (Part.playPoly.admission E p cacheLoc cache rhythmTemp midiKey key velocity a).2.calls
            = a.calls ++ [(a.world, Call.freePartials (cache 0).partialCount p.partNum),
                (w0, Call.assignPolyToPart p.partNum)]
              ++ L1 ++ [(w1, Call.polyReset poly key velocity (cache 0).sustain ps)]
              ++ L2 ++ [(w2, Call.onPolyStateChanged (toBit8u p.partNum))]
        ∧ (∀ e ∈ L1, e.2 = Call.allocPartial p.partNum)
        ∧ (∀ e ∈ L2, ∃ u slot c pair,
            e.2 = Call.startPartial u p.partNum poly cacheLoc slot c rhythmTemp pair)
        ∧ L1.length = ((List.finRange 4).filter (fun t => (cache t).playPartial)).length
        ∧ (p.activePartialCount + 4 < 4294967296 →
            (Part.playPoly.admission E p cacheLoc cache rhythmTemp midiKey key velocity
              a).1.activePartialCount = p.activePartialCount + L1.length)
        ∧ Poly.unitsGiven ps = L1.countP (fun e => (E.retPartial e.1 e.2).isSome)) := by
  unfold Part.playPoly.admission
  by_cases h1 : E.retBool a.world (Call.freePartials (cache 0).partialCount p.partNum) = false
  · left
    simp only [h1, if_true, Ext.call_calls]
    refine ⟨trivial, _, rfl, ?_⟩
    intro e he
    rw [List.mem_singleton] at he
    rw [he]
    exact ⟨fun _ _ _ _ _ hh => (by cases hh), fun hh => (by cases hh)⟩
  · have h1t : E.retBool a.world (Call.freePartials (cache 0).partialCount p.partNum) = true :=
      by simpa using h1
    by_cases h2 : E.isAbortingPoly
        (a.call E (Call.freePartials (cache 0).partialCount p.partNum)).world = true
    · left
      simp only [h1t, h2, if_true, Ext.call_calls, Bool.true_eq_false, if_false]
      refine ⟨trivial, _, rfl, ?_⟩
      intro e he
      rw [List.mem_singleton] at he
      rw [he]
      exact ⟨fun _ _ _ _ _ hh => (by cases hh), fun hh => (by cases hh)⟩
    · cases h3 : E.retPoly (a.call E (Call.freePartials (cache 0).partialCount p.partNum)).world
          (Call.assignPolyToPart p.partNum) with
      | none =>
        left
        simp only [h1t, h2, h3, Bool.true_eq_false, Bool.false_eq_true, if_false,
          Ext.call_calls, List.append_assoc]
        refine ⟨trivial, _, rfl, ?_⟩
        intro e he
        simp only [List.singleton_append, List.mem_cons, List.mem_singleton,
          List.not_mem_nil, or_false] at he
        rcases he with he | he | he <;> rw [he] <;>
          exact ⟨fun _ _ _ _ _ hh => (by cases hh), fun hh => (by cases hh)⟩
      | some poly =>
        right
        simp only [h1t, h2, h3, Bool.true_eq_false, Bool.false_eq_true, if_false]
        obtain ⟨L1, hs, hL1, hH, hK, hN, hC, hU⟩ :=
          alloc_fold_units E p.partNum cache (List.finRange 4)
            ([], p.activePartialCount,
              (a.call E (Call.freePartials (cache 0).partialCount p.partNum)).call E
                (Call.assignPolyToPart p.partNum))
        set st := (List.finRange 4).foldl (Part.playPoly.alloc E p.partNum cache)
          ([], p.activePartialCount,
            (a.call E (Call.freePartials (cache 0).partialCount p.partNum)).call E
              (Call.assignPolyToPart p.partNum)) with hst
        set y := (List.finRange 4).foldl
          (Part.playPoly.start E p.partNum poly cacheLoc cache rhythmTemp st.1)
          (st.2.2.call E (Call.polyReset poly key velocity (cache 0).sustain st.1)) with hy
        obtain ⟨L2, hL2, hP2⟩ := start_fold_calls E p.partNum poly cacheLoc cache rhythmTemp
          st.1 (List.finRange 4)
          (st.2.2.call E (Call.polyReset poly key velocity (cache 0).sustain st.1))
        rw [← hy] at hL2
        have hs1 : st.1 = hs := hH
        refine ⟨poly, L1, L2, _, st.2.2.world, y.world, st.1, h3, rfl, ?_, hK, hP2, hN, ?_, ?_⟩
        · rw [Ext.call_calls, hL2, Ext.call_calls, hL1, Ext.call_calls, Ext.call_calls]
          simp only [List.append_assoc, List.singleton_append, List.cons_append,
            List.nil_append]
        · intro hlt
          exact hC (by
            have h4 : (List.finRange 4).length = 4 := by simp
            rw [h4]
            exact hlt)
        · rw [hs1]
          exact hU

theorem sum_map_update_not_mem (attached : PolyRef → Nat) (poly : PolyRef) (n : Nat)
    (l : List PolyRef) (h : poly ∉ l) :
    (l.map (Function.update attached poly n)).sum = (l.map attached).sum := by
  have hm : l.map (Function.update attached poly n) = l.map attached :=
    List.map_congr_left
      (fun r hr => Function.update_noteq (fun (e : r = poly) => h (e ▸ hr)) _ _)
  rw [hm]

theorem sum_map_update_mem (attached : PolyRef → Nat) (poly : PolyRef) (n : Nat)
    (l : List PolyRef) (hn : l.Nodup) (h : poly ∈ l) :
    (l.map (Function.update attached poly n)).sum = n + ((l.erase poly).map attached).sum
      ∧ (l.map attached).sum = attached poly + ((l.erase poly).map attached).sum := by
  have h1 := List.sum_map_erase (Function.update attached poly n) h
  have h2 := List.sum_map_erase attached h
  rw [Function.update_same,
    sum_map_update_not_mem attached poly n (l.erase poly) hn.not_mem_erase] at h1
  exact ⟨h1.symm, h2.symm⟩

/-- One `playPoly` and the invariant of the active-unit counter, for a cache built by
`cacheTimbre`, when the pool hands out a voice that is not in the list and a unit for every
request. -/
theorem playPoly_units {W : Type} (E : Env W) (attached : PolyRef → Nat) (p : Part)
    (cacheLoc : CacheLoc) (c0 : PatchCacheArr) (loc : TimbreLoc) (timbre : TimbreParam)
    (rhythmTemp : Option RhythmTemp) (midiKey key velocity : Nat) (x : Ext W)
    (new : List (W × Call)) (hinv : p.unitInvariant attached)
    (hlt : p.activePartialCount + 4 < 4294967296)
    (hnew : (p.playPoly E cacheLoc (cacheTimbre.build c0 loc timbre) rhythmTemp midiKey key
      velocity x).2.calls = x.calls ++ new)
    (hfresh : ∀ e ∈ new, e.2 = Call.assignPolyToPart p.partNum →
      ∀ poly, E.retPoly e.1 e.2 = some poly → poly ∉ p.activePolys)
    (halloc : ∀ e ∈ new, e.2 = Call.allocPartial p.partNum →
      (E.retPartial e.1 e.2).isSome = true) :
    ((p.playPoly E cacheLoc (cacheTimbre.build c0 loc timbre) rhythmTemp midiKey key velocity
          x).1 = p
        ∧ (∀ e ∈ new, ∀ poly k v s ps, e.2 ≠ Call.polyReset poly k v s ps)
        ∧ (∀ e ∈ new, e.2 ≠ Call.allocPartial p.partNum))
      ∨ (∃ w poly ps,
          (w, Call.polyReset poly key velocity (cacheTimbre.build c0 loc timbre 0).sustain ps)
              ∈ new
            ∧ new.countP (fun e => decide (e.2 = Call.allocPartial p.partNum))
                = (cacheTimbre.build c0 loc timbre 0).partialCount
            ∧ (cacheTimbre.build c0 loc timbre 0).partialCount ≤ 4
            ∧ Poly.unitsGiven ps = (cacheTimbre.build c0 loc timbre 0).partialCount
            ∧ (p.playPoly E cacheLoc (cacheTimbre.build c0 loc timbre) rhythmTemp midiKey key
                velocity x).1.activePartialCount
              = p.activePartialCount + (cacheTimbre.build c0 loc timbre 0).partialCount
            ∧ (p.playPoly E cacheLoc (cacheTimbre.build c0 loc timbre) rhythmTemp midiKey key
                velocity x).1.unitInvariant (Poly.reset.attached attached poly ps)) := by
  obtain ⟨a, A, ha, hA, -, hcases⟩ := playPoly_trace E p cacheLoc
    (cacheTimbre.build c0 loc timbre) rhythmTemp midiKey key velocity x
  have hAk := abort_calls_kind E p key x A hA
  have hAr : ∀ e ∈ A, (∀ poly k v s ps, e.2 ≠ Call.polyReset poly k v s ps)
      ∧ e.2 ≠ Call.allocPartial p.partNum := by
    intro e he
    obtain ⟨v, hv⟩ := hAk e he
    rw [hv]
    exact ⟨fun _ _ _ _ _ hh => (by cases hh), fun hh => (by cases hh)⟩
  rcases hcases with ⟨-, hr⟩ | ⟨-, -, -, hr⟩ | ⟨-, -, hr⟩
  · left
    rw [hr, Ext.call_calls] at hnew
    have hn := List.append_cancel_left hnew
    rw [hr, ← hn]
    refine ⟨rfl, ?_, ?_⟩ <;> intro e he <;> rw [List.mem_singleton] at he <;> rw [he]
    · exact fun _ _ _ _ _ hh => (by cases hh)
    · exact fun hh => (by cases hh)
  · left
    rw [hr, ha] at hnew
    have hn := List.append_cancel_left hnew
    rw [hr, ← hn]
    exact ⟨rfl, fun e he => (hAr e he).1, fun e he => (hAr e he).2⟩
  · rw [hr] at hnew ⊢
    rcases admission_units E p cacheLoc (cacheTimbre.build c0 loc timbre) rhythmTemp midiKey key
        velocity a with
      ⟨hp, T, hT, hTk⟩ | ⟨poly, L1, L2, w0, w1, w2, ps, hret, hlist, hcalls, hK, hP2, hN, hC, hU⟩
    · left
      rw [hT, ha, List.append_assoc] at hnew
      have hn := List.append_cancel_left hnew
      rw [← hn]
      refine ⟨hp, ?_, ?_⟩ <;> intro e he <;> rcases List.mem_append.mp he with he | he
      · exact (hAr e he).1
      · exact (hTk e he).1
      · exact (hAr e he).2
      · exact (hTk e he).2
    · right
      rw [hcalls, ha] at hnew
      simp only [List.append_assoc] at hnew
      have hn := List.append_cancel_left hnew
      have hcount := cacheTimbre_playing_count c0 loc timbre
      have hL1 : L1.length = (cacheTimbre.build c0 loc timbre 0).partialCount := by
        rw [hN]
        exact hcount.1
      have hL1new : ∀ e ∈ L1, e ∈ new := by
        intro e he
        rw [← hn]
        simp [he]
      have hsome : ∀ e ∈ L1, (E.retPartial e.1 e.2).isSome = true :=
        fun e he => halloc e (hL1new e he) (hK e he)
      have hunits : Poly.unitsGiven ps = (cacheTimbre.build c0 loc timbre 0).partialCount := by
        rw [hU, List.countP_eq_length.2 hsome, hL1]
      have hpoly : poly ∉ p.activePolys := by
        refine hfresh (w0, Call.assignPolyToPart p.partNum) ?_ rfl poly hret
        rw [← hn]
        simp
      have hcnt := hC hlt
      rw [hL1] at hcnt
      refine ⟨w1, poly, ps, ?_, ?_, hcount.2, hunits, hcnt, ?_, ?_⟩
      · rw [← hn]
        simp
      · rw [← hn]
        have hA0 : A.countP (fun e => decide (e.2 = Call.allocPartial p.partNum)) = 0 :=
          List.countP_eq_zero.2 (fun e he => by simpa using (hAr e he).2)
        have hL2 : L2.countP (fun e => decide (e.2 = Call.allocPartial p.partNum)) = 0 := by
          refine List.countP_eq_zero.2 (fun e he => ?_)
          obtain ⟨u, slot, c, pair, hv⟩ := hP2 e he
          rw [hv]
          simp
        have hL1c : L1.countP (fun e => decide (e.2 = Call.allocPartial p.partNum))
            = L1.length :=
          List.countP_eq_length.2 (fun e he => by simpa using hK e he)
        simp only [List.countP_append, hA0, hL2, hL1c, hL1]
        simp [List.countP_cons]
      · show (Part.playPoly.admission E p cacheLoc (cacheTimbre.build c0 loc timbre) rhythmTemp
            midiKey key velocity a).1.activePartialCount
          = ((Part.playPoly.admission E p cacheLoc (cacheTimbre.build c0 loc timbre)
              rhythmTemp midiKey key velocity a).1.activePolys.map
                (Poly.reset.attached attached poly ps)).sum
        rw [hcnt, hlist, hinv.1, Poly.reset.attached, hunits]
        split_ifs
        · rw [PolyList.prepend, List.map_cons, List.sum_cons, Function.update_same,
            sum_map_update_not_mem attached poly _ p.activePolys hpoly]
          omega
        · rw [PolyList.append, List.map_append, List.sum_append, List.map_singleton,
            List.sum_singleton, Function.update_same,
            sum_map_update_not_mem attached poly _ p.activePolys hpoly]
      · show (Part.playPoly.admission E p cacheLoc (cacheTimbre.build c0 loc timbre) rhythmTemp
            midiKey key velocity a).1.activePolys.Nodup
        rw [hlist]
        split_ifs
        · exact List.nodup_cons.mpr ⟨hpoly, hinv.2⟩
        · rw [PolyList.append]
          exact List.Nodup.append hinv.2 (List.nodup_singleton poly)
            (fun r hr hr2 => hpoly ((List.mem_singleton.mp hr2) ▸ hr))

/-- Claim C21. The invariant: the active-unit counter of a part is the total number of units
attached to the voices of its active-voice list (and no voice is listed twice); `attached`
is the number of units attached to each voice.

It holds in the part the constructor leaves (counter 0, empty list). It is kept by
`playPoly` on a cache built by `cacheTimbre`, when the pool hands out a voice that is not
in the list and a unit for every request, and the counter is 4 below the end of its range:
either the note is dropped, the part is as it was and neither a unit is requested nor a
voice reset; or a voice is reset with handles `ps`, the units requested are exactly
`cache[0].partialCount`, at most 4, the voice holds exactly that many, the counter goes up
by that number, and the invariant holds with the units of that voice set to those it was
given. It is kept by `partialDeactivated(poly)` for a listed voice that had a unit and is
inactive exactly when none is left: the counter was positive and goes down by one (no
underflow), the voice stays in the list iff it still holds a unit, and the invariant holds
with one unit less attached to that voice. -/
theorem unit_counter_invariant {W : Type} (E : Env W) (attached : PolyRef → Nat) :
    (∀ (synth : SynthConfig) (raw : Part) (usePartNum : Nat),
        (Part.new synth raw usePartNum).activePartialCount = 0
          ∧ (Part.new synth raw usePartNum).activePolys = []
          ∧ (Part.new synth raw usePartNum).unitInvariant attached)
      ∧ (∀ (p : Part) (cacheLoc : CacheLoc) (c0 : PatchCacheArr) (loc : TimbreLoc)
          (timbre : TimbreParam) (rhythmTemp : Option RhythmTemp) (midiKey key velocity : Nat)
          (x : Ext W) (new : List (W × Call)),
          p.unitInvariant attached →
          p.activePartialCount + 4 < 4294967296 →
          (p.playPoly E cacheLoc (cacheTimbre.build c0 loc timbre) rhythmTemp midiKey key
            velocity x).2.calls = x.calls ++ new →
          (∀ e ∈ new, e.2 = Call.assignPolyToPart p.partNum →
            ∀ poly ∈ E.retPoly e.1 e.2, poly ∉ p.activePolys) →
          (∀ e ∈ new, e.2 = Call.allocPartial p.partNum →
            (E.retPartial e.1 e.2).isSome = true) →
          ((p.playPoly E cacheLoc (cacheTimbre.build c0 loc timbre) rhythmTemp midiKey key
                velocity x).1 = p
              ∧ (∀ e ∈ new, ∀ poly k v s ps, e.2 ≠ Call.polyReset poly k v s ps)
              ∧ (∀ e ∈ new, e.2 ≠ Call.allocPartial p.partNum))
            ∨ (∃ w poly ps,
                (w, Call.polyReset poly key velocity
                    (cacheTimbre.build c0 loc timbre 0).sustain ps) ∈ new
                  ∧ new.countP (fun e => decide (e.2 = Call.allocPartial p.partNum))
                      = (cacheTimbre.build c0 loc timbre 0).partialCount
                  ∧ (cacheTimbre.build c0 loc timbre 0).partialCount ≤ 4
                  ∧ Poly.unitsGiven ps = (cacheTimbre.build c0 loc timbre 0).partialCount
                  ∧ (p.playPoly E cacheLoc (cacheTimbre.build c0 loc timbre) rhythmTemp midiKey
                      key velocity x).1.activePartialCount
                    = p.activePartialCount + (cacheTimbre.build c0 loc timbre 0).partialCount
                  ∧ (p.playPoly E cacheLoc (cacheTimbre.build c0 loc timbre) rhythmTemp midiKey
                      key velocity x).1.unitInvariant (Poly.reset.attached attached poly ps)))
      ∧ (∀ (p : Part) (poly : PolyRef) (x : Ext W),
          p.unitInvariant attached →
          poly ∈ p.activePolys →
          0 < attached poly →
          E.polyIsActive x.world poly = decide (attached poly - 1 ≠ 0) →
            0 < p.activePartialCount
              ∧ (p.partialDeactivated E poly x).1.activePartialCount = p.activePartialCount - 1
              ∧ (poly ∈ (p.partialDeactivated E poly x).1.activePolys ↔ attached poly - 1 ≠ 0)
              ∧ (p.partialDeactivated E poly x).1.unitInvariant
                  (Poly.partialDeactivated.attached attached poly)) := by
  refine ⟨fun _ _ _ => ⟨rfl, rfl, rfl, List.nodup_nil⟩, ?_, ?_⟩
  · intro p cacheLoc c0 loc timbre rhythmTemp midiKey key velocity x new hinv hlt hnew hfresh
      halloc
    exact playPoly_units E attached p cacheLoc c0 loc timbre rhythmTemp midiKey key velocity x
      new hinv hlt hnew (fun e he hk poly hret => hfresh e he hk poly hret) halloc
  · intro p poly x hinv hmem hpos hact
    obtain ⟨hsum, hnd⟩ := hinv
    obtain ⟨h1, h2⟩ := sum_map_update_mem attached poly (attached poly - 1) p.activePolys hnd
      hmem
    have hcpos : 0 < p.activePartialCount := by
      rw [hsum, h2]
      omega
    by_cases hleft : attached poly - 1 ≠ 0
    · have hact2 : E.polyIsActive x.world poly = true := by
        rw [hact]
        exact decide_eq_true hleft
      have he : p.partialDeactivated E poly x
          = ({ p with activePartialCount := decUInt32 p.activePartialCount }, x) := by
        rw [Part.partialDeactivated]
        simp only [hact2, Bool.true_eq_false, if_false]
      rw [he]
      refine ⟨hcpos, decUInt32_of_pos _ hcpos, ⟨fun _ => hleft, fun _ => hmem⟩, ?_, hnd⟩
      show decUInt32 p.activePartialCount
        = (p.activePolys.map (Poly.partialDeactivated.attached attached poly)).sum
      rw [decUInt32_of_pos _ hcpos, Poly.partialDeactivated.attached, h1, hsum, h2]
      omega
    · have hzero : attached poly - 1 = 0 := not_not.mp hleft
      have hact2 : E.polyIsActive x.world poly = false := by
        rw [hact]
        exact decide_eq_false hleft
      have he : p.partialDeactivated E poly x
          = ({ p with
                activePartialCount := decUInt32 p.activePartialCount
                activePolys := PolyList.remove p.activePolys poly },
              (x.call E (Call.polyFreed poly)).call E
                (Call.onPolyStateChanged (toBit8u p.partNum))) := by
        rw [Part.partialDeactivated]
        simp only [hact2, if_true]
      rw [he]
      refine ⟨hcpos, decUInt32_of_pos _ hcpos,
        ⟨fun hm => absurd hm hnd.not_mem_erase, fun hn => absurd hzero hn⟩, ?_,
        hnd.erase poly⟩
      show decUInt32 p.activePartialCount
        = ((PolyList.remove p.activePolys poly).map
            (Poly.partialDeactivated.attached attached poly)).sum
      rw [decUInt32_of_pos _ hcpos, Poly.partialDeactivated.attached, PolyList.remove,
        sum_map_update_not_mem attached poly _ _ hnd.not_mem_erase, hsum, h2]
      omega

theorem unit_counter_invariant_witness :
    (Example.part.unitInvariant Example.attached
        ∧ Example.part.activePartialCount + 4 < 4294967296
        ∧ (1 ∈ Example.part.activePolys ∧ 0 < Example.attached 1)
        ∧ Sim.env.polyIsActive Example.ext.world 1 = decide (Example.attached 1 - 1 ≠ 0))
      ∧ ((Example.part.playPoly Sim.env CacheLoc.patchCache
              (cacheTimbre.build (fun _ => Example.rawCache) (TimbreLoc.timbreTemp 0)
                Example.timbre) none 72 72 100 Example.ext).1 = Example.part
          ∨ ∃ poly ps,
              (Example.part.playPoly Sim.env CacheLoc.patchCache
                (cacheTimbre.build (fun _ => Example.rawCache) (TimbreLoc.timbreTemp 0)
                  Example.timbre) none 72 72 100 Example.ext).1.unitInvariant
                  (Poly.reset.attached Example.attached poly ps)
                ∧ (Example.part.playPoly Sim.env CacheLoc.patchCache
                    (cacheTimbre.build (fun _ => Example.rawCache) (TimbreLoc.timbreTemp 0)
                      Example.timbre) none 72 72 100 Example.ext).1.activePartialCount
                  = Example.part.activePartialCount
                    + (cacheTimbre.build (fun _ => Example.rawCache) (TimbreLoc.timbreTemp 0)
                        Example.timbre 0).partialCount)
      ∧ (Example.part.partialDeactivated Sim.env 1 Example.ext).1.activePartialCount
          = Example.part.activePartialCount - 1
      ∧ (Example.part.partialDeactivated Sim.env 1 Example.ext).1.unitInvariant
          (Poly.partialDeactivated.attached Example.attached 1) :=
  ⟨⟨by decide, by decide, ⟨by decide, by decide⟩, by decide⟩,
    ((unit_counter_invariant Sim.env Example.attached).2.1 Example.part CacheLoc.patchCache
      (fun _ => Example.rawCache) (TimbreLoc.timbreTemp 0) Example.timbre none 72 72 100
      Example.ext
      (Example.part.playPoly Sim.env CacheLoc.patchCache
        (cacheTimbre.build (fun _ => Example.rawCache) (TimbreLoc.timbreTemp 0)
          Example.timbre) none 72 72 100 Example.ext).2.calls
      (by decide) (by decide) rfl (by decide) (by decide)).imp (fun h => h.1)
      (fun h => h.elim fun _ h => h.elim fun poly h => h.elim fun ps h =>
        ⟨poly, ps, h.2.2.2.2.2, h.2.2.2.2.1⟩),
    ((unit_counter_invariant Sim.env Example.attached).2.2 Example.part 1 Example.ext
      (by decide) (by decide) (by decide) (by decide)).2.1,
    ((unit_counter_invariant Sim.env Example.attached).2.2 Example.part 1 Example.ext
      (by decide) (by decide) (by decide) (by decide)).2.2.2⟩

/-- The `playPoly` of the example above admits the voice `3` with three units: the counter
goes from 6 to 9. -/
theorem unit_counter_admits :
    (Example.part.playPoly Sim.env CacheLoc.patchCache
        (cacheTimbre.build (fun _ => Example.rawCache) (TimbreLoc.timbreTemp 0)
          Example.timbre) none 72 72 100 Example.ext).1.activePolys = [1, 2, 3]
      ∧ (Example.part.playPoly Sim.env CacheLoc.patchCache
        (cacheTimbre.build (fun _ => Example.rawCache) (TimbreLoc.timbreTemp 0)
          Example.timbre) none 72 72 100 Example.ext).1.activePartialCount = 9 := by
  decide

end MT32Emu
